import Mathlib

/-!
The image service chayachitr: the transformation cache

A shallow embedding of the transformation cache of the image service
(`controllers/image.go`, `models/image.go`, `storage/minio.go`,
`storage/s3.go`) and the properties of its cache digest, object naming,
ledger and pipeline, with the collaborators in front of it: upload
validation (`utils/validation.go`), the rate limiter
(`middleware/rate_limiter.go`) and the Authorization header check
(`middleware/auth.go`).

Go strings are modelled by `List Char`: the list of their code points. Every
string the handler sees was decoded by `encoding/json` or is built from
ASCII pieces, the functions below only compare against ASCII characters,
and the bytes that are hashed are the UTF-8 encoding of the list.

Library code is modelled as follows. `crypto/md5`, `encoding/hex`,
`encoding/json` (for the parameter record) and `filepath.Ext` are written
out. The operations of the imaging library, the float encoder of
`encoding/json`, `filepath.Join`, `unicode.ToLower` and the JWT library are
parameters; `strings.Split` is written out for a separator that is not
empty. MongoDB and the object store are lists; whether one of their calls
fails during a request is given by the surroundings of the request (`Env`).
Points in time are integers.
-/

namespace Chayachitr

/-! ## crypto/md5 and encoding/hex (RFC 1321), on bytes as `Nat` -/

namespace MD5

/-- Per-round left-rotation amounts. -/
def shifts : List Nat :=
  [7, 12, 17, 22, 7, 12, 17, 22, 7, 12, 17, 22, 7, 12, 17, 22,
   5, 9, 14, 20, 5, 9, 14, 20, 5, 9, 14, 20, 5, 9, 14, 20,
   4, 11, 16, 23, 4, 11, 16, 23, 4, 11, 16, 23, 4, 11, 16, 23,
   6, 10, 15, 21, 6, 10, 15, 21, 6, 10, 15, 21, 6, 10, 15, 21]

/-- The additive constants: entry i is the integer part of 2^32 * |sin (i+1)|. -/
def table : List Nat :=
  [0xd76aa478, 0xe8c7b756, 0x242070db, 0xc1bdceee, 0xf57c0faf, 0x4787c62a,
   0xa8304613, 0xfd469501, 0x698098d8, 0x8b44f7af, 0xffff5bb1, 0x895cd7be,
   0x6b901122, 0xfd987193, 0xa679438e, 0x49b40821, 0xf61e2562, 0xc040b340,
   0x265e5a51, 0xe9b6c7aa, 0xd62f105d, 0x02441453, 0xd8a1e681, 0xe7d3fbc8,
   0x21e1cde6, 0xc33707d6, 0xf4d50d87, 0x455a14ed, 0xa9e3e905, 0xfcefa3f8,
   0x676f02d9, 0x8d2a4c8a, 0xfffa3942, 0x8771f681, 0x6d9d6122, 0xfde5380c,
   0xa4beea44, 0x4bdecfa9, 0xf6bb4b60, 0xbebfbc70, 0x289b7ec6, 0xeaa127fa,
   0xd4ef3085, 0x04881d05, 0xd9d4d039, 0xe6db99e5, 0x1fa27cf8, 0xc4ac5665,
   0xf4292244, 0x432aff97, 0xab9423a7, 0xfc93a039, 0x655b59c3, 0x8f0ccc92,
   0xffeff47d, 0x85845dd1, 0x6fa87e4f, 0xfe2ce6e0, 0xa3014314, 0x4e0811a1,
   0xf7537e82, 0xbd3af235, 0x2ad7d2bb, 0xeb86d391]

/-- Word size modulus of the 32-bit registers. -/
def W : Nat := 4294967296

/-- Bitwise complement of a 32-bit word. -/
def not32 (x : Nat) : Nat := 4294967295 - x % W

/-- Rotate a 32-bit word left by c bits. -/
def rotl (x c : Nat) : Nat := ((x <<< c) % W) ||| (x >>> (32 - c))

/-- Little-endian bytes of a value, n of them. -/
def leBytes : Nat → Nat → List Nat
  | 0, _ => []
  | n + 1, x => x % 256 :: leBytes n (x / 256)

/-- Little-endian 32-bit word made of (up to) four bytes. -/
def leWord (bs : List Nat) : Nat :=
  bs.foldr (fun b acc => b + 256 * acc) 0

/-- Split a byte list into the words of its 4-byte groups; the fuel is the number of words. -/
def words : Nat → List Nat → List Nat
  | 0, _ => []
  | n + 1, bs => leWord (bs.take 4) :: words n (bs.drop 4)

/-- Padding of RFC 1321 section 3.1 and 3.2: a 0x80 byte, zeros up to 56 mod 64,
then the bit length as a 64-bit little-endian integer. -/
def pad (msg : List Nat) : List Nat :=
  let n := msg.length
  let zeros := (119 - n % 64) % 64
  msg ++ [128] ++ List.replicate zeros 0 ++ leBytes 8 ((8 * n) % 18446744073709551616)

/-- The four registers. -/
structure Regs where
  a : Nat
  b : Nat
  c : Nat
  d : Nat
deriving DecidableEq, Repr

/-- The round function and message index of operation i. -/
def mix (i b c d : Nat) : Nat × Nat :=
  if i < 16 then ((b &&& c) ||| (not32 b &&& d), i)
  else if i < 32 then ((d &&& b) ||| (not32 d &&& c), (5 * i + 1) % 16)
  else if i < 48 then (b ^^^ c ^^^ d, (3 * i + 5) % 16)
  else (c ^^^ (b ||| not32 d), (7 * i) % 16)

/-- One of the 64 operations of a block. -/
def op (m : List Nat) (r : Regs) (i : Nat) : Regs :=
  let fg := mix i r.b r.c r.d
  let f := (fg.1 + r.a + table.getD i 0 + m.getD fg.2 0) % W
  let nb := (r.b + rotl f (shifts.getD i 0)) % W
  ⟨r.d, nb, r.b, r.c⟩

/-- Process one 64-byte block. -/
def block (r : Regs) (chunk : List Nat) : Regs :=
  let m := words 16 chunk
  let r2 := (List.range 64).foldl (op m) r
  ⟨(r.a + r2.a) % W, (r.b + r2.b) % W, (r.c + r2.c) % W, (r.d + r2.d) % W⟩

/-- Run the blocks of a padded message; the fuel is the number of blocks. -/
def blocks : Nat → Regs → List Nat → Regs
  | 0, r, _ => r
  | n + 1, r, bs => blocks n (block r (bs.take 64)) (bs.drop 64)

/-- Initial register values. -/
def init : Regs := ⟨0x67452301, 0xefcdab89, 0x98badcfe, 0x10325476⟩

/-- The 16-byte digest, `md5.Sum`. -/
def Sum (msg : List Nat) : List Nat :=
  let p := pad msg
  let r := blocks (p.length / 64) init p
  leBytes 4 r.a ++ leBytes 4 r.b ++ leBytes 4 r.c ++ leBytes 4 r.d

end MD5

/-- Lower-case hexadecimal digit of a value below 16. -/
def hexDigit (n : Nat) : Char :=
  "0123456789abcdef".toList.getD n '0'

/-- Lower-case hexadecimal text of a byte list, `hex.EncodeToString`. -/
def hexEncodeToString (bs : List Nat) : List Char :=
  bs.flatMap (fun b => [hexDigit (b / 16), hexDigit (b % 16)])

/-- UTF-8 encoding of one code point. -/
def utf8EncodeChar (c : Char) : List Nat :=
  let v := c.toNat
  if v < 128 then [v]
  else if v < 2048 then [192 + v / 64, 128 + v % 64]
  else if v < 65536 then [224 + v / 4096, 128 + (v / 64) % 64, 128 + v % 64]
  else [240 + v / 262144, 128 + (v / 4096) % 64, 128 + (v / 64) % 64, 128 + v % 64]

/-- Bytes of a string. -/
def utf8Bytes (s : List Char) : List Nat := s.flatMap utf8EncodeChar

/-! ## models/image.go -/

/-- A float64 value, by its IEEE-754 bit pattern. The handler never computes
with one: it only hands it to the JSON encoder and to the imaging library. -/
structure Float64 where
  bits : Nat
deriving DecidableEq, Repr

/-- Database identifier (`primitive.ObjectID`). -/
abbrev ObjectID := Nat

/-- A point in time (`time.Time`). -/
abbrev Time := Nat

/-- Byte content of an object. -/
abbrev Bytes := List Nat

/-- Resize parameters. -/
structure ResizeParams where
  Width : Int
  Height : Int
deriving DecidableEq, Repr

/-- Crop parameters. -/
structure CropParams where
  Width : Int
  Height : Int
  X : Int
  Y : Int
deriving DecidableEq, Repr

/-- Filter parameters. -/
structure FilterParams where
  Grayscale : Bool
  Sepia : Bool
  Blur : Option Float64
  Sharpen : Option Float64
deriving DecidableEq, Repr

/-- Watermark parameters. -/
structure WatermarkParams where
  Text : List Char
  FontSize : Float64
  X : Int
  Y : Int
  Opacity : Float64
deriving DecidableEq, Repr

/-- Transformation parameters: every field is a pointer in the source, `none` is the nil pointer. -/
structure TransformParams where
  Resize : Option ResizeParams
  Crop : Option CropParams
  Rotate : Option Float64
  Format : Option (List Char)
  Filters : Option FilterParams
  Flip : Option Bool
  Mirror : Option Bool
  Watermark : Option WatermarkParams
  Quality : Option Int
deriving DecidableEq, Repr

/-- An image transformation record. -/
structure Transformation where
  ID : ObjectID
  ImageID : ObjectID
  ObjectName : List Char
  URL : List Char
  Parameters : TransformParams
  Hash : List Char
  CreatedAt : Time
deriving DecidableEq, Repr

/-- An image record. -/
structure Image where
  ID : ObjectID
  UserID : ObjectID
  Filename : List Char
  ContentType : List Char
  Size : Int
  ObjectName : List Char
  URL : List Char
  Transformations : List Transformation
  CreatedAt : Time
  UpdatedAt : Time
deriving DecidableEq, Repr

/-! ## encoding/json: `json.Marshal` of a `TransformParams` -/

/-- Decimal text of an integer (`strconv.AppendInt` in base 10). -/
def formatInt : Int → List Char
  | Int.ofNat n => Nat.toDigits 10 n
  | Int.negSucc n => '-' :: Nat.toDigits 10 (n + 1)

/-- JSON text of a boolean. -/
def formatBool (b : Bool) : List Char :=
  if b then "true".toList else "false".toList

/-- Escaping of one code point inside a JSON string, with HTML escaping on as
`json.Marshal` has it: the quote, the backslash and the control characters
backspace, form feed, newline, carriage return and tab get a two-character
backslash form (the encoder of Go 1.22 and later; older ones write backspace
and form feed in the six-character form), `<`, `>`, `&` and the other
control characters get the six-character unicode form, and so do U+2028 and
U+2029. -/
def escapeChar (c : Char) : List Char :=
  if c = '"' then ['\\', '"']
  else if c = '\\' then ['\\', '\\']
  else if c.toNat = 8 then ['\\', 'b']
  else if c.toNat = 12 then ['\\', 'f']
  else if c = '\n' then ['\\', 'n']
  else if c = '\r' then ['\\', 'r']
  else if c = '\t' then ['\\', 't']
  else if c.toNat < 32 ∨ c = '<' ∨ c = '>' ∨ c = '&' then
    ['\\', 'u', '0', '0', hexDigit (c.toNat / 16), hexDigit (c.toNat % 16)]
  else if c.toNat = 8232 ∨ c.toNat = 8233 then
    ['\\', 'u', '2', '0', '2', hexDigit (c.toNat % 16)]
  else [c]

/-- JSON text of a string. -/
def formatString (s : List Char) : List Char :=
  '"' :: s.flatMap escapeChar ++ ['"']

/-- One `"name":value` member. -/
def member (name : String) (value : List Char) : List Char :=
  '"' :: name.toList ++ '"' :: ':' :: value

/-- An object: its members between braces, separated by commas. -/
def object (members : List (List Char)) : List Char :=
  '{' :: (List.intercalate [','] members) ++ ['}']

/-- A member with `omitempty` on a pointer field: left out when the pointer is nil. -/
def omitempty {α : Type} (name : String) (f : α → Option (List Char)) :
    Option α → Option (List (List Char))
  | none => some []
  | some v => (f v).map (fun txt => [member name txt])

/-- Collect the members of an object, failing when one of them fails. -/
def collect : List (Option (List (List Char))) → Option (List (List Char))
  | [] => some []
  | none :: _ => none
  | some ms :: rest => (collect rest).map (fun more => ms ++ more)

/-- JSON text of a `ResizeParams`. -/
def marshalResize (r : ResizeParams) : List Char :=
  object [member "width" (formatInt r.Width), member "height" (formatInt r.Height)]

/-- JSON text of a `CropParams`. -/
def marshalCrop (c : CropParams) : List Char :=
  object [member "width" (formatInt c.Width), member "height" (formatInt c.Height),
          member "x" (formatInt c.X), member "y" (formatInt c.Y)]

/-- JSON text of a `FilterParams`; the float encoder is a parameter and fails
on a value JSON cannot express. -/
def marshalFilters (floatJSON : Float64 → Option (List Char)) (f : FilterParams) :
    Option (List Char) :=
  (collect [some [member "grayscale" (formatBool f.Grayscale)],
            some [member "sepia" (formatBool f.Sepia)],
            omitempty "blur" floatJSON f.Blur,
            omitempty "sharpen" floatJSON f.Sharpen]).map object

/-- JSON text of a `WatermarkParams`. -/
def marshalWatermark (floatJSON : Float64 → Option (List Char)) (w : WatermarkParams) :
    Option (List Char) :=
  match floatJSON w.FontSize, floatJSON w.Opacity with
  | some fs, some op =>
      some (object [member "text" (formatString w.Text), member "font_size" fs,
                    member "x" (formatInt w.X), member "y" (formatInt w.Y),
                    member "opacity" op])
  | _, _ => none

/-- The serialization `json.Marshal(requestBody.Transformations)`: the fields
in declaration order, each left out when its pointer is nil. -/
def jsonMarshal (floatJSON : Float64 → Option (List Char)) (p : TransformParams) :
    Option (List Char) :=
  (collect [omitempty "resize" (fun r => some (marshalResize r)) p.Resize,
            omitempty "crop" (fun c => some (marshalCrop c)) p.Crop,
            omitempty "rotate" floatJSON p.Rotate,
            omitempty "format" (fun s => some (formatString s)) p.Format,
            omitempty "filters" (marshalFilters floatJSON) p.Filters,
            omitempty "flip" (fun b => some (formatBool b)) p.Flip,
            omitempty "mirror" (fun b => some (formatBool b)) p.Mirror,
            omitempty "watermark" (marshalWatermark floatJSON) p.Watermark,
            omitempty "quality" (fun q => some (formatInt q)) p.Quality]).map object

/-- The cache key of `TransformImage`: hex MD5 of the serialized parameters. -/
def transformationHash (paramsJSON : List Char) : List Char :=
  hexEncodeToString (MD5.Sum (utf8Bytes paramsJSON))

/-! ## path/filepath -/

/-- The loop of `filepath.Ext`, on the path read from its end: stop with the
empty string at a separator, return the suffix from the first dot met. -/
def extScan : List Char → List Char → List Char
  | [], _ => []
  | c :: rest, acc =>
      if c = '/' then []
      else if c = '.' then '.' :: acc
      else extScan rest (c :: acc)

/-- The extension `filepath.Ext(path)`: the suffix beginning at the final dot
in the final element of the path, empty if there is no dot. -/
def filepathExt (path : List Char) : List Char :=
  extScan path.reverse []

/-- The directory component of `filepath.Split`: the path up to and
including its final separator. -/
def filepathSplitDir (path : List Char) : List Char :=
  (path.reverse.dropWhile (fun c => c ≠ '/')).reverse

/-! ## storage/minio.go and storage/s3.go -/

/-- An object of the bucket. -/
structure StoredObject where
  key : List Char
  data : Bytes
  contentType : List Char
deriving DecidableEq, Repr

/-- The bucket of the object store. -/
abbrev Bucket := List StoredObject

/-- Writing an object: it replaces the object of the same key, if any. -/
def Bucket.put (b : Bucket) (o : StoredObject) : Bucket :=
  o :: b.filter (fun x => x.key ≠ o.key)

/-- Reading an object by key. -/
def Bucket.get (b : Bucket) (key : List Char) : Option StoredObject :=
  b.find? (fun x => x.key = key)

/-- Object name that the MinIO `UploadImage` writes to; `filepath.Join` is a parameter. -/
def StorageClient.uploadObjectName (join : List Char → List Char → List Char)
    (filename : List Char) : List Char :=
  join "uploads".toList filename

/-- MinIO `UploadImage`: the object name on success, and the bucket afterwards. -/
def StorageClient.UploadImage (join : List Char → List Char → List Char) (putErr : Bool)
    (b : Bucket) (content : Bytes) (filename contentType : List Char) :
    Option (List Char) × Bucket :=
  let objectName := StorageClient.uploadObjectName join filename
  if putErr then (none, b) else (some objectName, b.put ⟨objectName, content, contentType⟩)

/-- Object name that the MinIO `StoreTransformedImage` derives:
`fmt.Sprintf("%s_%s%s", name[:len(name)-len(ext)], hash, ext)`. -/
def StorageClient.transformedObjectName (originalObjectName transformationHash : List Char) :
    List Char :=
  let ext := filepathExt originalObjectName
  originalObjectName.take (originalObjectName.length - ext.length)
    ++ "_".toList ++ transformationHash ++ ext

/-- MinIO `StoreTransformedImage`: the object name on success, and the bucket afterwards. -/
def StorageClient.StoreTransformedImage (putErr : Bool) (b : Bucket) (content : Bytes)
    (originalObjectName transformationHash contentType : List Char) :
    Option (List Char) × Bucket :=
  let transformedObjectName :=
    StorageClient.transformedObjectName originalObjectName transformationHash
  if putErr then (none, b)
  else (some transformedObjectName, b.put ⟨transformedObjectName, content, contentType⟩)

/-- Object name that the S3 `UploadImage` writes to. -/
def S3StorageClient.uploadObjectName (join : List Char → List Char → List Char)
    (filename : List Char) : List Char :=
  join "uploads".toList filename

/-- S3 `UploadImage`. -/
def S3StorageClient.UploadImage (join : List Char → List Char → List Char) (putErr : Bool)
    (b : Bucket) (content : Bytes) (filename contentType : List Char) :
    Option (List Char) × Bucket :=
  let objectName := S3StorageClient.uploadObjectName join filename
  if putErr then (none, b) else (some objectName, b.put ⟨objectName, content, contentType⟩)

/-- Object name that the S3 `StoreTransformedImage` derives. -/
def S3StorageClient.transformedObjectName (originalObjectName transformationHash : List Char) :
    List Char :=
  let ext := filepathExt originalObjectName
  originalObjectName.take (originalObjectName.length - ext.length)
    ++ "_".toList ++ transformationHash ++ ext

/-- S3 `StoreTransformedImage`. -/
def S3StorageClient.StoreTransformedImage (putErr : Bool) (b : Bucket) (content : Bytes)
    (originalObjectName transformationHash contentType : List Char) :
    Option (List Char) × Bucket :=
  let transformedObjectName :=
    S3StorageClient.transformedObjectName originalObjectName transformationHash
  if putErr then (none, b)
  else (some transformedObjectName, b.put ⟨transformedObjectName, content, contentType⟩)

/-- A digest as `hex.EncodeToString(md5.Sum(..))` writes it: 32 lower-case hexadecimal characters. -/
def isHexDigest (d : List Char) : Prop :=
  d.length = 32 ∧ ∀ c ∈ d, c ∈ "0123456789abcdef".toList

instance (d : List Char) : Decidable (isHexDigest d) := by
  unfold isHexDigest; infer_instance

/-! ## The imaging library and the pipeline of `TransformImage` -/

/-- Output formats of the imaging library. -/
inductive Format where
  | JPEG
  | PNG
  | GIF
  | TIFF
  | BMP
deriving DecidableEq, Repr

/-- A point (`image.Point`). -/
structure Point where
  X : Int
  Y : Int
deriving DecidableEq, Repr

/-- A rectangle (`image.Rectangle`), from Min inclusive to Max exclusive. -/
structure Rectangle where
  Min : Point
  Max : Point
deriving DecidableEq, Repr

/-- Whether a rectangle has no points. -/
def Rectangle.Empty (r : Rectangle) : Bool :=
  decide (r.Min.X ≥ r.Max.X) || decide (r.Min.Y ≥ r.Max.Y)

/-- Whether every point of r is in s (`image.Rectangle.In`). -/
def Rectangle.In (r s : Rectangle) : Bool :=
  if r.Empty then true
  else decide (s.Min.X ≤ r.Min.X) && decide (r.Max.X ≤ s.Max.X) &&
       decide (s.Min.Y ≤ r.Min.Y) && decide (r.Max.Y ≤ s.Max.Y)

/-- The largest rectangle contained in both (`image.Rectangle.Intersect`). -/
def Rectangle.Intersect (r s : Rectangle) : Rectangle :=
  let r1 : Rectangle :=
    ⟨⟨max r.Min.X s.Min.X, max r.Min.Y s.Min.Y⟩, ⟨min r.Max.X s.Max.X, min r.Max.Y s.Max.Y⟩⟩
  if r1.Empty then ⟨⟨0, 0⟩, ⟨0, 0⟩⟩ else r1

/-- The operations of the imaging library and of `utils.AddWatermark`, each an
abstract pure function on an image type, with the float encoder of
`encoding/json`. -/
structure Imaging (Img : Type) where
  Decode : Bytes → Option Img
  Encode : Img → Format → Option Bytes
  Bounds : Img → Rectangle
  Resize : Img → Int → Int → Img
  Crop : Img → Rectangle → Img
  Rotate : Img → Float64 → Img
  FlipV : Img → Img
  FlipH : Img → Img
  Grayscale : Img → Img
  Sepia : Img → Img
  Blur : Img → Float64 → Img
  Sharpen : Img → Float64 → Img
  AddWatermark : Img → List Char → Int → Int → Float64 → Img
  floatJSON : Float64 → Option (List Char)

/-- Addition of two Go `int` values (64 bits, wrapping). -/
def addInt (a b : Int) : Int :=
  (a + b + 9223372036854775808) % 18446744073709551616 - 9223372036854775808

/-- The rectangle that the crop stage hands to `imaging.Crop`. -/
def cropRectangle (c : CropParams) : Rectangle :=
  ⟨⟨c.X, c.Y⟩, ⟨addInt c.X c.Width, addInt c.Y c.Height⟩⟩

/-- The filter block of the pipeline. -/
def applyFilters {Img : Type} (lib : Imaging Img) (f : FilterParams) (img : Img) : Img :=
  let dstImage := img
  let dstImage := if f.Grayscale then lib.Grayscale dstImage else dstImage
  let dstImage := if f.Sepia then lib.Sepia dstImage else dstImage
  let dstImage := match f.Blur with
    | some radius => lib.Blur dstImage radius
    | none => dstImage
  let dstImage := match f.Sharpen with
    | some amount => lib.Sharpen dstImage amount
    | none => dstImage
  dstImage

/-- The transformations of `TransformImage`, from the decoded source to the
image that is encoded. -/
def applyTransformations {Img : Type} (lib : Imaging Img) (p : TransformParams)
    (srcImage : Img) : Img :=
  let dstImage := srcImage
  let dstImage := match p.Resize with
    | some r => lib.Resize dstImage r.Width r.Height
    | none => dstImage
  let dstImage := match p.Crop with
    | some c => lib.Crop dstImage (cropRectangle c)
    | none => dstImage
  let dstImage := match p.Rotate with
    | some deg => lib.Rotate dstImage deg
    | none => dstImage
  let dstImage := match p.Flip with
    | some true => lib.FlipV dstImage
    | _ => dstImage
  let dstImage := match p.Mirror with
    | some true => lib.FlipH dstImage
    | _ => dstImage
  let dstImage := match p.Filters with
    | some f => applyFilters lib f dstImage
    | none => dstImage
  let dstImage := match p.Watermark with
    | some w => lib.AddWatermark dstImage w.Text w.X w.Y w.Opacity
    | none => dstImage
  dstImage

/-- The output format and content type chosen by `TransformImage`. -/
def outputFormat (p : TransformParams) (image : Image) : Format × List Char :=
  match p.Format with
  | some f =>
      if f = "png".toList then (Format.PNG, "image/png".toList)
      else if f = "gif".toList then (Format.GIF, "image/gif".toList)
      else (Format.JPEG, "image/jpeg".toList)
  | none =>
      let ext := filepathExt image.Filename
      if ext = ".png".toList then (Format.PNG, "image/png".toList)
      else if ext = ".gif".toList then (Format.GIF, "image/gif".toList)
      else (Format.JPEG, "image/jpeg".toList)

/-! ## controllers/image.go: `TransformImage` -/

/-- The persistent state the handler works on: the two collections and the bucket. -/
structure State where
  images : List Image
  transformations : List Transformation
  bucket : Bucket
deriving DecidableEq, Repr

/-- What the handler gets from the HTTP layer: the authenticated user (absent
when the context has none), the image id (absent when the path parameter is
not an object id) and the bound and validated body (the error text when
binding or validation fails). -/
structure Request where
  userID : Option ObjectID
  imageID : Option ObjectID
  body : Except (List Char) TransformParams

/-- What the surroundings do during one request: whether a database or
storage call fails (for the database the text of the driver error), the
presigned URL of a key (absent when presigning fails), the fresh object id
and the two clock readings. -/
structure Env where
  findImageErr : Option (List Char)
  findTransformationErr : Option (List Char)
  presign : List Char → Option (List Char)
  getObjectErr : Bool
  putObjectErr : Bool
  insertErr : Option (List Char)
  updateErr : Bool
  newObjectID : ObjectID
  now : Time
  updatedAt : Time

/-- The JSON answer of the handler. -/
inductive Response where
  | error (status : Nat) (msg : List Char)
  | transformation (status : Nat) (t : Transformation)
deriving DecidableEq, Repr

/-- The record an answer carries, if any. -/
def Response.record : Response → Option Transformation
  | .error _ _ => none
  | .transformation _ t => some t

/-- The HTTP status of an answer. -/
def Response.status : Response → Nat
  | .error st _ => st
  | .transformation st _ => st

/-- The calls a request makes on its collaborators, in order. -/
inductive Effect where
  | findImage
  | findTransformation
  | presignURL (key : List Char)
  | getObject (key : List Char)
  | runPipeline
  | encode
  | putObject (key : List Char)
  | insertTransformation (id : ObjectID)
  | updateImage (id : ObjectID)
deriving DecidableEq, Repr

/-- Result of a request: the state after it, the answer and the calls made. -/
structure Outcome where
  state : State
  resp : Response
  trace : List Effect
deriving DecidableEq, Repr

/-- Local variables of a handler that found no record in the ledger. -/
structure Pending where
  imageID : ObjectID
  image : Image
  params : TransformParams
  hash : List Char
deriving DecidableEq, Repr

/-- Result of the first half of the handler. -/
inductive Lookup where
  | answered (resp : Response) (trace : List Effect)
  | miss (p : Pending)
deriving DecidableEq, Repr

/-- `FindOne` on the images collection with the filter `_id`, `user_id`. -/
def findImage (images : List Image) (imageID userID : ObjectID) : Option Image :=
  images.find? (fun im => decide (im.ID = imageID) && decide (im.UserID = userID))

/-- `FindOne` on the transformations collection with the filter `image_id`, `hash`. -/
def findTransformation (ledger : List Transformation) (imageID : ObjectID)
    (hash : List Char) : Option Transformation :=
  ledger.find? (fun t => decide (t.ImageID = imageID) && decide (t.Hash = hash))

/-- `UpdateOne` on the images collection with the filter `_id`: the first
matching record gets the transformation pushed and `updated_at` set. -/
def pushTransformation (imageID : ObjectID) (t : Transformation) (at_ : Time) :
    List Image → List Image
  | [] => []
  | im :: rest =>
      if im.ID = imageID then
        { im with Transformations := im.Transformations ++ [t], UpdatedAt := at_ } :: rest
      else im :: pushTransformation imageID t at_ rest

/-- First half of `TransformImage`: request checks, image lookup, cache key,
ledger lookup, and the answer on a hit. -/
def TransformImage.lookup {Img : Type} (lib : Imaging Img) (env : Env) (s : State)
    (req : Request) : Lookup :=
  match req.userID with
  | none => .answered (.error 401 "User ID not found in context".toList) []
  | some userID =>
  match req.imageID with
  | none => .answered (.error 400 "Invalid image ID".toList) []
  | some imageID =>
  match req.body with
  | .error e => .answered (.error 400 e) []
  | .ok params =>
  match env.findImageErr with
  | some e => .answered (.error 500 e) [.findImage]
  | none =>
  match findImage s.images imageID userID with
  | none => .answered (.error 404 "Image not found".toList) [.findImage]
  | some image =>
  match jsonMarshal lib.floatJSON params with
  | none =>
      .answered (.error 500 "Failed to process transformation parameters".toList) [.findImage]
  | some paramsJSON =>
  let transformationHash := transformationHash paramsJSON
  match env.findTransformationErr with
  | some e => .answered (.error 500 e) [.findImage, .findTransformation]
  | none =>
  match findTransformation s.transformations imageID transformationHash with
  | some existingTransformation =>
      match env.presign existingTransformation.ObjectName with
      | none =>
          .answered (.error 500 "Failed to get transformation URL".toList)
            [.findImage, .findTransformation, .presignURL existingTransformation.ObjectName]
      | some url =>
          .answered (.transformation 200 { existingTransformation with URL := url })
            [.findImage, .findTransformation, .presignURL existingTransformation.ObjectName]
  | none => .miss ⟨imageID, image, params, transformationHash⟩

/-- Second half of `TransformImage`, after a miss: fetch and decode the
source, run the pipeline, encode, store, insert the record, push it onto the
image record. -/
def TransformImage.materialize {Img : Type} (lib : Imaging Img) (env : Env) (s : State)
    (p : Pending) : Outcome :=
  let src := p.image.ObjectName
  if env.getObjectErr then
    ⟨s, .error 500 "Failed to get original image".toList, [.getObject src]⟩
  else
  match (s.bucket.get src).bind (fun o => lib.Decode o.data) with
  | none => ⟨s, .error 500 "Failed to decode image".toList, [.getObject src]⟩
  | some srcImage =>
  let dstImage := applyTransformations lib p.params srcImage
  let fc := outputFormat p.params p.image
  match lib.Encode dstImage fc.1 with
  | none =>
      ⟨s, .error 500 "Failed to encode transformed image".toList,
        [.getObject src, .runPipeline, .encode]⟩
  | some buf =>
  match StorageClient.StoreTransformedImage env.putObjectErr s.bucket buf src p.hash fc.2 with
  | (none, _) =>
      ⟨s, .error 500 "Failed to store transformed image".toList,
        [.getObject src, .runPipeline, .encode,
         .putObject (StorageClient.transformedObjectName src p.hash)]⟩
  | (some transformedObjectName, bucket) =>
  let s1 : State := { s with bucket := bucket }
  let tr := [.getObject src, .runPipeline, .encode, .putObject transformedObjectName,
             Effect.presignURL transformedObjectName]
  match env.presign transformedObjectName with
  | none => ⟨s1, .error 500 "Failed to get transformed image URL".toList, tr⟩
  | some transformedURL =>
  let transformation : Transformation :=
    { ID := env.newObjectID, ImageID := p.imageID, ObjectName := transformedObjectName,
      URL := transformedURL, Parameters := p.params, Hash := p.hash, CreatedAt := env.now }
  match env.insertErr with
  | some e => ⟨s1, .error 500 e, tr ++ [.insertTransformation transformation.ID]⟩
  | none =>
  let s2 : State := { s1 with transformations := s1.transformations ++ [transformation] }
  let s3 : State :=
    if env.updateErr then s2
    else { s2 with images := pushTransformation p.imageID transformation env.updatedAt s2.images }
  ⟨s3, .transformation 201 transformation,
    tr ++ [.insertTransformation transformation.ID, .updateImage p.imageID]⟩

/-- The handler `TransformImage`, one request run from start to end. -/
def TransformImage {Img : Type} (lib : Imaging Img) (env : Env) (s : State)
    (req : Request) : Outcome :=
  match TransformImage.lookup lib env s req with
  | .answered resp trace => ⟨s, resp, trace⟩
  | .miss p =>
      let o := TransformImage.materialize lib env s p
      ⟨o.state, o.resp, [Effect.findImage, Effect.findTransformation] ++ o.trace⟩

/-- A sequence of requests handled one at a time, each with its surroundings. -/
def runRequests {Img : Type} (lib : Imaging Img) (s : State) :
    List (Env × Request) → State
  | [] => s
  | (env, req) :: rest => runRequests lib (TransformImage lib env s req).state rest

/-- No two records of the ledger have the same image id and hash. -/
def LedgerUnique (ledger : List Transformation) : Prop :=
  ledger.Pairwise (fun a b => ¬ (a.ImageID = b.ImageID ∧ a.Hash = b.Hash))

/-- The digest `TransformImage` derives from the parameters alone; absent
when the parameters cannot be serialized. -/
def cacheDigest {Img : Type} (lib : Imaging Img) (p : TransformParams) : Option (List Char) :=
  (jsonMarshal lib.floatJSON p).map transformationHash

/-! ## A small instance of the imaging library, for evaluation

An image is its bounds rectangle, encoded as the two bytes width, height. -/

/-- Width of a rectangle as a natural number. -/
def Rectangle.Dx (r : Rectangle) : Nat := (r.Max.X - r.Min.X).toNat

/-- Height of a rectangle as a natural number. -/
def Rectangle.Dy (r : Rectangle) : Nat := (r.Max.Y - r.Min.Y).toNat

/-- The imaging operations on bounds alone: resize sets the size, crop
returns the intersection of the rectangle with the bounds moved to the
origin (as `imaging.Crop` does), every other operation keeps the bounds. -/
def boundsImaging : Imaging Rectangle where
  Decode := fun bs => match bs with
    | [w, h] => some ⟨⟨0, 0⟩, ⟨w, h⟩⟩
    | _ => none
  Encode := fun img _ => some [img.Dx, img.Dy]
  Bounds := fun img => img
  Resize := fun _ w h => ⟨⟨0, 0⟩, ⟨w, h⟩⟩
  Crop := fun img r =>
    let c := r.Intersect img
    ⟨⟨0, 0⟩, ⟨c.Max.X - c.Min.X, c.Max.Y - c.Min.Y⟩⟩
  Rotate := fun img _ => img
  FlipV := fun img => img
  FlipH := fun img => img
  Grayscale := fun img => img
  Sepia := fun img => img
  Blur := fun img _ => img
  Sharpen := fun img _ => img
  AddWatermark := fun img _ _ _ _ => img
  floatJSON := fun _ => none

/-- Surroundings in which every call succeeds; the URL of a key is the key after a fixed prefix. -/
def calmEnv (id : ObjectID) (now : Time) : Env where
  findImageErr := none
  findTransformationErr := none
  presign := fun key => some ("https://store/".toList ++ key)
  getObjectErr := false
  putObjectErr := false
  insertErr := none
  updateErr := false
  newObjectID := id
  now := now
  updatedAt := now

/-- An image record of user 7: an 8 by 6 JPEG. -/
def sampleImage : Image where
  ID := 1
  UserID := 7
  Filename := "0a1b.jpg".toList
  ContentType := "image/jpeg".toList
  Size := 2
  ObjectName := "uploads/0a1b.jpg".toList
  URL := []
  Transformations := []
  CreatedAt := 10
  UpdatedAt := 10

/-- A state with the sample image uploaded and an empty ledger. -/
def sampleState : State where
  images := [sampleImage]
  transformations := []
  bucket := [⟨"uploads/0a1b.jpg".toList, [8, 6], "image/jpeg".toList⟩]

/-- Parameters with every field absent. -/
def noParams : TransformParams :=
  ⟨none, none, none, none, none, none, none, none, none⟩

/-- The parameters of the end-to-end scenario: resize to 400 by 300, grayscale, PNG output. -/
def scenarioParams : TransformParams :=
  { noParams with
    Resize := some ⟨400, 300⟩
    Format := some "png".toList
    Filters := some ⟨true, false, none, none⟩ }

/-- A request of user 7 for image 1. -/
def sampleRequest (p : TransformParams) : Request :=
  ⟨some 7, some 1, .ok p⟩

/-- The record the first sample request creates. -/
def scenarioRecord : Transformation where
  ID := 100
  ImageID := 1
  ObjectName := "uploads/0a1b_43d54b0598768e2ce5138c80e2050a8e.jpg".toList
  URL := "https://store/uploads/0a1b_43d54b0598768e2ce5138c80e2050a8e.jpg".toList
  Parameters := scenarioParams
  Hash := "43d54b0598768e2ce5138c80e2050a8e".toList
  CreatedAt := 50

/-- A record of another image, of another user, with the digest of the scenario. -/
def otherRecord : Transformation where
  ID := 31
  ImageID := 2
  ObjectName := "uploads/ffee_43d54b0598768e2ce5138c80e2050a8e.png".toList
  URL := "https://store/uploads/ffee_43d54b0598768e2ce5138c80e2050a8e.png".toList
  Parameters := scenarioParams
  Hash := "43d54b0598768e2ce5138c80e2050a8e".toList
  CreatedAt := 20

/-- A state of another user: one PNG image whose scenario transformation is in the ledger. -/
def otherState : State where
  images := [⟨2, 9, "ffee.png".toList, "image/png".toList, 2, "uploads/ffee.png".toList, [],
              [], 20, 20⟩]
  transformations := [otherRecord]
  bucket := [⟨"uploads/ffee.png".toList, [3, 3], "image/png".toList⟩]

/-- Length of the members of an object, one separator counted with each. -/
def textLen (ms : List (List Char)) : Nat :=
  (ms.map (fun m => m.length + 1)).sum

/-- The serialization of the scenario parameters. -/
def scenarioJSON : List Char :=
  ("\x7b\"resize\":\x7b\"width\":400,\"height\":300\x7d,\"format\":\"png\"," ++
   "\"filters\":\x7b\"grayscale\":true,\"sepia\":false\x7d\x7d").toList

/-! ## Requests in flight at the same time

Every request is handled on its own; the database calls are the atomic
steps. A handler does its ledger lookup in one step and, after a miss, its
ledger insert in a later step; steps of different handlers interleave. What a
handler does between the two (fetch, pipeline, store) touches the bucket
only and is taken together with the insert. -/

/-- Where a handler stands: not started, past its lookup with a miss, or finished. -/
inductive Handler where
  | start (env : Env) (req : Request)
  | pending (env : Env) (p : Pending)
  | finished (resp : Response)

/-- The answer of a handler that has finished. -/
def Handler.answer : Handler → Option Response
  | .finished resp => some resp
  | _ => none

/-- Whether a handler has finished with 201 Created. -/
def Handler.created : Handler → Bool
  | .finished (.transformation 201 _) => true
  | _ => false

/-- The next step of one handler on the shared state. -/
def stepHandler {Img : Type} (lib : Imaging Img) (s : State) : Handler → State × Handler
  | .start env req =>
      match TransformImage.lookup lib env s req with
      | .answered resp _ => (s, .finished resp)
      | .miss p => (s, .pending env p)
  | .pending env p =>
      ((TransformImage.materialize lib env s p).state,
       .finished (TransformImage.materialize lib env s p).resp)
  | .finished resp => (s, .finished resp)

/-- The next step of the handler at a position of the list; no handler there, no step. -/
def stepAt {Img : Type} (lib : Imaging Img) (s : State) : Nat → List Handler →
    State × List Handler
  | _, [] => (s, [])
  | 0, h :: rest => ((stepHandler lib s h).1, (stepHandler lib s h).2 :: rest)
  | n + 1, h :: rest => ((stepAt lib s n rest).1, h :: (stepAt lib s n rest).2)

/-- The shared state and the handlers in flight. -/
structure System where
  state : State
  handlers : List Handler

/-- One step of the system: the handler of the given position moves. -/
def System.step {Img : Type} (lib : Imaging Img) (sys : System) (i : Nat) : System :=
  ⟨(stepAt lib sys.state i sys.handlers).1, (stepAt lib sys.state i sys.handlers).2⟩

/-- A schedule: the positions of the handlers that move, in order. -/
def runSchedule {Img : Type} (lib : Imaging Img) (sys : System) (sched : List Nat) : System :=
  sched.foldl (System.step lib) sys

/-- The system at the arrival of some calls: none of them has started. -/
def System.arrive (s : State) (calls : List (Env × Request)) : System :=
  ⟨s, calls.map (fun c => Handler.start c.1 c.2)⟩

/-- Number of ledger records of an image id and hash. -/
def countFor (ledger : List Transformation) (imageID : ObjectID) (hash : List Char) : Nat :=
  ledger.countP (fun t => decide (t.ImageID = imageID) && decide (t.Hash = hash))

/-- Number of handlers that have finished with 201 Created. -/
def createdCount (hs : List Handler) : Nat :=
  hs.countP Handler.created

/-- A handler of a call for image `i` with parameters `p`, whose digest is `h`. -/
def Handler.For (i : ObjectID) (p : TransformParams) (h : List Char) : Handler → Prop
  | .start _ req => req.imageID = some i ∧ req.body = .ok p
  | .pending _ pd => pd.imageID = i ∧ pd.hash = h
  | .finished _ => True

/-! ## The pipeline as the specification words it

Section 4.4 of the specification: the stages in a fixed order, composed
left to right on the evolving buffer, a stage whose field is absent being
skipped. -/

/-- The stages of the pipeline in the order of the specification: resize,
crop, rotate, vertical flip, horizontal mirror, then the filters grayscale,
sepia, blur, sharpen, then the watermark. A stage whose field is absent (or,
for a switch, off) is the identity. -/
def pipelineStages {Img : Type} (lib : Imaging Img) (p : TransformParams) : List (Img → Img) :=
  [ (match p.Resize with
      | some r => fun img => lib.Resize img r.Width r.Height
      | none => id),
    (match p.Crop with
      | some c => fun img => lib.Crop img (cropRectangle c)
      | none => id),
    (match p.Rotate with
      | some deg => fun img => lib.Rotate img deg
      | none => id),
    (match p.Flip with
      | some true => lib.FlipV
      | _ => id),
    (match p.Mirror with
      | some true => lib.FlipH
      | _ => id),
    (match p.Filters with
      | some f => if f.Grayscale then lib.Grayscale else id
      | none => id),
    (match p.Filters with
      | some f => if f.Sepia then lib.Sepia else id
      | none => id),
    (match p.Filters.bind (fun f => f.Blur) with
      | some radius => fun img => lib.Blur img radius
      | none => id),
    (match p.Filters.bind (fun f => f.Sharpen) with
      | some amount => fun img => lib.Sharpen img amount
      | none => id),
    (match p.Watermark with
      | some w => fun img => lib.AddWatermark img w.Text w.X w.Y w.Opacity
      | none => id) ]

/-- Left-to-right composition of stages on an evolving buffer. -/
def composeLeftToRight {Img : Type} (stages : List (Img → Img)) (img : Img) : Img :=
  stages.foldl (fun buffer stage => stage buffer) img

/-! The statements of the code's pipeline one by one, as functions of the image so far. -/

/-- The resize statement. -/
def resizeStep {Img : Type} (lib : Imaging Img) (p : TransformParams) (dstImage : Img) : Img :=
  match p.Resize with
  | some r => lib.Resize dstImage r.Width r.Height
  | none => dstImage

/-- The crop statement. -/
def cropStep {Img : Type} (lib : Imaging Img) (p : TransformParams) (dstImage : Img) : Img :=
  match p.Crop with
  | some c => lib.Crop dstImage (cropRectangle c)
  | none => dstImage

/-- The rotate statement. -/
def rotateStep {Img : Type} (lib : Imaging Img) (p : TransformParams) (dstImage : Img) : Img :=
  match p.Rotate with
  | some deg => lib.Rotate dstImage deg
  | none => dstImage

/-- The flip statement. -/
def flipStep {Img : Type} (lib : Imaging Img) (p : TransformParams) (dstImage : Img) : Img :=
  match p.Flip with
  | some true => lib.FlipV dstImage
  | _ => dstImage

/-- The mirror statement. -/
def mirrorStep {Img : Type} (lib : Imaging Img) (p : TransformParams) (dstImage : Img) : Img :=
  match p.Mirror with
  | some true => lib.FlipH dstImage
  | _ => dstImage

/-- The filters statement. -/
def filtersStep {Img : Type} (lib : Imaging Img) (p : TransformParams) (dstImage : Img) : Img :=
  match p.Filters with
  | some f => applyFilters lib f dstImage
  | none => dstImage

/-- The watermark statement. -/
def watermarkStep {Img : Type} (lib : Imaging Img) (p : TransformParams) (dstImage : Img) :
    Img :=
  match p.Watermark with
  | some w => lib.AddWatermark dstImage w.Text w.X w.Y w.Opacity
  | none => dstImage

/-- Parameters with a crop of 10 by 10 at (4, 3) and nothing else. -/
def cropOutside : TransformParams :=
  { noParams with Crop := some ⟨10, 10, 4, 3⟩ }

/-- The record the request with `cropOutside` creates on the sample state. -/
def cropRecord : Transformation where
  ID := 100
  ImageID := 1
  ObjectName := "uploads/0a1b_a98798e6ed5596f1d022cf430236b1de.jpg".toList
  URL := "https://store/uploads/0a1b_a98798e6ed5596f1d022cf430236b1de.jpg".toList
  Parameters := cropOutside
  Hash := "a98798e6ed5596f1d022cf430236b1de".toList
  CreatedAt := 50

/-! ## utils/validation.go and the upload and read handlers of controllers/image.go -/

/-- What `ValidateImageFile` reads of a `multipart.FileHeader`: the file
name, the value of the Content-Type header and the size in bytes. -/
structure FileHeader where
  Filename : List Char
  ContentType : List Char
  Size : Int
deriving DecidableEq, Repr

/-- The maximum allowed file size, `10 << 20`. -/
def MaxFileSize : Int := 10485760

/-- The supported MIME types, as the map lookup `SupportedImageTypes[contentType]`. -/
def SupportedImageTypes (contentType : List Char) : Bool :=
  decide (contentType = "image/jpeg".toList) || decide (contentType = "image/png".toList) ||
    decide (contentType = "image/gif".toList)

/-- The function `strings.ToLower`, with the lower-casing of one code point
(`unicode.ToLower`) as a parameter. -/
def stringsToLower (lower : Char → Char) (s : List Char) : List Char :=
  s.map lower

/-- The function `ValidateImageFile`: size, then type, then extension. -/
def ValidateImageFile (lower : Char → Char) (file : FileHeader) : Bool × List Char :=
  if file.Size > MaxFileSize then
    (false, "File size exceeds limit (10MB)".toList)
  else
  let contentType := file.ContentType
  if !SupportedImageTypes contentType then
    (false, "File type not supported (only JPEG, PNG, GIF)".toList)
  else
  let filename := file.Filename
  let ext := stringsToLower lower (filepathExt filename)
  if ext ≠ ".jpg".toList ∧ ext ≠ ".jpeg".toList ∧ ext ≠ ".png".toList ∧ ext ≠ ".gif".toList then
    (false, "Invalid file extension (only .jpg, .jpeg, .png, .gif are allowed)".toList)
  else
  (true, [])

/-- What the upload handler gets from the HTTP layer: the authenticated user,
whether the multipart form parsed, and the file part with its content. -/
structure UploadRequest where
  userID : Option ObjectID
  formErr : Bool
  file : Option (FileHeader × Bytes)

/-- What the surroundings do during one upload: the unique id drawn (absent
when the random source fails), whether the write to the bucket fails, the
presigned URL of a key, whether the insert fails, the id the database gives
the record and the two clock readings. -/
structure UploadEnv where
  uniqueID : Option (List Char)
  putObjectErr : Bool
  presign : List Char → Option (List Char)
  insertErr : Option (List Char)
  insertedID : ObjectID
  createdAt : Time
  updatedAt : Time

/-- The JSON answer of the upload and of the read handler. -/
inductive ImageResponse where
  | error (status : Nat) (msg : List Char)
  | image (status : Nat) (im : Image)
deriving DecidableEq, Repr

/-- The handler `UploadImage`: the state after it and its answer. -/
def UploadImage (lower : Char → Char) (join : List Char → List Char → List Char)
    (env : UploadEnv) (s : State) (req : UploadRequest) : State × ImageResponse :=
  match req.userID with
  | none => (s, .error 401 "User ID not found in context".toList)
  | some userID =>
  if req.formErr then (s, .error 400 "Failed to parse form".toList)
  else
  match req.file with
  | none => (s, .error 400 "File is required".toList)
  | some (header, content) =>
  match ValidateImageFile lower header with
  | (false, errMsg) => (s, .error 400 errMsg)
  | (true, _) =>
  match env.uniqueID with
  | none => (s, .error 500 "Failed to generate unique ID".toList)
  | some uniqueID =>
  let ext := filepathExt header.Filename
  let filename := uniqueID ++ ext
  let contentType := header.ContentType
  match StorageClient.UploadImage join env.putObjectErr s.bucket content filename contentType with
  | (none, _) => (s, .error 500 "Failed to upload image".toList)
  | (some objectName, bucket) =>
  let s1 : State := { s with bucket := bucket }
  match env.presign objectName with
  | none => (s1, .error 500 "Failed to get image URL".toList)
  | some url =>
  let image : Image :=
    { ID := 0, UserID := userID, Filename := filename, ContentType := contentType,
      Size := header.Size, ObjectName := objectName, URL := url, Transformations := [],
      CreatedAt := env.createdAt, UpdatedAt := env.updatedAt }
  match env.insertErr with
  | some e => (s1, .error 500 e)
  | none =>
  let stored : Image := { image with ID := env.insertedID }
  ({ s1 with images := s1.images ++ [stored] }, .image 201 stored)

/-- The handler `GetImage`: the read does not change the state. -/
def GetImage (env : Env) (s : State) (userID imageID : Option ObjectID) : ImageResponse :=
  match userID with
  | none => .error 401 "User ID not found in context".toList
  | some userID =>
  match imageID with
  | none => .error 400 "Invalid image ID".toList
  | some imageID =>
  match env.findImageErr with
  | some e => .error 500 e
  | none =>
  match findImage s.images imageID userID with
  | none => .error 404 "Image not found".toList
  | some image =>
  match env.presign image.ObjectName with
  | none => .error 500 "Failed to get image URL".toList
  | some url => .image 200 { image with URL := url }

/-- An instance of the imaging operations that shows the format of an
encoding: as `boundsImaging`, with the encoding led by a byte for the
format (0 JPEG, 1 PNG, 2 GIF, 3 TIFF, 4 BMP). -/
def taggedImaging : Imaging Rectangle :=
  { boundsImaging with
    Encode := fun img f =>
      some [(match f with
              | .JPEG => 0
              | .PNG => 1
              | .GIF => 2
              | .TIFF => 3
              | .BMP => 4), img.Dx, img.Dy] }

/-- Joining of two path elements that are already clean: the elements with a separator between. -/
def plainJoin (dir file : List Char) : List Char :=
  dir ++ "/".toList ++ file

/-- Parameters that ask for the output format "webp" and nothing else. -/
def webpParams : TransformParams :=
  { noParams with Format := some "webp".toList }

/-- Parameters that ask for the output format "gif" and nothing else. -/
def gifParams : TransformParams :=
  ⟨none, none, none, some "gif".toList, none, none, none, none, none⟩

/-- Parameters that ask for the output format "png" and nothing else. -/
def pngParams : TransformParams :=
  ⟨none, none, none, some "png".toList, none, none, none, none, none⟩

/-- The tagged library with an encoder that fails on GIF. -/
def noGifImaging : Imaging Rectangle :=
  { taggedImaging with
    Encode := fun img f => if f = Format.GIF then none else taggedImaging.Encode img f }

/-- The header of an upload named "photo.PNG", of type image/png, two bytes long. -/
def upperHeader : FileHeader :=
  ⟨"photo.PNG".toList, "image/png".toList, 2⟩

/-- An upload of user 7 with the header `upperHeader`; the content decodes to an 8 by 6 image. -/
def upperUpload : UploadRequest :=
  ⟨some 7, false, some (upperHeader, [8, 6])⟩

/-- Surroundings of an upload in which every call succeeds: the unique id
is "0a1b" and the database gives the record the id 5. -/
def calmUploadEnv : UploadEnv where
  uniqueID := some "0a1b".toList
  putObjectErr := false
  presign := fun key => some ("https://store/".toList ++ key)
  insertErr := none
  insertedID := 5
  createdAt := 10
  updatedAt := 10

/-- The state with nothing stored. -/
def emptyState : State := ⟨[], [], []⟩

/-- Parameters with only a quality. -/
def qualityParams (q : Int) : TransformParams :=
  { noParams with Quality := some q }

/-! ## middleware/rate_limiter.go

A point in time is an integer number of nanoseconds; a `time.Duration` is a
64-bit integer number of nanoseconds. The mutex makes the requests pass the
middleware one at a time. -/

/-- The rate limiter: the times of the requests kept per client IP, the limit and the window. -/
structure RateLimiter where
  requests : List Char → Option (List Int)
  limit : Int
  windowSecs : Int

/-- The constructor `NewRateLimiter`: an empty map. -/
def NewRateLimiter (limit windowSecs : Int) : RateLimiter :=
  ⟨fun _ => none, limit, windowSecs⟩

/-- The duration `-time.Duration(windowSecs) * time.Second`, a 64-bit product that wraps. -/
def windowDuration (windowSecs : Int) : Int :=
  (-windowSecs * 1000000000 + 9223372036854775808) % 18446744073709551616
    - 9223372036854775808

/-- The times kept for a client IP; a missing key counts as the empty list
(the handler initializes it so). -/
def RateLimiter.stored (limiter : RateLimiter) (ip : List Char) : List Int :=
  (limiter.requests ip).getD []

/-- One request through the handler of `RateLimiterMiddleware`: the limiter
afterwards and whether the request is passed on (`c.Next()`) or answered
429. -/
def RateLimiterMiddleware (limiter : RateLimiter) (ip : List Char) (now : Int) :
    RateLimiter × Bool :=
  let windowStart := now + windowDuration limiter.windowSecs
  let validRequests :=
    (limiter.stored ip).filter (fun requestTime => decide (requestTime > windowStart))
  if (validRequests.length : Int) ≥ limiter.limit then
    ({ limiter with
        requests := fun k => if k = ip then some validRequests else limiter.requests k },
     false)
  else
    ({ limiter with
        requests := fun k =>
          if k = ip then some (validRequests ++ [now]) else limiter.requests k },
     true)

/-- A sequence of requests, each a client IP and its time, through the
middleware: the requests that are passed on, in order. -/
def admitted (limiter : RateLimiter) : List (List Char × Int) → List (List Char × Int)
  | [] => []
  | (ip, now) :: rest =>
      if (RateLimiterMiddleware limiter ip now).2 then
        (ip, now) :: admitted (RateLimiterMiddleware limiter ip now).1 rest
      else admitted (RateLimiterMiddleware limiter ip now).1 rest

/-- The times of the requests of one client IP. -/
def timesOf (reqs : List (List Char × Int)) (ip : List Char) : List Int :=
  (reqs.filter (fun r => decide (r.1 = ip))).map (fun r => r.2)

/-- Number of times in the half-open window from lo (excluded) to hi (included). -/
def countIn (times : List Int) (lo hi : Int) : Nat :=
  times.countP (fun a => decide (lo < a) && decide (a ≤ hi))

/-- The invariant of the limiter against the requests passed on so far, for
a window of W nanoseconds and a lower bound L of the times still to come:
above every cut at or after L - W the kept times of a client are the times
of its admitted requests, and no window holds more admitted requests of a
client than the limit. -/
def LimiterInv (limiter : RateLimiter) (hist : List (List Char × Int)) (W L : Int) : Prop :=
  (∀ (ip : List Char) (c : Int), L - W ≤ c →
    (limiter.stored ip).filter (fun a => decide (a > c))
      = (timesOf hist ip).filter (fun a => decide (a > c))) ∧
  (∀ (ip : List Char) (t : Int), (countIn (timesOf hist ip) (t - W) t : Int) ≤ limiter.limit)

/-! ## Object keys of ledger records -/

/-- The id and the object key of every image record. -/
def imageKeys (images : List Image) : List (ObjectID × List Char) :=
  images.map (fun im => (im.ID, im.ObjectName))

/-- The object key of a record is the key derived from the object key of its
image and from its hash. -/
def KeyDerived (keys : List (ObjectID × List Char)) (t : Transformation) : Prop :=
  ∃ k, (t.ImageID, k) ∈ keys ∧ t.ObjectName = StorageClient.transformedObjectName k t.Hash

/-- The state against a table of image keys: the image records have these
keys and every ledger record has a derived object key. -/
def KeysInv (keys : List (ObjectID × List Char)) (s : State) : Prop :=
  imageKeys s.images = keys ∧ ∀ t ∈ s.transformations, KeyDerived keys t

/-- A handler against a table of image keys: a pending handler holds an
image of the table, a finished one answers with a record of derived key, if
with any. -/
def Handler.Derived (keys : List (ObjectID × List Char)) : Handler → Prop
  | .start _ _ => True
  | .pending _ pd => (pd.imageID, pd.image.ObjectName) ∈ keys
  | .finished resp => ∀ t, resp.record = some t → KeyDerived keys t

/-! ## middleware/auth.go -/

/-- The loop of `strings.Split` for a separator that is not empty: the piece
collected so far (in reverse) and the rest of the string; the fuel is the
number of characters left plus one. -/
def splitScan (sep : List Char) : Nat → List Char → List Char → List (List Char)
  | 0, cur, rest => [cur.reverse ++ rest]
  | _ + 1, cur, [] => [cur.reverse]
  | fuel + 1, cur, c :: rest =>
      if sep.isPrefixOf (c :: rest) then
        cur.reverse :: splitScan sep fuel [] ((c :: rest).drop sep.length)
      else splitScan sep fuel (c :: cur) rest

/-- The function `strings.Split(s, sep)` for a separator that is not empty:
the pieces of s between the occurrences of sep, found from the left. -/
def stringsSplit (s sep : List Char) : List (List Char) :=
  splitScan sep (s.length + 1) [] s

/-- The JWT library with the secret, and the parser of object ids: parsing a
token gives the error text, or whether the token is valid and the user id
of its claims. -/
structure JWT where
  ParseWithClaims : List Char → Except (List Char) (Bool × List Char)
  ObjectIDFromHex : List Char → Option ObjectID

/-- What the middleware does with a request: answer and abort, or set the
user id and run the next handler. -/
inductive AuthResult where
  | abort (status : Nat) (msg : List Char)
  | next (userID : ObjectID)
deriving DecidableEq, Repr

/-- The handler of `AuthMiddleware`, on the value of the Authorization
header (empty when the header is missing). -/
def AuthMiddleware (jwt : JWT) (authHeader : List Char) : AuthResult :=
  if authHeader = [] then
    .abort 401 "Authorization header is required".toList
  else
  let parts := stringsSplit authHeader "Bearer ".toList
  if parts.length ≠ 2 then
    .abort 401 "Authorization header format must be Bearer \x7btoken\x7d".toList
  else
  let tokenString := parts.getD 1 []
  match jwt.ParseWithClaims tokenString with
  | .error e => .abort 401 e
  | .ok (valid, userIDHex) =>
      if valid then
        match jwt.ObjectIDFromHex userIDHex with
        | none => .abort 401 "Invalid user ID".toList
        | some userID => .next userID
      else .abort 401 "Invalid token".toList

/-- A token verifier for evaluation: the one valid token is "tok", of user 7. -/
def sampleJWT : JWT where
  ParseWithClaims := fun token =>
    if token = "tok".toList then .ok (true, "07".toList)
    else .error "token contains an invalid number of segments".toList
  ObjectIDFromHex := fun hex => if hex = "07".toList then some 7 else none

/-! ## Reading a serialization back

The functions of this section are used in the proofs only: they read back
what the encoder has written. -/

/-- The number whose decimal digits are read from left to right, after the number a. -/
def digitsValue (a : Nat) (l : List Char) : Nat :=
  l.foldl (fun acc c => acc * 10 + (c.toNat - 48)) a

/-- The integer a decimal text stands for. -/
def decodeInt : List Char → Int
  | [] => 0
  | c :: rest => if c = '-' then -(digitsValue 0 rest : Int) else (digitsValue 0 (c :: rest) : Int)

/-- A text without a comma and without a closing brace. -/
def NoDelim (v : List Char) : Prop :=
  ∀ c ∈ v, c ≠ ',' ∧ c ≠ '}'

/-- A text that begins with a comma or a closing brace: what follows a value in an object. -/
def Terminated (r : List Char) : Prop :=
  ∃ c rest, r = c :: rest ∧ (c = ',' ∨ c = '}')

/-- A class of value texts that can be told from what follows them in an object. -/
def Delim (V : List Char → Prop) : Prop :=
  ∀ v₁ v₂ r₁ r₂, V v₁ → V v₂ → Terminated r₁ → Terminated r₂ →
    v₁ ++ r₁ = v₂ ++ r₂ → v₁ = v₂ ∧ r₁ = r₂

/-- Value of a lower-case hexadecimal digit. -/
def hexVal (c : Char) : Nat :=
  "0123456789abcdef".toList.indexOf c

/-- Read one escaped code point off the front of a text: the inverse of `escapeChar`. -/
def unescape : List Char → Option (Char × List Char)
  | [] => none
  | c :: rest =>
    if c = '\\' then
      match rest with
      | [] => none
      | e :: more =>
        if e = '"' then some ('"', more)
        else if e = '\\' then some ('\\', more)
        else if e = 'b' then some (Char.ofNat 8, more)
        else if e = 'f' then some (Char.ofNat 12, more)
        else if e = 'n' then some ('\n', more)
        else if e = 'r' then some ('\r', more)
        else if e = 't' then some ('\t', more)
        else if e = 'u' then
          match more with
          | a :: _ :: h :: l :: tail =>
            if a = '0' then some (Char.ofNat (hexVal h * 16 + hexVal l), tail)
            else some (Char.ofNat (8224 + hexVal l), tail)
          | _ => none
        else none
    else some (c, rest)

/-- What follows a member of an object: the further fields, each after a comma, and the closing brace. -/
def sepText : List (String × List Char) → List Char
  | [] => ['}']
  | f :: fs => ',' :: member f.1 f.2 ++ sepText fs

/-- What follows the opening brace of an object with the given fields. -/
def bodyText : List (String × List Char) → List Char
  | [] => ['}']
  | f :: fs => member f.1 f.2 ++ sepText fs

/-- The fields of an object that are written: those whose slot holds a text. -/
def present (slots : List (String × Option (List Char))) : List (String × List Char) :=
  slots.filterMap (fun s => s.2.map (fun v => (s.1, v)))

/-- Every field has a name without a quote and a value of the class of its name. -/
def WellFormed (V : String → List Char → Prop) (fs : List (String × List Char)) : Prop :=
  ∀ f ∈ fs, '"' ∉ f.1.toList ∧ V f.1 f.2

/-- The member texts of a list of fields. -/
def members (fs : List (String × List Char)) : List (List Char) :=
  fs.map (fun f => member f.1 f.2)

/-- The value classes of the fields of the nested objects: a string for the
watermark text, a text without delimiter for the numbers and booleans. -/
def InnerClass (n : String) (v : List Char) : Prop :=
  if n = "text" then ∃ s, v = formatString s else NoDelim v

/-- The value classes of the fields of a `TransformParams`: a string for the
format, an object for the four nested structures, a text without delimiter
for the numbers and booleans. -/
def OuterClass (n : String) (v : List Char) : Prop :=
  if n = "format" then ∃ s, v = formatString s
  else if n = "resize" ∨ n = "crop" ∨ n = "filters" ∨ n = "watermark" then
    ∃ fs, WellFormed InnerClass fs ∧ v = '{' :: bodyText fs
  else NoDelim v

/-- The slots of a `FilterParams` in declaration order, each with the text written for it. -/
def filterSlots (floatJSON : Float64 → Option (List Char)) (f : FilterParams) :
    List (String × Option (List Char)) :=
  [("grayscale", some (formatBool f.Grayscale)), ("sepia", some (formatBool f.Sepia)),
   ("blur", f.Blur.bind floatJSON), ("sharpen", f.Sharpen.bind floatJSON)]

/-- The slots of a `TransformParams` in declaration order, each with the text written for it. -/
def paramSlots (floatJSON : Float64 → Option (List Char)) (p : TransformParams) :
    List (String × Option (List Char)) :=
  [("resize", p.Resize.bind (fun r => some (marshalResize r))),
   ("crop", p.Crop.bind (fun c => some (marshalCrop c))),
   ("rotate", p.Rotate.bind floatJSON),
   ("format", p.Format.bind (fun s => some (formatString s))),
   ("filters", p.Filters.bind (marshalFilters floatJSON)),
   ("flip", p.Flip.bind (fun b => some (formatBool b))),
   ("mirror", p.Mirror.bind (fun b => some (formatBool b))),
   ("watermark", p.Watermark.bind (marshalWatermark floatJSON)),
   ("quality", p.Quality.bind (fun q => some (formatInt q)))]

/-- A float pointer with its value set to zero: only whether it is nil is kept. -/
def eraseFloat (x : Option Float64) : Option Float64 :=
  x.map (fun _ => ⟨0⟩)

/-- Filter parameters without their float values. -/
def FilterParams.withoutFloats (f : FilterParams) : FilterParams :=
  ⟨f.Grayscale, f.Sepia, eraseFloat f.Blur, eraseFloat f.Sharpen⟩

/-- Watermark parameters without their float values. -/
def WatermarkParams.withoutFloats (w : WatermarkParams) : WatermarkParams :=
  ⟨w.Text, ⟨0⟩, w.X, w.Y, ⟨0⟩⟩

/-- Transformation parameters without their float values: what is left is
which fields are present and the value of every integer, boolean and string
field. -/
def TransformParams.withoutFloats (p : TransformParams) : TransformParams :=
  ⟨p.Resize, p.Crop, eraseFloat p.Rotate, p.Format, p.Filters.map FilterParams.withoutFloats,
   p.Flip, p.Mirror, p.Watermark.map WatermarkParams.withoutFloats, p.Quality⟩

/-- The fields of a `ResizeParams` with the text written for each. -/
def resizeFields (r : ResizeParams) : List (String × List Char) :=
  [("width", formatInt r.Width), ("height", formatInt r.Height)]

/-- The fields of a `CropParams` with the text written for each. -/
def cropFields (c : CropParams) : List (String × List Char) :=
  [("width", formatInt c.Width), ("height", formatInt c.Height),
   ("x", formatInt c.X), ("y", formatInt c.Y)]

/-- The fields of a `WatermarkParams` with the text written for each, given the texts of its two floats. -/
def watermarkFields (w : WatermarkParams) (fontSize opacity : List Char) :
    List (String × List Char) :=
  [("text", formatString w.Text), ("font_size", fontSize),
   ("x", formatInt w.X), ("y", formatInt w.Y), ("opacity", opacity)]

/-- Read one code point off the front of a UTF-8 byte string: the inverse of `utf8EncodeChar`. -/
def utf8DecodeChar : List Nat → Option (Nat × List Nat)
  | [] => none
  | b :: rest =>
    if b < 128 then some (b, rest)
    else if b < 224 then
      match rest with
      | b1 :: tail => some ((b - 192) * 64 + (b1 - 128), tail)
      | _ => none
    else if b < 240 then
      match rest with
      | b1 :: b2 :: tail => some ((b - 224) * 4096 + (b1 - 128) * 64 + (b2 - 128), tail)
      | _ => none
    else
      match rest with
      | b1 :: b2 :: b3 :: tail =>
        some ((b - 240) * 262144 + (b1 - 128) * 4096 + (b2 - 128) * 64 + (b3 - 128), tail)
      | _ => none

/-- A sample float encoder: it writes the bit pattern in decimal. -/
def decimalFloatJSON (x : Float64) : Option (List Char) :=
  some (Nat.toDigits 10 x.bits)

/-- Sample parameters: a rotation and a flip flag. -/
def turnedParams (flip : Bool) : TransformParams :=
  ⟨none, none, some ⟨90⟩, none, none, some flip, none, none, none⟩

/-! ## Properties -/

/-- MD5 of the empty message (RFC 1321, appendix A.5). -/
theorem MD5.Sum_nil :
    hexEncodeToString (MD5.Sum []) = "d41d8cd98f00b204e9800998ecf8427e".toList := by
  decide!

/-- MD5 of "abc" (RFC 1321, appendix A.5). -/
theorem MD5.Sum_abc :
    transformationHash "abc".toList = "900150983cd24fb0d6963f7d28e17f72".toList := by
  decide!

/-- MD5 of the 80-character test message of RFC 1321, a message of two blocks. -/
theorem MD5.Sum_digits :
    transformationHash
      "12345678901234567890123456789012345678901234567890123456789012345678901234567890".toList
      = "57edf4a22be3c955ac49da2e2107b67a".toList := by
  decide!

/-- A record found by the ledger lookup has the image id and hash looked for. -/
theorem findTransformation_some {ledger : List Transformation} {imageID : ObjectID}
    {hash : List Char} {t : Transformation}
    (h : findTransformation ledger imageID hash = some t) :
    t ∈ ledger ∧ t.ImageID = imageID ∧ t.Hash = hash := by
  unfold findTransformation at h
  have hm := List.mem_of_find?_eq_some h
  have hp := List.find?_some h
  simp only [Bool.and_eq_true, decide_eq_true_eq] at hp
  exact ⟨hm, hp.1, hp.2⟩

/-- The ledger lookup finds nothing exactly when no record has the image id and hash. -/
theorem findTransformation_none {ledger : List Transformation} {imageID : ObjectID}
    {hash : List Char} (h : findTransformation ledger imageID hash = none) :
    ∀ t ∈ ledger, ¬ (t.ImageID = imageID ∧ t.Hash = hash) := by
  unfold findTransformation at h
  intro t ht hc
  have := List.find?_eq_none.mp h t ht
  simp [hc.1, hc.2] at this

/-- A miss of the first half carries the request's parameters, the digest of
these parameters and an image record of the state. -/
theorem lookup_miss {Img : Type} (lib : Imaging Img) (env : Env) (s : State) (req : Request)
    (pd : Pending) (h : TransformImage.lookup lib env s req = .miss pd) :
    req.body = .ok pd.params ∧ req.imageID = some pd.imageID ∧
    some pd.hash = cacheDigest lib pd.params ∧
    (∃ u, req.userID = some u ∧ findImage s.images pd.imageID u = some pd.image) ∧
    findTransformation s.transformations pd.imageID pd.hash = none ∧
    env.findImageErr = none ∧ env.findTransformationErr = none := by
  unfold TransformImage.lookup at h
  split at h
  · cases h
  split at h
  · cases h
  split at h
  · cases h
  split at h
  · cases h
  split at h
  · cases h
  split at h
  · cases h
  split at h
  · cases h
  dsimp only at h
  split at h
  · split at h <;> cases h
  · cases h
    refine ⟨by assumption, by assumption, ?_, ⟨_, by assumption, by assumption⟩,
      by assumption, by assumption, by assumption⟩
    simp only [cacheDigest]
    simp_all

/-- An answer of the first half that carries a record is a hit: the record
is the one the ledger lookup found for the digest of the request's
parameters, with a fresh URL, and only the two lookups and the presigning
were called. -/
theorem lookup_hit {Img : Type} (lib : Imaging Img) (env : Env) (s : State) (req : Request)
    (st : Nat) (t : Transformation) (tr : List Effect)
    (h : TransformImage.lookup lib env s req = .answered (.transformation st t) tr) :
    ∃ u i p hash e url, req.userID = some u ∧ req.imageID = some i ∧ req.body = .ok p ∧
      (findImage s.images i u).isSome ∧
      some hash = cacheDigest lib p ∧
      findTransformation s.transformations i hash = some e ∧
      env.presign e.ObjectName = some url ∧ t = { e with URL := url } ∧ st = 200 ∧
      tr = [.findImage, .findTransformation, .presignURL e.ObjectName] := by
  unfold TransformImage.lookup at h
  split at h
  · cases h
  split at h
  · cases h
  split at h
  · cases h
  split at h
  · cases h
  split at h
  · cases h
  split at h
  · cases h
  split at h
  · cases h
  dsimp only at h
  split at h
  · split at h
    · cases h
    · cases h
      refine ⟨_, _, _, _, _, _, by assumption, by assumption, by assumption, ?_, ?_,
        by assumption, by assumption, rfl, rfl, rfl⟩
      · simp_all
      · simp only [cacheDigest]
        simp_all
  · cases h

/-- What the second half does to the state and what it answers: either an
error 500, with the two collections untouched, or 201 with a new record that is
appended to the ledger and carries the pending image id, digest and
parameters, the fresh id and the derived object name. -/
theorem materialize_cases {Img : Type} (lib : Imaging Img) (env : Env) (s : State)
    (pd : Pending) :
    (∃ msg, (TransformImage.materialize lib env s pd).resp = .error 500 msg ∧
      (TransformImage.materialize lib env s pd).state.transformations = s.transformations ∧
      (TransformImage.materialize lib env s pd).state.images = s.images) ∨
    (∃ t, (TransformImage.materialize lib env s pd).resp = .transformation 201 t ∧
      (TransformImage.materialize lib env s pd).state.transformations
        = s.transformations ++ [t] ∧
      t.ImageID = pd.imageID ∧ t.Hash = pd.hash ∧ t.Parameters = pd.params ∧
      t.ID = env.newObjectID ∧
      t.ObjectName = StorageClient.transformedObjectName pd.image.ObjectName pd.hash ∧
      ((TransformImage.materialize lib env s pd).state.images = s.images ∨
       (TransformImage.materialize lib env s pd).state.images
         = pushTransformation pd.imageID t env.updatedAt s.images)) := by
  unfold TransformImage.materialize StorageClient.StoreTransformedImage
  dsimp only
  split
  · exact Or.inl ⟨_, rfl, rfl, rfl⟩
  split
  · exact Or.inl ⟨_, rfl, rfl, rfl⟩
  split
  · exact Or.inl ⟨_, rfl, rfl, rfl⟩
  split
  · exact Or.inl ⟨_, rfl, rfl, rfl⟩
  rename_i hs
  split at hs
  · cases hs
  cases hs
  split
  · exact Or.inl ⟨_, rfl, rfl, rfl⟩
  split
  · exact Or.inl ⟨_, rfl, rfl, rfl⟩
  exact Or.inr ⟨_, rfl, by cases env.updateErr <;> rfl, rfl, rfl, rfl, rfl, rfl,
    by cases env.updateErr <;> simp⟩

/-- Every record `TransformImage` answers with, found or new, carries the
digest of the parameters of the request. -/
theorem TransformImage_record_hash {Img : Type} (lib : Imaging Img) (env : Env) (s : State)
    (req : Request) (p : TransformParams) (st : Nat) (t : Transformation)
    (hb : req.body = .ok p)
    (h : (TransformImage lib env s req).resp = .transformation st t) :
    some t.Hash = cacheDigest lib p := by
  unfold TransformImage at h
  split at h
  · rename_i resp tr hl
    dsimp only at h
    subst h
    obtain ⟨u, i, p', hash, e, url, -, -, hb', -, hd, hf, -, ht, -, -⟩ :=
      lookup_hit lib env s req st t tr hl
    rw [hb] at hb'
    cases hb'
    rw [← hd, ht]
    exact congrArg some (findTransformation_some hf).2.2
  · rename_i pd hl
    dsimp only at h
    obtain ⟨hb', -, hd, -⟩ := lookup_miss lib env s req pd hl
    rw [hb] at hb'
    cases hb'
    rcases materialize_cases lib env s pd with ⟨msg, hr, -⟩ | ⟨t', hr, -, -, hh, -⟩
    · rw [hr] at h
      cases h
    · rw [hr] at h
      cases h
      rw [hh]
      exact hd

/-- C1: the cache digest is a function of the parameters alone. Any two
requests with the same parameters, whatever their user, image, time,
surroundings and stored state, that are answered with a record (a cached
one or a new one) are answered with the same digest, and it is the hex MD5
of the JSON serialization of the parameters; the same value is the key of
the ledger lookup of every request with these parameters that misses. -/
theorem C1_digest_function_of_params {Img : Type} (lib : Imaging Img) (env₁ env₂ : Env)
    (s₁ s₂ : State) (req₁ req₂ : Request) (p : TransformParams) (st₁ st₂ : Nat)
    (t₁ t₂ : Transformation)
    (hb₁ : req₁.body = .ok p) (hb₂ : req₂.body = .ok p)
    (h₁ : (TransformImage lib env₁ s₁ req₁).resp = .transformation st₁ t₁)
    (h₂ : (TransformImage lib env₂ s₂ req₂).resp = .transformation st₂ t₂) :
    t₁.Hash = t₂.Hash ∧
    some t₁.Hash = (jsonMarshal lib.floatJSON p).map
      (fun js => hexEncodeToString (MD5.Sum (utf8Bytes js))) ∧
    (∀ (env : Env) (s : State) (req : Request) (pd : Pending), req.body = .ok p →
      TransformImage.lookup lib env s req = .miss pd →
      some pd.hash = (jsonMarshal lib.floatJSON p).map
        (fun js => hexEncodeToString (MD5.Sum (utf8Bytes js)))) := by
  have e₁ := TransformImage_record_hash lib env₁ s₁ req₁ p st₁ t₁ hb₁ h₁
  have e₂ := TransformImage_record_hash lib env₂ s₂ req₂ p st₂ t₂ hb₂ h₂
  refine ⟨?_, e₁, ?_⟩
  · rw [← e₂] at e₁
    exact Option.some.inj e₁
  · intro env s req pd hb hl
    obtain ⟨hb', -, hd, -⟩ := lookup_miss lib env s req pd hl
    rw [hb] at hb'
    cases hb'
    exact hd

/-- C1 at two requests with the scenario parameters: a miss of user 7 on a
JPEG at time 50 and a hit of user 9 on a PNG at time 60. -/
theorem C1_digest_function_of_params_witness :
    scenarioRecord.Hash = otherRecord.Hash ∧
    some scenarioRecord.Hash = (jsonMarshal boundsImaging.floatJSON scenarioParams).map
      (fun js => hexEncodeToString (MD5.Sum (utf8Bytes js))) :=
  ⟨(C1_digest_function_of_params boundsImaging (calmEnv 100 50) (calmEnv 101 60)
      sampleState otherState (sampleRequest scenarioParams)
      ⟨some 9, some 2, .ok scenarioParams⟩
      scenarioParams 201 200 scenarioRecord otherRecord rfl rfl (by decide!) (by decide!)).1,
   (C1_digest_function_of_params boundsImaging (calmEnv 100 50) (calmEnv 101 60)
      sampleState otherState (sampleRequest scenarioParams)
      ⟨some 9, some 2, .ok scenarioParams⟩
      scenarioParams 201 200 scenarioRecord otherRecord rfl rfl (by decide!) (by decide!)).2.1⟩

/-! ### Presence of a field shows in the serialization -/

theorem textLen_append (a b : List (List Char)) : textLen (a ++ b) = textLen a + textLen b := by
  simp [textLen]

theorem intercalate_cons_cons (sep a b : List Char) (rest : List (List Char)) :
    List.intercalate sep (a :: b :: rest) = a ++ sep ++ List.intercalate sep (b :: rest) := by
  simp [List.intercalate, List.intersperse]

theorem length_intercalate_comma (ms : List (List Char)) :
    (List.intercalate [','] ms).length = textLen ms - 1 := by
  induction ms with
  | nil => rfl
  | cons a rest ih =>
    cases rest with
    | nil => simp [List.intercalate, textLen]
    | cons b rest =>
      rw [intercalate_cons_cons, List.length_append, List.length_append, ih]
      simp [textLen]
      omega

theorem length_object (ms : List (List Char)) : (object ms).length = textLen ms - 1 + 2 := by
  simp [object, length_intercalate_comma]

/-- Putting one more member into an object changes its text. -/
theorem object_insert_ne (a b : List (List Char)) (name : String) (value : List Char) :
    object (a ++ [member name value] ++ b) ≠ object (a ++ b) := by
  intro h
  have hl := congrArg List.length h
  rw [length_object, length_object, textLen_append, textLen_append, textLen_append] at hl
  simp [textLen, member] at hl
  omega

/-- In a list of members that serializes, a member left out can be put in. -/
theorem collect_insert (pre post : List (Option (List (List Char)))) (x ms : List (List Char))
    (h : collect (pre ++ some [] :: post) = some ms) :
    ∃ a b, ms = a ++ b ∧ collect (pre ++ some x :: post) = some (a ++ x ++ b) := by
  induction pre generalizing ms with
  | nil =>
    cases hp : collect post with
    | none => simp [collect, hp] at h
    | some r =>
      simp [collect, hp] at h
      exact ⟨[], r, by simp [h], by simp [collect, hp]⟩
  | cons o pre ih =>
    cases o with
    | none => simp [collect] at h
    | some m =>
      cases hc : collect (pre ++ some [] :: post) with
      | none => simp [collect, hc] at h
      | some r =>
        simp [collect, hc] at h
        obtain ⟨a, b, hab, hx⟩ := ih r hc
        exact ⟨m ++ a, b, by simp [← h, hab], by simp [collect, hx]⟩

/-- Setting an absent `flip` changes the serialization. -/
theorem jsonMarshal_set_flip (fj : Float64 → Option (List Char)) (p : TransformParams)
    (b : Bool) (js : List Char) (hf : p.Flip = none) (h : jsonMarshal fj p = some js) :
    ∃ js', jsonMarshal fj { p with Flip := some b } = some js' ∧ js' ≠ js := by
  unfold jsonMarshal at h
  rw [hf] at h
  obtain ⟨ms, hms, rfl⟩ := Option.map_eq_some'.mp h
  obtain ⟨a, c, rfl, hx⟩ := collect_insert
    [omitempty "resize" (fun r => some (marshalResize r)) p.Resize,
     omitempty "crop" (fun c => some (marshalCrop c)) p.Crop,
     omitempty "rotate" fj p.Rotate,
     omitempty "format" (fun s => some (formatString s)) p.Format,
     omitempty "filters" (marshalFilters fj) p.Filters]
    [omitempty "mirror" (fun b => some (formatBool b)) p.Mirror,
     omitempty "watermark" (marshalWatermark fj) p.Watermark,
     omitempty "quality" (fun q => some (formatInt q)) p.Quality]
    [member "flip" (formatBool b)] ms hms
  exact ⟨_, congrArg (Option.map object) hx, object_insert_ne a c "flip" (formatBool b)⟩

/-- Setting an absent `mirror` changes the serialization. -/
theorem jsonMarshal_set_mirror (fj : Float64 → Option (List Char)) (p : TransformParams)
    (b : Bool) (js : List Char) (hf : p.Mirror = none) (h : jsonMarshal fj p = some js) :
    ∃ js', jsonMarshal fj { p with Mirror := some b } = some js' ∧ js' ≠ js := by
  unfold jsonMarshal at h
  rw [hf] at h
  obtain ⟨ms, hms, rfl⟩ := Option.map_eq_some'.mp h
  obtain ⟨a, c, rfl, hx⟩ := collect_insert
    [omitempty "resize" (fun r => some (marshalResize r)) p.Resize,
     omitempty "crop" (fun c => some (marshalCrop c)) p.Crop,
     omitempty "rotate" fj p.Rotate,
     omitempty "format" (fun s => some (formatString s)) p.Format,
     omitempty "filters" (marshalFilters fj) p.Filters,
     omitempty "flip" (fun b => some (formatBool b)) p.Flip]
    [omitempty "watermark" (marshalWatermark fj) p.Watermark,
     omitempty "quality" (fun q => some (formatInt q)) p.Quality]
    [member "mirror" (formatBool b)] ms hms
  exact ⟨_, congrArg (Option.map object) hx, object_insert_ne a c "mirror" (formatBool b)⟩

/-- Setting an absent `filters` to the record of defaults changes the serialization. -/
theorem jsonMarshal_set_filters (fj : Float64 → Option (List Char)) (p : TransformParams)
    (js : List Char) (hf : p.Filters = none) (h : jsonMarshal fj p = some js) :
    ∃ js', jsonMarshal fj { p with Filters := some ⟨false, false, none, none⟩ } = some js' ∧
      js' ≠ js := by
  unfold jsonMarshal at h
  rw [hf] at h
  obtain ⟨ms, hms, rfl⟩ := Option.map_eq_some'.mp h
  obtain ⟨a, c, rfl, hx⟩ := collect_insert
    [omitempty "resize" (fun r => some (marshalResize r)) p.Resize,
     omitempty "crop" (fun c => some (marshalCrop c)) p.Crop,
     omitempty "rotate" fj p.Rotate,
     omitempty "format" (fun s => some (formatString s)) p.Format]
    [omitempty "flip" (fun b => some (formatBool b)) p.Flip,
     omitempty "mirror" (fun b => some (formatBool b)) p.Mirror,
     omitempty "watermark" (marshalWatermark fj) p.Watermark,
     omitempty "quality" (fun q => some (formatInt q)) p.Quality]
    [member "filters" (object [member "grayscale" (formatBool false),
                               member "sepia" (formatBool false)])] ms hms
  exact ⟨_, congrArg (Option.map object) hx, object_insert_ne a c "filters" _⟩

/-- Setting an absent `quality` changes the serialization. -/
theorem jsonMarshal_set_quality (fj : Float64 → Option (List Char)) (p : TransformParams)
    (q : Int) (js : List Char) (hf : p.Quality = none) (h : jsonMarshal fj p = some js) :
    ∃ js', jsonMarshal fj { p with Quality := some q } = some js' ∧ js' ≠ js := by
  unfold jsonMarshal at h
  rw [hf] at h
  obtain ⟨ms, hms, rfl⟩ := Option.map_eq_some'.mp h
  obtain ⟨a, c, rfl, hx⟩ := collect_insert
    [omitempty "resize" (fun r => some (marshalResize r)) p.Resize,
     omitempty "crop" (fun c => some (marshalCrop c)) p.Crop,
     omitempty "rotate" fj p.Rotate,
     omitempty "format" (fun s => some (formatString s)) p.Format,
     omitempty "filters" (marshalFilters fj) p.Filters,
     omitempty "flip" (fun b => some (formatBool b)) p.Flip,
     omitempty "mirror" (fun b => some (formatBool b)) p.Mirror,
     omitempty "watermark" (marshalWatermark fj) p.Watermark]
    []
    [member "quality" (formatInt q)] ms hms
  exact ⟨_, congrArg (Option.map object) hx, object_insert_ne a c "quality" (formatInt q)⟩

/-- The scenario parameters serialize to `scenarioJSON`, whatever the float encoder. -/
theorem jsonMarshal_scenario (fj : Float64 → Option (List Char)) :
    jsonMarshal fj scenarioParams = some scenarioJSON := by
  have h : jsonMarshal fj scenarioParams = jsonMarshal (fun _ => none) scenarioParams := rfl
  rw [h]
  decide!

/-- C2, refuted: on the sample state a request with `flip:false` and a
request with no field at all are both answered 201, the first with digest
372b24a231e857f8ccf7cb5035f28d92 (MD5 of the object with the one member
flip:false), the second with digest 99914b932bd37a50b983c5e7c90ae93b (MD5
of the empty object): the digests differ. -/
theorem C2_explicit_default_counterexample :
    ((TransformImage boundsImaging (calmEnv 100 50) sampleState
        (sampleRequest { noParams with Flip := some false })).resp.record.map
          (fun t => (t.Hash, t.Parameters.Flip))
      = some ("372b24a231e857f8ccf7cb5035f28d92".toList, some false)) ∧
    ((TransformImage boundsImaging (calmEnv 100 50) sampleState
        (sampleRequest noParams)).resp.record.map (fun t => (t.Hash, t.Parameters.Flip))
      = some ("99914b932bd37a50b983c5e7c90ae93b".toList, none)) ∧
    cacheDigest boundsImaging { noParams with Flip := some false }
      ≠ cacheDigest boundsImaging noParams ∧
    cacheDigest boundsImaging { noParams with Mirror := some false }
      ≠ cacheDigest boundsImaging noParams := by
  decide!

/-- C2, amended: `TransformImage` hashes the parameters as given and does
not canonicalize explicit defaults. For parameters that serialize, setting an
absent flip to false, an absent mirror to false, or an absent filters to the
record with grayscale false, sepia false and no blur or sharpen, gives a
different serialization to hash. -/
theorem C2_explicit_default_changes_serialization (fj : Float64 → Option (List Char))
    (p : TransformParams) (js : List Char) (h : jsonMarshal fj p = some js) :
    (p.Flip = none →
      ∃ js', jsonMarshal fj { p with Flip := some false } = some js' ∧ js' ≠ js) ∧
    (p.Mirror = none →
      ∃ js', jsonMarshal fj { p with Mirror := some false } = some js' ∧ js' ≠ js) ∧
    (p.Filters = none →
      ∃ js', jsonMarshal fj { p with Filters := some ⟨false, false, none, none⟩ } = some js' ∧
        js' ≠ js) :=
  ⟨fun hf => jsonMarshal_set_flip fj p false js hf h,
   fun hf => jsonMarshal_set_mirror fj p false js hf h,
   fun hf => jsonMarshal_set_filters fj p js hf h⟩

/-- The serialization of the parameters with every field absent: the empty object. -/
theorem jsonMarshal_noParams (fj : Float64 → Option (List Char)) :
    jsonMarshal fj noParams = some "\x7b\x7d".toList := rfl

/-- C2 amended, at the parameters with every field absent. -/
theorem C2_explicit_default_changes_serialization_witness :
    (∃ js', jsonMarshal (fun _ => none) { noParams with Flip := some false } = some js' ∧
        js' ≠ "\x7b\x7d".toList) ∧
    (∃ js', jsonMarshal (fun _ => none) { noParams with Mirror := some false } = some js' ∧
        js' ≠ "\x7b\x7d".toList) ∧
    (∃ js', jsonMarshal (fun _ => none)
          { noParams with Filters := some ⟨false, false, none, none⟩ } = some js' ∧
        js' ≠ "\x7b\x7d".toList) :=
  ⟨(C2_explicit_default_changes_serialization (fun _ => none) noParams "\x7b\x7d".toList
      (jsonMarshal_noParams _)).1 rfl,
   (C2_explicit_default_changes_serialization (fun _ => none) noParams "\x7b\x7d".toList
      (jsonMarshal_noParams _)).2.1 rfl,
   (C2_explicit_default_changes_serialization (fun _ => none) noParams "\x7b\x7d".toList
      (jsonMarshal_noParams _)).2.2 rfl⟩

/-- C3: the digest is derived from the full parameters. For parameters that
serialize and have no quality, setting quality to any integer gives a
different serialization to hash; and for the scenario (resize 400 by 300,
grayscale, format png) the digest without quality,
43d54b0598768e2ce5138c80e2050a8e, differs from the digest with quality 80,
46e302749b1c3f606101ddcf71c1b42f, whatever the imaging library. -/
theorem C3_quality_changes_digest :
    (∀ (fj : Float64 → Option (List Char)) (p : TransformParams) (q : Int) (js : List Char),
      p.Quality = none → jsonMarshal fj p = some js →
      ∃ js', jsonMarshal fj { p with Quality := some q } = some js' ∧ js' ≠ js) ∧
    (∀ (Img : Type) (lib : Imaging Img),
      cacheDigest lib scenarioParams = some "43d54b0598768e2ce5138c80e2050a8e".toList ∧
      cacheDigest lib { scenarioParams with Quality := some 80 }
        = some "46e302749b1c3f606101ddcf71c1b42f".toList ∧
      cacheDigest lib { scenarioParams with Quality := some 80 }
        ≠ cacheDigest lib scenarioParams) := by
  refine ⟨fun fj p q js hq h => jsonMarshal_set_quality fj p q js hq h, fun Img lib => ?_⟩
  have h₁ : cacheDigest lib scenarioParams = cacheDigest boundsImaging scenarioParams := rfl
  have h₂ : cacheDigest lib { scenarioParams with Quality := some 80 }
      = cacheDigest boundsImaging { scenarioParams with Quality := some 80 } := rfl
  rw [h₁, h₂]
  decide!

/-- C3 at the scenario parameters with quality 80. -/
theorem C3_quality_changes_digest_witness :
    ∃ js', jsonMarshal (fun _ => none) { scenarioParams with Quality := some 80 } = some js' ∧
      js' ≠ scenarioJSON :=
  C3_quality_changes_digest.1 (fun _ => none) scenarioParams 80 scenarioJSON rfl
    (jsonMarshal_scenario _)

/-! ### The ledger under sequential requests -/

/-- What one request does to the ledger: nothing, or it appends the record
it answers 201 with, and then no record of that image id and hash was there. -/
theorem TransformImage_ledger {Img : Type} (lib : Imaging Img) (env : Env) (s : State)
    (req : Request) :
    (TransformImage lib env s req).state.transformations = s.transformations ∨
    ∃ t, (TransformImage lib env s req).resp = .transformation 201 t ∧
      (TransformImage lib env s req).state.transformations = s.transformations ++ [t] ∧
      findTransformation s.transformations t.ImageID t.Hash = none := by
  cases hl : TransformImage.lookup lib env s req with
  | answered resp tr =>
    left
    simp only [TransformImage, hl]
  | miss pd =>
    simp only [TransformImage, hl]
    obtain ⟨-, -, -, -, hnone, -⟩ := lookup_miss lib env s req pd hl
    rcases materialize_cases lib env s pd with ⟨msg, -, hled, -⟩ | ⟨t, hr, hled, hi, hh, -⟩
    · exact Or.inl hled
    · exact Or.inr ⟨t, hr, hled, by rw [hi, hh]; exact hnone⟩

/-- One request keeps the ledger free of duplicates. -/
theorem TransformImage_preserves_unique {Img : Type} (lib : Imaging Img) (env : Env)
    (s : State) (req : Request) (h : LedgerUnique s.transformations) :
    LedgerUnique (TransformImage lib env s req).state.transformations := by
  rcases TransformImage_ledger lib env s req with he | ⟨t, -, he, hnone⟩
  · rw [he]; exact h
  · rw [he]
    unfold LedgerUnique at h ⊢
    rw [List.pairwise_append]
    refine ⟨h, List.pairwise_singleton _ _, ?_⟩
    intro a ha b hb
    rw [List.mem_singleton] at hb
    subst hb
    exact findTransformation_none hnone a ha

/-- Requests handled one at a time keep the ledger free of duplicates. -/
theorem runRequests_preserves_unique {Img : Type} (lib : Imaging Img)
    (reqs : List (Env × Request)) (s : State) (h : LedgerUnique s.transformations) :
    LedgerUnique (runRequests lib s reqs).transformations := by
  induction reqs generalizing s with
  | nil => exact h
  | cons er rest ih =>
    obtain ⟨env, req⟩ := er
    exact ih _ (TransformImage_preserves_unique lib env s req h)

/-- C4: in the sequential model (one `TransformImage` request handled at a
time on the state made of the image records, the ledger and the bucket),
every step preserves the invariant that no two ledger records share the
same image id and hash, and the invariant holds after every sequence of
requests that starts from the empty ledger. -/
theorem C4_sequential_ledger_unique {Img : Type} (lib : Imaging Img) :
    (∀ (env : Env) (s : State) (req : Request), LedgerUnique s.transformations →
      LedgerUnique (TransformImage lib env s req).state.transformations) ∧
    (∀ (images : List Image) (bucket : Bucket) (reqs : List (Env × Request)),
      LedgerUnique (runRequests lib ⟨images, [], bucket⟩ reqs).transformations) :=
  ⟨fun env s req h => TransformImage_preserves_unique lib env s req h,
   fun images bucket reqs =>
     runRequests_preserves_unique lib reqs ⟨images, [], bucket⟩ List.Pairwise.nil⟩

/-- C4 at a state whose ledger holds one record, for a request that adds a second. -/
theorem C4_sequential_ledger_unique_witness :
    LedgerUnique (TransformImage boundsImaging (calmEnv 101 60) otherState
      ⟨some 9, some 2, .ok noParams⟩).state.transformations :=
  (C4_sequential_ledger_unique boundsImaging).1 (calmEnv 101 60) otherState
    ⟨some 9, some 2, .ok noParams⟩ (List.pairwise_singleton _ _)

/-! ### The ledger under interleaved requests -/

/-- C5, refuted: two calls of user 7 for image 1 with the scenario
parameters, scheduled lookup, lookup, insert, insert. Both lookups miss,
both calls insert and are answered 201 with their own record (ids 100 and
101), and the ledger ends with two records of image 1 and digest
43d54b0598768e2ce5138c80e2050a8e. -/
theorem C5_concurrent_insert_counterexample :
    ((runSchedule boundsImaging
        (System.arrive sampleState
          [(calmEnv 100 50, sampleRequest scenarioParams),
           (calmEnv 101 51, sampleRequest scenarioParams)])
        [0, 1, 0, 1]).state.transformations.map (fun t => (t.ID, t.ImageID, t.Hash))
      = [(100, 1, "43d54b0598768e2ce5138c80e2050a8e".toList),
         (101, 1, "43d54b0598768e2ce5138c80e2050a8e".toList)]) ∧
    ((runSchedule boundsImaging
        (System.arrive sampleState
          [(calmEnv 100 50, sampleRequest scenarioParams),
           (calmEnv 101 51, sampleRequest scenarioParams)])
        [0, 1, 0, 1]).handlers.map
          (fun h => h.answer.map (fun r => (r.status, r.record.map (fun t => t.ID))))
      = [some (201, some 100), some (201, some 101)]) ∧
    countFor (runSchedule boundsImaging
        (System.arrive sampleState
          [(calmEnv 100 50, sampleRequest scenarioParams),
           (calmEnv 101 51, sampleRequest scenarioParams)])
        [0, 1, 0, 1]).state.transformations 1 "43d54b0598768e2ce5138c80e2050a8e".toList
      = 2 := by
  decide!

theorem countFor_append_match (ledger : List Transformation) (t : Transformation) :
    countFor (ledger ++ [t]) t.ImageID t.Hash = countFor ledger t.ImageID t.Hash + 1 := by
  simp [countFor, List.countP_append]

theorem createdCount_cons (x : Handler) (rest : List Handler) :
    createdCount (x :: rest) = createdCount rest + (if x.created then 1 else 0) := by
  simp [createdCount, List.countP_cons]

/-- One step of one handler: the ledger gains a record of the image and
digest exactly when the handler finishes with 201. -/
theorem stepHandler_count {Img : Type} (lib : Imaging Img) (s : State) (i : ObjectID)
    (p : TransformParams) (h : List Char) (hd : cacheDigest lib p = some h) (x : Handler)
    (hx : x.For i p h) :
    (stepHandler lib s x).2.For i p h ∧
    countFor (stepHandler lib s x).1.transformations i h + (if x.created then 1 else 0)
      = countFor s.transformations i h + (if (stepHandler lib s x).2.created then 1 else 0) := by
  cases x with
  | start env req =>
    cases hl : TransformImage.lookup lib env s req with
    | answered resp tr =>
      simp only [stepHandler, hl]
      cases resp with
      | error st msg => exact ⟨trivial, rfl⟩
      | transformation st t =>
        obtain ⟨-, -, -, -, -, -, -, -, -, -, -, -, -, -, hst, -⟩ :=
          lookup_hit lib env s req st t tr hl
        subst hst
        exact ⟨trivial, rfl⟩
    | miss pd =>
      simp only [stepHandler, hl]
      obtain ⟨hb, hi, hdg, -⟩ := lookup_miss lib env s req pd hl
      obtain ⟨hxi, hxb⟩ := hx
      rw [hxi] at hi
      rw [hxb] at hb
      cases hi
      cases hb
      rw [hd] at hdg
      cases hdg
      exact ⟨⟨rfl, rfl⟩, rfl⟩
  | pending env pd =>
    obtain ⟨hxi, hxh⟩ := hx
    simp only [stepHandler]
    rcases materialize_cases lib env s pd with ⟨msg, hr, hled, -⟩ | ⟨t, hr, hled, hi, hh, -⟩
    · refine ⟨trivial, ?_⟩
      simp [hr, hled, Handler.created]
    · refine ⟨trivial, ?_⟩
      have hc := countFor_append_match s.transformations t
      rw [hi, hh, hxi, hxh] at hc
      simp [hr, hled, Handler.created, hc]
  | finished resp => exact ⟨trivial, rfl⟩

/-- One step of a list of handlers. -/
theorem stepAt_count {Img : Type} (lib : Imaging Img) (s : State) (i : ObjectID)
    (p : TransformParams) (h : List Char) (hd : cacheDigest lib p = some h) (n : Nat)
    (hs : List Handler) (hfor : ∀ x ∈ hs, x.For i p h) :
    (∀ x ∈ (stepAt lib s n hs).2, x.For i p h) ∧
    countFor (stepAt lib s n hs).1.transformations i h + createdCount hs
      = countFor s.transformations i h + createdCount (stepAt lib s n hs).2 := by
  induction hs generalizing n with
  | nil => exact ⟨by simp [stepAt], by simp [stepAt]⟩
  | cons x rest ih =>
    have hx := hfor x (List.mem_cons_self _ _)
    have hrest : ∀ y ∈ rest, y.For i p h := fun y hy => hfor y (List.mem_cons_of_mem _ hy)
    cases n with
    | zero =>
      obtain ⟨hf, hc⟩ := stepHandler_count lib s i p h hd x hx
      simp only [stepAt]
      refine ⟨?_, ?_⟩
      · intro y hy
        rcases List.mem_cons.mp hy with rfl | hy
        · exact hf
        · exact hrest y hy
      · rw [createdCount_cons, createdCount_cons]
        omega
    | succ n =>
      obtain ⟨hf, hc⟩ := ih n hrest
      simp only [stepAt]
      refine ⟨?_, ?_⟩
      · intro y hy
        rcases List.mem_cons.mp hy with rfl | hy
        · exact hx
        · exact hf y hy
      · rw [createdCount_cons, createdCount_cons]
        omega

/-- Any schedule: the records gained are as many as the handlers that finished with 201. -/
theorem runSchedule_count {Img : Type} (lib : Imaging Img) (i : ObjectID)
    (p : TransformParams) (h : List Char) (hd : cacheDigest lib p = some h)
    (sched : List Nat) (sys : System) (hfor : ∀ x ∈ sys.handlers, x.For i p h) :
    (∀ x ∈ (runSchedule lib sys sched).handlers, x.For i p h) ∧
    countFor (runSchedule lib sys sched).state.transformations i h + createdCount sys.handlers
      = countFor sys.state.transformations i h
        + createdCount (runSchedule lib sys sched).handlers := by
  induction sched generalizing sys with
  | nil => exact ⟨hfor, rfl⟩
  | cons n rest ih =>
    obtain ⟨hf, hc⟩ := stepAt_count lib sys.state i p h hd n sys.handlers hfor
    obtain ⟨hf', hc'⟩ := ih (System.step lib sys n) hf
    refine ⟨hf', ?_⟩
    simp only [runSchedule, List.foldl_cons] at hc' ⊢
    simp only [System.step] at hc' ⊢
    omega

/-- C5, amended: the ledger insert is a plain insert, not an
insert-if-absent. For calls with the same image and parameters, in every
interleaving of their lookup and insert steps, the number of ledger records
of the image and digest grows by the number of calls answered 201 Created:
every call whose lookup missed and whose insert succeeded has added a record
of its own. -/
theorem C5_concurrent_inserts_counted {Img : Type} (lib : Imaging Img) (s : State)
    (i : ObjectID) (p : TransformParams) (h : List Char) (hd : cacheDigest lib p = some h)
    (calls : List (Env × Request))
    (hc : ∀ c ∈ calls, c.2.imageID = some i ∧ c.2.body = .ok p) (sched : List Nat) :
    countFor (runSchedule lib (System.arrive s calls) sched).state.transformations i h
      = countFor s.transformations i h
        + createdCount (runSchedule lib (System.arrive s calls) sched).handlers := by
  have hfor : ∀ x ∈ (System.arrive s calls).handlers, x.For i p h := by
    intro x hx
    simp only [System.arrive, List.mem_map] at hx
    obtain ⟨c, hcm, rfl⟩ := hx
    exact hc c hcm
  have h0 : createdCount (System.arrive s calls).handlers = 0 := by
    simp only [System.arrive, createdCount, List.countP_eq_zero, List.mem_map]
    rintro x ⟨c, -, rfl⟩
    simp [Handler.created]
  obtain ⟨-, hcount⟩ := runSchedule_count lib i p h hd sched (System.arrive s calls) hfor
  rw [h0] at hcount
  simpa [System.arrive] using hcount

/-- C5 amended, at two calls with the scenario parameters run one after the other. -/
theorem C5_concurrent_inserts_counted_witness :
    countFor (runSchedule boundsImaging
        (System.arrive sampleState
          [(calmEnv 100 50, sampleRequest scenarioParams),
           (calmEnv 101 51, sampleRequest scenarioParams)])
        [0, 0, 1, 1]).state.transformations 1 "43d54b0598768e2ce5138c80e2050a8e".toList
      = countFor sampleState.transformations 1 "43d54b0598768e2ce5138c80e2050a8e".toList
        + createdCount (runSchedule boundsImaging
            (System.arrive sampleState
              [(calmEnv 100 50, sampleRequest scenarioParams),
               (calmEnv 101 51, sampleRequest scenarioParams)])
            [0, 0, 1, 1]).handlers :=
  C5_concurrent_inserts_counted boundsImaging sampleState 1 scenarioParams
    "43d54b0598768e2ce5138c80e2050a8e".toList (by decide!)
    [(calmEnv 100 50, sampleRequest scenarioParams),
     (calmEnv 101 51, sampleRequest scenarioParams)]
    (by
      intro c hc
      simp only [List.mem_cons, List.mem_singleton, List.not_mem_nil, or_false] at hc
      rcases hc with rfl | rfl <;> exact ⟨rfl, rfl⟩)
    [0, 0, 1, 1]

/-- The two calls of the C5 example run one after the other: the second is a
hit, one record is left. -/
theorem sequential_schedule_example :
    ((runSchedule boundsImaging
        (System.arrive sampleState
          [(calmEnv 100 50, sampleRequest scenarioParams),
           (calmEnv 101 51, sampleRequest scenarioParams)])
        [0, 0, 1, 1]).handlers.map
          (fun h => h.answer.map (fun r => (r.status, r.record.map (fun t => t.ID))))
      = [some (201, some 100), some (200, some 100)]) ∧
    countFor (runSchedule boundsImaging
        (System.arrive sampleState
          [(calmEnv 100 50, sampleRequest scenarioParams),
           (calmEnv 101 51, sampleRequest scenarioParams)])
        [0, 0, 1, 1]).state.transformations 1 "43d54b0598768e2ce5138c80e2050a8e".toList
      = 1 := by
  decide!

/-! ### A repeated request -/

/-- Pushing a transformation onto an image record does not change which
(id, user) pairs have a record. -/
theorem findImage_pushTransformation (images : List Image) (i : ObjectID) (t : Transformation)
    (at_ : Time) (i' u : ObjectID) :
    (findImage (pushTransformation i t at_ images) i' u).isSome
      = (findImage images i' u).isSome := by
  induction images with
  | nil => rfl
  | cons im rest ih =>
    unfold findImage at ih ⊢
    simp only [pushTransformation]
    by_cases hid : im.ID = i
    · simp only [hid, if_true, List.find?_cons]
      by_cases hm : (decide (i = i') && decide (im.UserID = u)) = true
      · simp [hm]
      · simp [hm]
    · simp only [hid, if_false, List.find?_cons]
      by_cases hm : (decide (im.ID = i') && decide (im.UserID = u)) = true
      · simp [hm]
      · simp only [hm]
        exact ih

/-- The path of a hit, forwards: with the request well-formed, the image
found, a record found for the digest and the URL presigned, the answer is
that record with the new URL, the state is untouched and only the two
lookups and the presigning are called. -/
theorem TransformImage_hit {Img : Type} (lib : Imaging Img) (env : Env) (s : State)
    (req : Request) (u i : ObjectID) (p : TransformParams) (hash url : List Char)
    (e : Transformation)
    (hu : req.userID = some u) (hi : req.imageID = some i) (hb : req.body = .ok p)
    (he₁ : env.findImageErr = none) (hfi : (findImage s.images i u).isSome)
    (hd : cacheDigest lib p = some hash) (he₂ : env.findTransformationErr = none)
    (hf : findTransformation s.transformations i hash = some e)
    (hurl : env.presign e.ObjectName = some url) :
    TransformImage lib env s req
      = ⟨s, .transformation 200 { e with URL := url },
         [.findImage, .findTransformation, .presignURL e.ObjectName]⟩ := by
  obtain ⟨im, him⟩ := Option.isSome_iff_exists.mp hfi
  simp only [cacheDigest, Option.map_eq_some'] at hd
  obtain ⟨js, hjs, rfl⟩ := hd
  simp only [TransformImage, TransformImage.lookup, hu, hi, hb, he₁, him, hjs, he₂, hf, hurl]

/-- Looking up the record just appended, when none was there before. -/
theorem findTransformation_append_new (ledger : List Transformation) (t : Transformation)
    (h : findTransformation ledger t.ImageID t.Hash = none) :
    findTransformation (ledger ++ [t]) t.ImageID t.Hash = some t := by
  unfold findTransformation at h ⊢
  rw [List.find?_append, h]
  simp

/-- C6: idempotence. If a first `TransformImage` call is answered with a
record (200 or 201), then the same request run next on the resulting state,
with its two database lookups answering and the URL lookup succeeding, is
answered 200 with that same record under the new URL: same object key, same
digest, same record id. The state is left as it was (nothing written to the
bucket, nothing inserted into the ledger) and the only calls made are the
image lookup, the ledger lookup and the URL lookup: no source fetch, no
pipeline run. -/
theorem C6_repeated_request_is_hit {Img : Type} (lib : Imaging Img) (env₁ env₂ : Env)
    (s : State) (req : Request) (st₁ : Nat) (t₁ : Transformation) (url : List Char)
    (h₁ : (TransformImage lib env₁ s req).resp = .transformation st₁ t₁)
    (he₁ : env₂.findImageErr = none) (he₂ : env₂.findTransformationErr = none)
    (hurl : env₂.presign t₁.ObjectName = some url) :
    TransformImage lib env₂ (TransformImage lib env₁ s req).state req
      = ⟨(TransformImage lib env₁ s req).state,
         .transformation 200 { t₁ with URL := url },
         [.findImage, .findTransformation, .presignURL t₁.ObjectName]⟩ := by
  cases hl : TransformImage.lookup lib env₁ s req with
  | answered resp tr =>
    simp only [TransformImage, hl] at h₁
    subst h₁
    obtain ⟨u, i, p, hash, e, url₁, hu, hi, hb, hfi, hd, hf, -, ht, -, -⟩ :=
      lookup_hit lib env₁ s req st₁ t₁ tr hl
    subst ht
    have hstate : (TransformImage lib env₁ s req).state = s := by
      simp only [TransformImage, hl]
    rw [hstate]
    exact TransformImage_hit lib env₂ s req u i p hash url e hu hi hb he₁ hfi hd.symm he₂ hf hurl
  | miss pd =>
    obtain ⟨hb, hi, hd, ⟨u, hu, him⟩, hnone, -⟩ := lookup_miss lib env₁ s req pd hl
    have hstate : (TransformImage lib env₁ s req).state
        = (TransformImage.materialize lib env₁ s pd).state := by
      simp only [TransformImage, hl]
    simp only [TransformImage, hl] at h₁
    rw [hstate]
    rcases materialize_cases lib env₁ s pd with
      ⟨msg, hr, -⟩ | ⟨t, hr, hled, hti, hth, -, -, -, himg⟩
    · rw [hr] at h₁
      cases h₁
    · rw [hr] at h₁
      cases h₁
      have hfi : (findImage (TransformImage.materialize lib env₁ s pd).state.images
          pd.imageID u).isSome := by
        rcases himg with himg | himg
        · rw [himg, him]; rfl
        · rw [himg, findImage_pushTransformation, him]; rfl
      have hf : findTransformation (TransformImage.materialize lib env₁ s pd).state.transformations
          pd.imageID pd.hash = some t₁ := by
        rw [hled, ← hti, ← hth]
        apply findTransformation_append_new
        rw [hti, hth]
        exact hnone
      exact TransformImage_hit lib env₂ _ req u pd.imageID pd.params pd.hash url t₁ hu hi hb
        he₁ hfi hd.symm he₂ hf hurl

/-- C6 at the scenario: the first call creates the record, the second returns it. -/
theorem C6_repeated_request_is_hit_witness :
    TransformImage boundsImaging (calmEnv 101 60)
        (TransformImage boundsImaging (calmEnv 100 50) sampleState
          (sampleRequest scenarioParams)).state (sampleRequest scenarioParams)
      = ⟨(TransformImage boundsImaging (calmEnv 100 50) sampleState
            (sampleRequest scenarioParams)).state,
         .transformation 200 { scenarioRecord with URL := scenarioRecord.URL },
         [.findImage, .findTransformation, .presignURL scenarioRecord.ObjectName]⟩ :=
  C6_repeated_request_is_hit boundsImaging (calmEnv 100 50) (calmEnv 101 60) sampleState
    (sampleRequest scenarioParams) 201 scenarioRecord scenarioRecord.URL (by decide!) rfl rfl rfl

/-! ### Object names -/

/-- The scan passes over characters that are neither a separator nor a dot. -/
theorem extScan_skip (p r acc : List Char) (hp : ∀ c ∈ p, c ≠ '/' ∧ c ≠ '.') :
    extScan (p ++ r) acc = extScan r (p.reverse ++ acc) := by
  induction p generalizing acc with
  | nil => rfl
  | cons c p ih =>
    have hc := hp c (List.mem_cons_self _ _)
    have hp' : ∀ x ∈ p, x ≠ '/' ∧ x ≠ '.' := fun x hx => hp x (List.mem_cons_of_mem _ hx)
    have hstep : extScan (c :: p ++ r) acc = extScan (p ++ r) (c :: acc) := by
      simp only [List.cons_append, extScan, hc.1, hc.2, if_false]
      rfl
    rw [hstep, ih (c :: acc) hp']
    simp

/-- Whether the scan finds an extension does not depend on what it has collected. -/
theorem extScan_eq_nil (r acc acc' : List Char) (h : extScan r acc = []) :
    extScan r acc' = [] := by
  induction r generalizing acc acc' with
  | nil => rfl
  | cons c r ih =>
    simp only [extScan] at h ⊢
    by_cases h1 : c = '/'
    · simp [h1]
    · by_cases h2 : c = '.'
      · simp [h1, h2] at h
      · simp only [h1, h2, if_false] at h ⊢
        exact ih _ _ h

/-- The scan finds nothing, or it finds the dot after a run of characters
that are neither a separator nor a dot. -/
theorem extScan_cases (r acc : List Char) :
    extScan r acc = [] ∨
    ∃ p rest, r = p ++ '.' :: rest ∧ (∀ c ∈ p, c ≠ '/' ∧ c ≠ '.') ∧
      extScan r acc = '.' :: (p.reverse ++ acc) := by
  induction r generalizing acc with
  | nil => exact Or.inl rfl
  | cons c r ih =>
    by_cases h1 : c = '/'
    · left; simp [extScan, h1]
    · by_cases h2 : c = '.'
      · right
        exact ⟨[], r, by simp [h2], by simp, by simp [extScan, h2]⟩
      · rcases ih (c :: acc) with h | ⟨p, rest, hr, hp, he⟩
        · left; simp only [extScan, h1, h2, if_false]; exact h
        · right
          refine ⟨c :: p, rest, by simp [hr], ?_, ?_⟩
          · intro x hx
            rcases List.mem_cons.mp hx with rfl | hx
            · exact ⟨h1, h2⟩
            · exact hp x hx
          · simp only [extScan, h1, h2, if_false, he]
            simp

/-- A path splits into a stem and its extension; the extension holds no
separator, and it stays the extension when characters that are neither a
separator nor a dot are put between the stem and it. -/
theorem filepathExt_split (k : List Char) :
    ∃ stem, k = stem ++ filepathExt k ∧
      k.take (k.length - (filepathExt k).length) = stem ∧
      (∀ c ∈ filepathExt k, c ≠ '/') ∧
      ∀ mid : List Char, (∀ c ∈ mid, c ≠ '/' ∧ c ≠ '.') →
        filepathExt (stem ++ mid ++ filepathExt k) = filepathExt k := by
  unfold filepathExt
  rcases extScan_cases k.reverse [] with h | ⟨p, rest, hr, hp, he⟩
  · rw [h]
    refine ⟨k, by simp, by simp, by simp, ?_⟩
    intro mid hmid
    have hm : ∀ c ∈ mid.reverse, c ≠ '/' ∧ c ≠ '.' := fun c hc => hmid c (List.mem_reverse.mp hc)
    simp only [List.append_nil, List.reverse_append]
    rw [extScan_skip _ _ _ hm]
    exact extScan_eq_nil _ _ _ h
  · have hk : k = rest.reverse ++ '.' :: p.reverse := by
      have := congrArg List.reverse hr
      simpa using this
    rw [he]
    refine ⟨rest.reverse, by simpa using hk, ?_, ?_, ?_⟩
    · rw [hk]
      simp
    · intro c hc
      simp only [List.append_nil, List.mem_cons, List.mem_reverse] at hc
      rcases hc with rfl | hc
      · decide
      · exact (hp c hc).1
    · intro mid hmid
      simp only [List.append_nil, List.reverse_append, List.reverse_cons, List.reverse_reverse,
        List.append_assoc, List.singleton_append]
      rw [extScan_skip _ _ _ hp]
      simp [extScan]

/-- A hexadecimal digest holds neither a separator nor a dot. -/
theorem isHexDigest_chars (d : List Char) (hd : isHexDigest d) :
    ∀ c ∈ d, c ≠ '/' ∧ c ≠ '.' := by
  intro c hc
  have hmem := hd.2 c hc
  have hl : "0123456789abcdef".toList
      = ['0', '1', '2', '3', '4', '5', '6', '7', '8', '9', 'a', 'b', 'c', 'd', 'e', 'f'] := rfl
  rw [hl] at hmem
  simp only [List.mem_cons, List.mem_singleton, List.not_mem_nil, or_false] at hmem
  rcases hmem with h | h | h | h | h | h | h | h | h | h | h | h | h | h | h | h <;>
    subst h <;> decide

/-- Dropping a leading run that satisfies the predicate. -/
theorem dropWhile_append_all (f : Char → Bool) (p r : List Char) (hp : ∀ c ∈ p, f c = true) :
    (p ++ r).dropWhile f = r.dropWhile f := by
  induction p with
  | nil => rfl
  | cons c p ih =>
    have hc := hp c (List.mem_cons_self _ _)
    simp only [List.cons_append, List.dropWhile_cons, hc, if_true]
    exact ih (fun x hx => hp x (List.mem_cons_of_mem _ hx))

/-- The directory component is that of the stem when what follows holds no separator. -/
theorem filepathSplitDir_append (stem tail : List Char) (ht : ∀ c ∈ tail, c ≠ '/') :
    filepathSplitDir (stem ++ tail) = filepathSplitDir stem := by
  unfold filepathSplitDir
  rw [List.reverse_append, dropWhile_append_all]
  intro c hc
  simpa using ht c (List.mem_reverse.mp hc)

/-- C7: the object key derived by `StoreTransformedImage` (both backends)
from an original key k and a digest d of 32 hexadecimal characters. With
ext = filepath.Ext(k) and stem the rest of k, so that k = stem ++ ext, the
derived key is stem ++ "_" ++ d ++ ext; it has the extension of k and the
directory part of k. -/
theorem C7_derived_key (k d : List Char) (hd : isHexDigest d) :
    k = k.take (k.length - (filepathExt k).length) ++ filepathExt k ∧
    StorageClient.transformedObjectName k d
      = k.take (k.length - (filepathExt k).length) ++ "_".toList ++ d ++ filepathExt k ∧
    S3StorageClient.transformedObjectName k d
      = k.take (k.length - (filepathExt k).length) ++ "_".toList ++ d ++ filepathExt k ∧
    (∀ (b : Bucket) (content : Bytes) (ct : List Char),
      (StorageClient.StoreTransformedImage false b content k d ct).1
        = some (k.take (k.length - (filepathExt k).length) ++ "_".toList ++ d ++ filepathExt k) ∧
      (S3StorageClient.StoreTransformedImage false b content k d ct).1
        = some (k.take (k.length - (filepathExt k).length) ++ "_".toList ++ d
            ++ filepathExt k)) ∧
    filepathExt (StorageClient.transformedObjectName k d) = filepathExt k ∧
    filepathSplitDir (StorageClient.transformedObjectName k d) = filepathSplitDir k := by
  obtain ⟨stem, hk, htake, hext, hmid⟩ := filepathExt_split k
  have hdc := isHexDigest_chars d hd
  have hm : ∀ c ∈ "_".toList ++ d, c ≠ '/' ∧ c ≠ '.' := by
    intro c hc
    rcases List.mem_append.mp hc with hc | hc
    · have : c = '_' := by simpa using hc
      subst this
      decide
    · exact hdc c hc
  have hname : StorageClient.transformedObjectName k d
      = stem ++ ("_".toList ++ d) ++ filepathExt k := by
    simp only [StorageClient.transformedObjectName, htake, List.append_assoc]
  refine ⟨by rw [htake]; exact hk, rfl, rfl, fun b content ct => ⟨rfl, rfl⟩, ?_, ?_⟩
  · rw [hname]
    exact hmid _ hm
  · rw [hname]
    have hk' : filepathSplitDir k = filepathSplitDir stem := by
      conv_lhs => rw [hk]
      exact filepathSplitDir_append stem _ hext
    rw [hk', List.append_assoc]
    apply filepathSplitDir_append
    intro c hc
    rcases List.mem_append.mp hc with hc | hc
    · exact (hm c hc).1
    · exact hext c hc

/-- C7 at the key of the sample image and the digest of the scenario. -/
theorem C7_derived_key_witness :
    "uploads/0a1b.jpg".toList
      = "uploads/0a1b.jpg".toList.take ("uploads/0a1b.jpg".toList.length
          - (filepathExt "uploads/0a1b.jpg".toList).length)
        ++ filepathExt "uploads/0a1b.jpg".toList ∧
    StorageClient.transformedObjectName "uploads/0a1b.jpg".toList
        "43d54b0598768e2ce5138c80e2050a8e".toList
      = "uploads/0a1b_43d54b0598768e2ce5138c80e2050a8e.jpg".toList ∧
    filepathExt (StorageClient.transformedObjectName "uploads/0a1b.jpg".toList
        "43d54b0598768e2ce5138c80e2050a8e".toList) = ".jpg".toList ∧
    filepathSplitDir (StorageClient.transformedObjectName "uploads/0a1b.jpg".toList
        "43d54b0598768e2ce5138c80e2050a8e".toList) = "uploads/".toList :=
  ⟨(C7_derived_key "uploads/0a1b.jpg".toList "43d54b0598768e2ce5138c80e2050a8e".toList
      (by decide!)).1,
   by decide!, by decide!, by decide!⟩

/-- C8: the two storage backends name objects alike. For every original
key, digest and filename the MinIO and the S3 `StoreTransformedImage` derive
the same object key and their `UploadImage` write to the same object key,
"uploads" joined with the filename by `filepath.Join`; on the bucket as
modelled the operations have the same result and effect. -/
theorem C8_backends_same_names (join : List Char → List Char → List Char)
    (k d filename : List Char) :
    StorageClient.transformedObjectName k d = S3StorageClient.transformedObjectName k d ∧
    StorageClient.uploadObjectName join filename
      = S3StorageClient.uploadObjectName join filename ∧
    StorageClient.uploadObjectName join filename = join "uploads".toList filename ∧
    (∀ (putErr : Bool) (b : Bucket) (content : Bytes) (ct : List Char),
      StorageClient.StoreTransformedImage putErr b content k d ct
        = S3StorageClient.StoreTransformedImage putErr b content k d ct ∧
      StorageClient.UploadImage join putErr b content filename ct
        = S3StorageClient.UploadImage join putErr b content filename ct) :=
  ⟨rfl, rfl, rfl, fun _ _ _ _ => ⟨rfl, rfl⟩⟩

/-! ### The pipeline -/

/-- The code's pipeline is its statements run in sequence. -/
theorem applyTransformations_steps {Img : Type} (lib : Imaging Img) (p : TransformParams)
    (src : Img) :
    applyTransformations lib p src
      = watermarkStep lib p (filtersStep lib p (mirrorStep lib p (flipStep lib p
          (rotateStep lib p (cropStep lib p (resizeStep lib p src)))))) := rfl

theorem resizeStep_eq {Img : Type} (lib : Imaging Img) (p : TransformParams) (X : Img) :
    resizeStep lib p X
      = (match p.Resize with
          | some r => fun img => lib.Resize img r.Width r.Height
          | none => id) X := by
  unfold resizeStep; cases p.Resize <;> rfl

theorem cropStep_eq {Img : Type} (lib : Imaging Img) (p : TransformParams) (X : Img) :
    cropStep lib p X
      = (match p.Crop with
          | some c => fun img => lib.Crop img (cropRectangle c)
          | none => id) X := by
  unfold cropStep; cases p.Crop <;> rfl

theorem rotateStep_eq {Img : Type} (lib : Imaging Img) (p : TransformParams) (X : Img) :
    rotateStep lib p X
      = (match p.Rotate with
          | some deg => fun img => lib.Rotate img deg
          | none => id) X := by
  unfold rotateStep; cases p.Rotate <;> rfl

theorem flipStep_eq {Img : Type} (lib : Imaging Img) (p : TransformParams) (X : Img) :
    flipStep lib p X
      = (match p.Flip with
          | some true => lib.FlipV
          | _ => id) X := by
  unfold flipStep; rcases p.Flip with _ | _ | _ <;> rfl

theorem mirrorStep_eq {Img : Type} (lib : Imaging Img) (p : TransformParams) (X : Img) :
    mirrorStep lib p X
      = (match p.Mirror with
          | some true => lib.FlipH
          | _ => id) X := by
  unfold mirrorStep; rcases p.Mirror with _ | _ | _ <;> rfl

theorem filtersStep_eq {Img : Type} (lib : Imaging Img) (p : TransformParams) (X : Img) :
    filtersStep lib p X
      = (match p.Filters.bind (fun f => f.Sharpen) with
            | some amount => fun img => lib.Sharpen img amount
            | none => id)
          ((match p.Filters.bind (fun f => f.Blur) with
            | some radius => fun img => lib.Blur img radius
            | none => id)
          ((match p.Filters with
            | some f => if f.Sepia then lib.Sepia else id
            | none => id)
          ((match p.Filters with
            | some f => if f.Grayscale then lib.Grayscale else id
            | none => id) X))) := by
  unfold filtersStep
  cases p.Filters with
  | none => rfl
  | some f =>
    obtain ⟨g, sp, bl, sh⟩ := f
    cases g <;> cases sp <;> cases bl <;> cases sh <;> rfl

theorem watermarkStep_eq {Img : Type} (lib : Imaging Img) (p : TransformParams) (X : Img) :
    watermarkStep lib p X
      = (match p.Watermark with
          | some w => fun img => lib.AddWatermark img w.Text w.X w.Y w.Opacity
          | none => id) X := by
  unfold watermarkStep; cases p.Watermark <;> rfl

/-- The code's pipeline is the left-to-right composition of the stages. -/
theorem applyTransformations_eq_compose {Img : Type} (lib : Imaging Img) (p : TransformParams)
    (src : Img) :
    applyTransformations lib p src = composeLeftToRight (pipelineStages lib p) src := by
  rw [applyTransformations_steps, watermarkStep_eq, filtersStep_eq, mirrorStep_eq, flipStep_eq,
    rotateStep_eq, cropStep_eq, resizeStep_eq]
  rfl

/-! ### What a successful miss has done -/

/-- The second half, forwards: with the source fetched and decoded, the
result encoded, stored, presigned and the record inserted, the answer is 201
with the new record; the bucket holds the encoded pipeline output under the
derived name and the ledger has the record appended. -/
theorem materialize_success {Img : Type} (lib : Imaging Img) (env : Env) (s : State)
    (pd : Pending) (src : Img) (buf : Bytes) (url : List Char)
    (hg : env.getObjectErr = false)
    (hsrc : (s.bucket.get pd.image.ObjectName).bind (fun o => lib.Decode o.data) = some src)
    (henc : lib.Encode (applyTransformations lib pd.params src)
      (outputFormat pd.params pd.image).1 = some buf)
    (hput : env.putObjectErr = false)
    (hurl : env.presign (StorageClient.transformedObjectName pd.image.ObjectName pd.hash)
      = some url)
    (hins : env.insertErr = none) :
    (TransformImage.materialize lib env s pd).resp
      = .transformation 201
          ⟨env.newObjectID, pd.imageID,
           StorageClient.transformedObjectName pd.image.ObjectName pd.hash, url, pd.params,
           pd.hash, env.now⟩ ∧
    (TransformImage.materialize lib env s pd).state.transformations
      = s.transformations ++
          [⟨env.newObjectID, pd.imageID,
            StorageClient.transformedObjectName pd.image.ObjectName pd.hash, url, pd.params,
            pd.hash, env.now⟩] ∧
    (TransformImage.materialize lib env s pd).state.bucket
      = s.bucket.put ⟨StorageClient.transformedObjectName pd.image.ObjectName pd.hash, buf,
          (outputFormat pd.params pd.image).2⟩ := by
  simp only [TransformImage.materialize, StorageClient.StoreTransformedImage, hg, hsrc, henc,
    hput, hurl, hins]
  cases env.updateErr <;> simp [hurl, hins]

/-- The second half, backwards: an answer with a record means every step
succeeded, and the bucket holds the encoded pipeline output of the decoded
source under the derived name. -/
theorem materialize_created {Img : Type} (lib : Imaging Img) (env : Env) (s : State)
    (pd : Pending) (st : Nat) (t : Transformation)
    (h : (TransformImage.materialize lib env s pd).resp = .transformation st t) :
    ∃ src buf url,
      env.getObjectErr = false ∧
      (s.bucket.get pd.image.ObjectName).bind (fun o => lib.Decode o.data) = some src ∧
      lib.Encode (applyTransformations lib pd.params src) (outputFormat pd.params pd.image).1
        = some buf ∧
      env.putObjectErr = false ∧
      env.presign (StorageClient.transformedObjectName pd.image.ObjectName pd.hash)
        = some url ∧
      env.insertErr = none ∧ st = 201 ∧
      t = ⟨env.newObjectID, pd.imageID,
           StorageClient.transformedObjectName pd.image.ObjectName pd.hash, url, pd.params,
           pd.hash, env.now⟩ ∧
      (TransformImage.materialize lib env s pd).state.bucket
        = s.bucket.put ⟨StorageClient.transformedObjectName pd.image.ObjectName pd.hash, buf,
            (outputFormat pd.params pd.image).2⟩ := by
  cases hg : env.getObjectErr with
  | true => simp [TransformImage.materialize, hg] at h
  | false =>
  cases hsrc : (s.bucket.get pd.image.ObjectName).bind (fun o => lib.Decode o.data) with
  | none => simp [TransformImage.materialize, hg, hsrc] at h
  | some src =>
  cases henc : lib.Encode (applyTransformations lib pd.params src)
      (outputFormat pd.params pd.image).1 with
  | none => simp [TransformImage.materialize, hg, hsrc, henc] at h
  | some buf =>
  cases hput : env.putObjectErr with
  | true =>
    simp [TransformImage.materialize, StorageClient.StoreTransformedImage, hg, hsrc, henc,
      hput] at h
  | false =>
  cases hurl : env.presign (StorageClient.transformedObjectName pd.image.ObjectName pd.hash) with
  | none =>
    simp [TransformImage.materialize, StorageClient.StoreTransformedImage, hg, hsrc, henc,
      hput, hurl] at h
  | some url =>
  cases hins : env.insertErr with
  | some e =>
    simp [TransformImage.materialize, StorageClient.StoreTransformedImage, hg, hsrc, henc,
      hput, hurl, hins] at h
  | none =>
    obtain ⟨hr, -, hb⟩ := materialize_success lib env s pd src buf url hg hsrc henc hput hurl hins
    rw [hr] at h
    cases h
    refine ⟨src, buf, url, ?_, ?_, ?_, ?_, ?_, ?_, rfl, rfl, hb⟩ <;>
      first | rfl | assumption

/-- Reading back the object just written. -/
theorem Bucket.get_put_self (b : Bucket) (o : StoredObject) : (b.put o).get o.key = some o := by
  simp [Bucket.put, Bucket.get]

/-- An answer 201 of `TransformImage`, backwards: the request was
well-formed, the image found, the ledger held no record of the digest, the
source was decoded, the pipeline output encoded and stored under the derived
name, and the record appended to the ledger. -/
theorem TransformImage_created {Img : Type} (lib : Imaging Img) (env : Env) (s : State)
    (req : Request) (t : Transformation)
    (h : (TransformImage lib env s req).resp = .transformation 201 t) :
    ∃ u i im p hash src buf url,
      req.userID = some u ∧ req.imageID = some i ∧ req.body = .ok p ∧
      findImage s.images i u = some im ∧ some hash = cacheDigest lib p ∧
      findTransformation s.transformations i hash = none ∧
      (s.bucket.get im.ObjectName).bind (fun o => lib.Decode o.data) = some src ∧
      lib.Encode (applyTransformations lib p src) (outputFormat p im).1 = some buf ∧
      t = ⟨env.newObjectID, i, StorageClient.transformedObjectName im.ObjectName hash, url, p,
           hash, env.now⟩ ∧
      (TransformImage lib env s req).state.bucket
        = s.bucket.put ⟨StorageClient.transformedObjectName im.ObjectName hash, buf,
            (outputFormat p im).2⟩ ∧
      (TransformImage lib env s req).state.transformations = s.transformations ++ [t] := by
  cases hl : TransformImage.lookup lib env s req with
  | answered resp tr =>
    simp only [TransformImage, hl] at h
    subst h
    obtain ⟨-, -, -, -, -, -, -, -, -, -, -, -, -, -, hst, -⟩ :=
      lookup_hit lib env s req 201 t tr hl
    cases hst
  | miss pd =>
    obtain ⟨hb, hi, hd, ⟨u, hu, him⟩, hnone, -⟩ := lookup_miss lib env s req pd hl
    simp only [TransformImage, hl] at h ⊢
    obtain ⟨src, buf, url, -, hsrc, henc, -, -, -, -, ht, hbk⟩ :=
      materialize_created lib env s pd 201 t h
    rcases materialize_cases lib env s pd with ⟨msg, hr, -⟩ | ⟨t', hr, hled, -⟩
    · rw [hr] at h
      cases h
    · rw [hr] at h
      cases h
      exact ⟨u, pd.imageID, pd.image, pd.params, pd.hash, src, buf, url, hu, hi, hb, him, hd,
        hnone, hsrc, henc, ht, hbk, hled⟩

/-- C9: with each image operation an abstract pure function, the image that
`TransformImage` encodes is the left-to-right composition, on the decoded
source, of the stages resize, crop, rotate, vertical flip, horizontal
mirror, grayscale, sepia, blur, sharpen, watermark, a stage whose field is
absent being the identity; with every stage field absent it is the decoded
source unchanged. Whenever `TransformImage` answers 201, the object stored
under the record's name is the encoding of that composition. -/
theorem C9_pipeline_order {Img : Type} (lib : Imaging Img) :
    (∀ (p : TransformParams) (src : Img),
      applyTransformations lib p src = composeLeftToRight (pipelineStages lib p) src) ∧
    (∀ (p : TransformParams) (src : Img), p.Resize = none → p.Crop = none → p.Rotate = none →
      p.Flip = none → p.Mirror = none → p.Filters = none → p.Watermark = none →
      applyTransformations lib p src = src) ∧
    (∀ (env : Env) (s : State) (req : Request) (t : Transformation),
      (TransformImage lib env s req).resp = .transformation 201 t →
      ∃ u i im p src buf,
        req.userID = some u ∧ req.imageID = some i ∧ req.body = .ok p ∧
        findImage s.images i u = some im ∧
        (s.bucket.get im.ObjectName).bind (fun o => lib.Decode o.data) = some src ∧
        lib.Encode (composeLeftToRight (pipelineStages lib p) src) (outputFormat p im).1
          = some buf ∧
        (TransformImage lib env s req).state.bucket.get t.ObjectName
          = some ⟨t.ObjectName, buf, (outputFormat p im).2⟩) := by
  refine ⟨applyTransformations_eq_compose lib, ?_, ?_⟩
  · intro p src h1 h2 h3 h4 h5 h6 h7
    simp only [applyTransformations, h1, h2, h3, h4, h5, h6, h7]
  · intro env s req t h
    obtain ⟨u, i, im, p, hash, src, buf, url, hu, hi, hb, him, -, -, hsrc, henc, ht, hbk, -⟩ :=
      TransformImage_created lib env s req t h
    refine ⟨u, i, im, p, src, buf, hu, hi, hb, him, hsrc, ?_, ?_⟩
    · rw [← applyTransformations_eq_compose]
      exact henc
    · rw [hbk, ht]
      exact Bucket.get_put_self _ _

/-- C9 at the scenario request on the sample state: the stored object is
the encoding of the composed stages (resize to 400 by 300, grayscale) on the
decoded source, and a request with only a format set encodes the source
unchanged. -/
theorem C9_pipeline_order_witness :
    applyTransformations boundsImaging { noParams with Format := some "png".toList }
        (⟨⟨0, 0⟩, ⟨8, 6⟩⟩ : Rectangle) = ⟨⟨0, 0⟩, ⟨8, 6⟩⟩ ∧
    ∃ u i im p src buf,
      (sampleRequest scenarioParams).userID = some u ∧
      (sampleRequest scenarioParams).imageID = some i ∧
      (sampleRequest scenarioParams).body = .ok p ∧
      findImage sampleState.images i u = some im ∧
      (sampleState.bucket.get im.ObjectName).bind (fun o => boundsImaging.Decode o.data)
        = some src ∧
      boundsImaging.Encode (composeLeftToRight (pipelineStages boundsImaging p) src)
        (outputFormat p im).1 = some buf ∧
      (TransformImage boundsImaging (calmEnv 100 50) sampleState
          (sampleRequest scenarioParams)).state.bucket.get scenarioRecord.ObjectName
        = some ⟨scenarioRecord.ObjectName, buf, (outputFormat p im).2⟩ :=
  ⟨(C9_pipeline_order boundsImaging).2.1 { noParams with Format := some "png".toList }
      ⟨⟨0, 0⟩, ⟨8, 6⟩⟩ rfl rfl rfl rfl rfl rfl rfl,
   (C9_pipeline_order boundsImaging).2.2 (calmEnv 100 50) sampleState
      (sampleRequest scenarioParams) scenarioRecord (by decide!)⟩

/-! ### Crop rectangles -/

/-- The first half answers 400 only for an invalid image id or body. -/
theorem lookup_status_400 {Img : Type} (lib : Imaging Img) (env : Env) (s : State)
    (req : Request) (resp : Response) (tr : List Effect)
    (h : TransformImage.lookup lib env s req = .answered resp tr) (hs : resp.status = 400) :
    req.imageID = none ∨ ∃ e, req.body = .error e := by
  unfold TransformImage.lookup at h
  split at h
  · cases h; cases hs
  split at h
  · left; assumption
  split at h
  · right; exact ⟨_, by assumption⟩
  split at h
  · cases h; cases hs
  split at h
  · cases h; cases hs
  split at h
  · cases h; cases hs
  split at h
  · cases h; cases hs
  dsimp only at h
  split at h
  · split at h <;> (cases h; cases hs)
  · cases h

/-- `TransformImage` answers 400 only for an invalid image id or body. -/
theorem TransformImage_status_400 {Img : Type} (lib : Imaging Img) (env : Env) (s : State)
    (req : Request) (hs : (TransformImage lib env s req).resp.status = 400) :
    req.imageID = none ∨ ∃ e, req.body = .error e := by
  cases hl : TransformImage.lookup lib env s req with
  | answered resp tr =>
    simp only [TransformImage, hl] at hs
    exact lookup_status_400 lib env s req resp tr hl hs
  | miss pd =>
    simp only [TransformImage, hl] at hs
    rcases materialize_cases lib env s pd with ⟨msg, hr, -⟩ | ⟨t, hr, -⟩
    · rw [hr] at hs; cases hs
    · rw [hr] at hs; cases hs

/-- The first half, forwards, on a miss. -/
theorem lookup_miss_of {Img : Type} (lib : Imaging Img) (env : Env) (s : State)
    (req : Request) (u i : ObjectID) (p : TransformParams) (im : Image) (hash : List Char)
    (hu : req.userID = some u) (hi : req.imageID = some i) (hb : req.body = .ok p)
    (he₁ : env.findImageErr = none) (him : findImage s.images i u = some im)
    (hd : cacheDigest lib p = some hash) (he₂ : env.findTransformationErr = none)
    (hnone : findTransformation s.transformations i hash = none) :
    TransformImage.lookup lib env s req = .miss ⟨i, im, p, hash⟩ := by
  simp only [cacheDigest, Option.map_eq_some'] at hd
  obtain ⟨js, hjs, rfl⟩ := hd
  simp only [TransformImage.lookup, hu, hi, hb, he₁, him, hjs, he₂, hnone]

/-- C10, refuted: the sample image is 8 by 6 and the crop rectangle
(4, 3)-(14, 13) is not contained in its bounds, yet the request is answered
201, the ledger gets the record and the bucket gets an artifact; with
`imaging.Crop` returning the intersection with the bounds, the artifact is
the clamped 4 by 3 image. -/
theorem C10_crop_outside_counterexample :
    (cropRectangle ⟨10, 10, 4, 3⟩).In (boundsImaging.Bounds ⟨⟨0, 0⟩, ⟨8, 6⟩⟩) = false ∧
    (TransformImage boundsImaging (calmEnv 100 50) sampleState
        (sampleRequest cropOutside)).resp = .transformation 201 cropRecord ∧
    (TransformImage boundsImaging (calmEnv 100 50) sampleState
        (sampleRequest cropOutside)).state.transformations = [cropRecord] ∧
    (TransformImage boundsImaging (calmEnv 100 50) sampleState
        (sampleRequest cropOutside)).state.bucket.get cropRecord.ObjectName
      = some ⟨cropRecord.ObjectName, [4, 3], "image/jpeg".toList⟩ := by
  decide!

/-- C10, amended: `TransformImage` does not check a crop rectangle against
the image. For every request with a valid image id and a body that has a
crop, whatever the rectangle and the image bounds: the answer is never 400;
the crop stage hands the rectangle (x, y, x+width, y+height) to
`imaging.Crop` as requested; and when the other steps succeed, the answer is
201, the encoding of the pipeline output is stored and the record is
inserted into the ledger. -/
theorem C10_crop_not_rejected {Img : Type} (lib : Imaging Img) (env : Env) (s : State)
    (req : Request) (u i : ObjectID) (p : TransformParams) (c : CropParams)
    (hu : req.userID = some u) (hi : req.imageID = some i) (hb : req.body = .ok p)
    (hc : p.Crop = some c) :
    (TransformImage lib env s req).resp.status ≠ 400 ∧
    (∀ X : Img, cropStep lib p X
      = lib.Crop X ⟨⟨c.X, c.Y⟩, ⟨addInt c.X c.Width, addInt c.Y c.Height⟩⟩) ∧
    (∀ (im : Image) (hash : List Char) (src : Img) (buf : Bytes) (url : List Char),
      env.findImageErr = none → findImage s.images i u = some im →
      cacheDigest lib p = some hash → env.findTransformationErr = none →
      findTransformation s.transformations i hash = none →
      env.getObjectErr = false →
      (s.bucket.get im.ObjectName).bind (fun o => lib.Decode o.data) = some src →
      lib.Encode (applyTransformations lib p src) (outputFormat p im).1 = some buf →
      env.putObjectErr = false →
      env.presign (StorageClient.transformedObjectName im.ObjectName hash) = some url →
      env.insertErr = none →
      (TransformImage lib env s req).resp
        = .transformation 201
            ⟨env.newObjectID, i, StorageClient.transformedObjectName im.ObjectName hash, url,
             p, hash, env.now⟩ ∧
      (TransformImage lib env s req).state.transformations
        = s.transformations ++
            [⟨env.newObjectID, i, StorageClient.transformedObjectName im.ObjectName hash, url,
              p, hash, env.now⟩] ∧
      (TransformImage lib env s req).state.bucket
        = s.bucket.put ⟨StorageClient.transformedObjectName im.ObjectName hash, buf,
            (outputFormat p im).2⟩) := by
  refine ⟨?_, ?_, ?_⟩
  · intro h400
    rcases TransformImage_status_400 lib env s req h400 with h | ⟨e, h⟩
    · rw [hi] at h; cases h
    · rw [hb] at h; cases h
  · intro X
    simp only [cropStep, hc, cropRectangle]
  · intro im hash src buf url he₁ him hd he₂ hnone hg hsrc henc hput hurl hins
    have hl := lookup_miss_of lib env s req u i p im hash hu hi hb he₁ him hd he₂ hnone
    simp only [TransformImage, hl]
    exact materialize_success lib env s ⟨i, im, p, hash⟩ src buf url hg hsrc henc hput hurl hins

/-- C10 amended, at the sample image and the crop rectangle (4, 3)-(14, 13). -/
theorem C10_crop_not_rejected_witness :
    (TransformImage boundsImaging (calmEnv 100 50) sampleState
        (sampleRequest cropOutside)).resp.status ≠ 400 ∧
    ((TransformImage boundsImaging (calmEnv 100 50) sampleState
        (sampleRequest cropOutside)).resp = .transformation 201 cropRecord ∧
     (TransformImage boundsImaging (calmEnv 100 50) sampleState
        (sampleRequest cropOutside)).state.transformations
       = sampleState.transformations ++ [cropRecord] ∧
     (TransformImage boundsImaging (calmEnv 100 50) sampleState
        (sampleRequest cropOutside)).state.bucket
       = sampleState.bucket.put ⟨cropRecord.ObjectName, [4, 3], "image/jpeg".toList⟩) :=
  ⟨(C10_crop_not_rejected boundsImaging (calmEnv 100 50) sampleState
      (sampleRequest cropOutside) 7 1 cropOutside ⟨10, 10, 4, 3⟩ rfl rfl rfl rfl).1,
   (C10_crop_not_rejected boundsImaging (calmEnv 100 50) sampleState
      (sampleRequest cropOutside) 7 1 cropOutside ⟨10, 10, 4, 3⟩ rfl rfl rfl rfl).2.2
      sampleImage cropRecord.Hash ⟨⟨0, 0⟩, ⟨8, 6⟩⟩ [4, 3] cropRecord.URL
      rfl (by decide!) (by decide!) rfl (by decide!) rfl (by decide!) (by decide!) rfl
      (by decide!) rfl⟩

/-! ### The error answers of the handler -/

theorem lookup_error {Img : Type} (lib : Imaging Img) (env : Env) (s : State)
    (req : Request) (st : Nat) (msg : List Char) (tr : List Effect)
    (h : TransformImage.lookup lib env s req = .answered (.error st msg) tr) :
    (st = 401 ∧ msg = "User ID not found in context".toList) ∨
    (st = 400 ∧ (msg = "Invalid image ID".toList ∨ req.body = .error msg)) ∨
    (st = 404 ∧ msg = "Image not found".toList) ∨
    (st = 500 ∧ (env.findImageErr = some msg ∨ env.findTransformationErr = some msg ∨
      msg = "Failed to process transformation parameters".toList ∨
      msg = "Failed to get transformation URL".toList)) := by
  unfold TransformImage.lookup at h
  split at h
  · cases h; exact Or.inl ⟨rfl, rfl⟩
  split at h
  · cases h; exact Or.inr (Or.inl ⟨rfl, Or.inl rfl⟩)
  split at h
  · cases h; exact Or.inr (Or.inl ⟨rfl, Or.inr (by assumption)⟩)
  split at h
  · cases h; exact Or.inr (Or.inr (Or.inr ⟨rfl, Or.inl (by assumption)⟩))
  split at h
  · cases h; exact Or.inr (Or.inr (Or.inl ⟨rfl, rfl⟩))
  split at h
  · cases h; exact Or.inr (Or.inr (Or.inr ⟨rfl, Or.inr (Or.inr (Or.inl rfl))⟩))
  split at h
  · cases h; exact Or.inr (Or.inr (Or.inr ⟨rfl, Or.inr (Or.inl (by assumption))⟩))
  dsimp only at h
  split at h
  · split at h
    · cases h; exact Or.inr (Or.inr (Or.inr ⟨rfl, Or.inr (Or.inr (Or.inr rfl))⟩))
    · cases h
  · cases h

theorem materialize_error {Img : Type} (lib : Imaging Img) (env : Env) (s : State)
    (pd : Pending) (st : Nat) (msg : List Char)
    (h : (TransformImage.materialize lib env s pd).resp = .error st msg) :
    st = 500 ∧ (env.insertErr = some msg ∨
      msg = "Failed to get original image".toList ∨
      msg = "Failed to decode image".toList ∨
      msg = "Failed to encode transformed image".toList ∨
      msg = "Failed to store transformed image".toList ∨
      msg = "Failed to get transformed image URL".toList) := by
  revert h
  unfold TransformImage.materialize StorageClient.StoreTransformedImage
  dsimp only
  split
  · intro h; cases h; exact ⟨rfl, Or.inr (Or.inl rfl)⟩
  split
  · intro h; cases h; exact ⟨rfl, Or.inr (Or.inr (Or.inl rfl))⟩
  split
  · intro h; cases h; exact ⟨rfl, Or.inr (Or.inr (Or.inr (Or.inl rfl)))⟩
  split
  · intro h; cases h; exact ⟨rfl, Or.inr (Or.inr (Or.inr (Or.inr (Or.inl rfl))))⟩
  split
  · intro h; cases h; exact ⟨rfl, Or.inr (Or.inr (Or.inr (Or.inr (Or.inr rfl))))⟩
  split
  · intro h; cases h; exact ⟨rfl, Or.inl (by assumption)⟩
  intro h
  cases h

theorem TransformImage_of_miss {Img : Type} (lib : Imaging Img) (env : Env) (s : State)
    (req : Request) (pd : Pending) (h : TransformImage.lookup lib env s req = .miss pd) :
    (TransformImage lib env s req).resp = (TransformImage.materialize lib env s pd).resp ∧
    (TransformImage lib env s req).state = (TransformImage.materialize lib env s pd).state ∧
    (TransformImage lib env s req).trace
      = [Effect.findImage, Effect.findTransformation]
          ++ (TransformImage.materialize lib env s pd).trace := by
  simp [TransformImage, h]

theorem materialize_encode_step {Img : Type} (lib : Imaging Img) (env : Env) (s : State)
    (pd : Pending) (src : Img) (hg : env.getObjectErr = false)
    (hd : (s.bucket.get pd.image.ObjectName).bind (fun o => lib.Decode o.data) = some src) :
    (lib.Encode (applyTransformations lib pd.params src) (outputFormat pd.params pd.image).1
        = none →
      (TransformImage.materialize lib env s pd).resp
        = .error 500 "Failed to encode transformed image".toList ∧
      (TransformImage.materialize lib env s pd).state = s) ∧
    (∀ buf,
      lib.Encode (applyTransformations lib pd.params src) (outputFormat pd.params pd.image).1
        = some buf →
      Effect.putObject (StorageClient.transformedObjectName pd.image.ObjectName pd.hash)
        ∈ (TransformImage.materialize lib env s pd).trace) := by
  constructor
  · intro he
    simp only [TransformImage.materialize, hg, hd, he]
    exact ⟨rfl, rfl⟩
  · intro buf he
    simp only [TransformImage.materialize, StorageClient.StoreTransformedImage, hg, hd, he]
    cases env.putObjectErr
    · simp only [Bool.false_eq_true, if_false]
      split
      · simp
      · split <;> simp
    · simp

/-! ### The output format -/

/-- C11, refuted: a request for the output format "webp" on the sample
image is answered 201; the artifact is encoded as JPEG (leading byte 0 of
the tagged encoding) and stored with the content type image/jpeg. -/
theorem C11_requested_format_counterexample :
    ((TransformImage taggedImaging (calmEnv 100 50) sampleState
        (sampleRequest webpParams)).resp.status = 201) ∧
    ((TransformImage taggedImaging (calmEnv 100 50) sampleState
        (sampleRequest webpParams)).resp.record.map (fun t => t.Parameters.Format)
      = some (some "webp".toList)) ∧
    ((TransformImage taggedImaging (calmEnv 100 50) sampleState
        (sampleRequest webpParams)).state.bucket.get
          "uploads/0a1b_f8d44e9e40284f8743867b53add28d46.jpg".toList
      = some ⟨"uploads/0a1b_f8d44e9e40284f8743867b53add28d46.jpg".toList, [0, 8, 6],
          "image/jpeg".toList⟩) ∧
    outputFormat webpParams sampleImage = (Format.JPEG, "image/jpeg".toList) := by
  decide!

/-- C11, amended: a given output format selects the encoding by the switch
of the handler and is never rejected. "png" gives PNG with image/png, "gif"
gives GIF with image/gif, and every other value gives JPEG with image/jpeg.
Whenever the request is answered 201, the stored artifact is the pipeline
output encoded in that format, with that content type. Every error answer is
one of the handler's own answers for a missing user, a bad image id, an image
not found, or a failing database, serialization, storage, decoding or
encoding call: none names the format. Once the source image is decoded, the
request fails with "Failed to encode transformed image", the state unchanged,
when the imaging library does not encode the pipeline output in the format
the switch picked, and goes on to store the encoding when it does. -/
theorem C11_format_by_switch {Img : Type} (lib : Imaging Img) (env : Env) (s : State)
    (req : Request) (p : TransformParams) (f : List Char)
    (hb : req.body = .ok p) (hf : p.Format = some f) :
    (∀ t, (TransformImage lib env s req).resp = .transformation 201 t →
      ∃ src buf,
        lib.Encode (applyTransformations lib p src)
            (if f = "png".toList then Format.PNG
             else if f = "gif".toList then Format.GIF else Format.JPEG) = some buf ∧
        (TransformImage lib env s req).state.bucket.get t.ObjectName
          = some ⟨t.ObjectName, buf,
              if f = "png".toList then "image/png".toList
              else if f = "gif".toList then "image/gif".toList
              else "image/jpeg".toList⟩) ∧
    (∀ st msg, (TransformImage lib env s req).resp = .error st msg →
      (st = 401 ∧ msg = "User ID not found in context".toList) ∨
      (st = 400 ∧ msg = "Invalid image ID".toList) ∨
      (st = 404 ∧ msg = "Image not found".toList) ∨
      (st = 500 ∧
        (env.findImageErr = some msg ∨ env.findTransformationErr = some msg ∨
         env.insertErr = some msg ∨
         msg ∈ ["Failed to process transformation parameters".toList,
                "Failed to get transformation URL".toList,
                "Failed to get original image".toList,
                "Failed to decode image".toList,
                "Failed to encode transformed image".toList,
                "Failed to store transformed image".toList,
                "Failed to get transformed image URL".toList]))) ∧
    (∀ pd src, TransformImage.lookup lib env s req = .miss pd →
      env.getObjectErr = false →
      (s.bucket.get pd.image.ObjectName).bind (fun o => lib.Decode o.data) = some src →
      (lib.Encode (applyTransformations lib p src)
            (if f = "png".toList then Format.PNG
             else if f = "gif".toList then Format.GIF else Format.JPEG) = none →
        (TransformImage lib env s req).resp
          = .error 500 "Failed to encode transformed image".toList ∧
        (TransformImage lib env s req).state = s) ∧
      (∀ buf,
        lib.Encode (applyTransformations lib p src)
            (if f = "png".toList then Format.PNG
             else if f = "gif".toList then Format.GIF else Format.JPEG) = some buf →
        Effect.putObject (StorageClient.transformedObjectName pd.image.ObjectName pd.hash)
          ∈ (TransformImage lib env s req).trace)) := by
  have hof : ∀ im : Image, outputFormat p im
      = (if f = "png".toList then Format.PNG
         else if f = "gif".toList then Format.GIF else Format.JPEG,
         if f = "png".toList then "image/png".toList
         else if f = "gif".toList then "image/gif".toList else "image/jpeg".toList) := by
    intro im
    simp only [outputFormat, hf]
    split_ifs <;> rfl
  refine ⟨?_, ?_, ?_⟩
  · intro t h
    obtain ⟨u, i, im, p', hash, src, buf, url, -, -, hb', -, -, -, -, henc, ht, hbk, -⟩ :=
      TransformImage_created lib env s req t h
    rw [hb] at hb'
    cases hb'
    rw [hof] at henc hbk
    refine ⟨src, buf, henc, ?_⟩
    rw [hbk, ht]
    exact Bucket.get_put_self _ _
  · intro st msg h
    cases hl : TransformImage.lookup lib env s req with
    | answered resp tr =>
      have hr : (TransformImage lib env s req).resp = resp := by
        simp only [TransformImage, hl]
      rw [hr] at h
      rw [h] at hl
      rcases lookup_error lib env s req st msg tr hl with h1 | h1 | h1 | h1
      · exact Or.inl h1
      · rcases h1 with ⟨h400, h2 | h2⟩
        · exact Or.inr (Or.inl ⟨h400, h2⟩)
        · rw [hb] at h2
          cases h2
      · exact Or.inr (Or.inr (Or.inl h1))
      · rcases h1 with ⟨h500, h2 | h2 | h2 | h2⟩
        · exact Or.inr (Or.inr (Or.inr ⟨h500, Or.inl h2⟩))
        · exact Or.inr (Or.inr (Or.inr ⟨h500, Or.inr (Or.inl h2)⟩))
        · exact Or.inr (Or.inr (Or.inr ⟨h500, Or.inr (Or.inr (Or.inr (by simp [h2])))⟩))
        · exact Or.inr (Or.inr (Or.inr ⟨h500, Or.inr (Or.inr (Or.inr (by simp [h2])))⟩))
    | miss pd =>
      rw [(TransformImage_of_miss lib env s req pd hl).1] at h
      obtain ⟨h500, h2⟩ := materialize_error lib env s pd st msg h
      refine Or.inr (Or.inr (Or.inr ⟨h500, ?_⟩))
      rcases h2 with h2 | h2 | h2 | h2 | h2 | h2
      · exact Or.inr (Or.inr (Or.inl h2))
      · exact Or.inr (Or.inr (Or.inr (by simp [h2])))
      · exact Or.inr (Or.inr (Or.inr (by simp [h2])))
      · exact Or.inr (Or.inr (Or.inr (by simp [h2])))
      · exact Or.inr (Or.inr (Or.inr (by simp [h2])))
      · exact Or.inr (Or.inr (Or.inr (by simp [h2])))
  · intro pd src hl hg hd
    have hp : pd.params = p := by
      have := (lookup_miss lib env s req pd hl).1
      rw [hb] at this
      cases this
      rfl
    obtain ⟨hresp, hstate, htrace⟩ := TransformImage_of_miss lib env s req pd hl
    obtain ⟨hnone, hsome⟩ := materialize_encode_step lib env s pd src hg hd
    rw [hp, hof] at hnone hsome
    rw [hresp, hstate, htrace]
    refine ⟨hnone, fun buf he => ?_⟩
    exact List.mem_append_right _ (hsome buf he)

/-- C11 amended, at the request for "webp" on the sample image. -/
theorem C11_format_by_switch_witness :
    ∃ src buf,
      taggedImaging.Encode (applyTransformations taggedImaging webpParams src)
          (if "webp".toList = "png".toList then Format.PNG
           else if "webp".toList = "gif".toList then Format.GIF else Format.JPEG) = some buf ∧
      (TransformImage taggedImaging (calmEnv 100 50) sampleState
          (sampleRequest webpParams)).state.bucket.get
            "uploads/0a1b_f8d44e9e40284f8743867b53add28d46.jpg".toList
        = some ⟨"uploads/0a1b_f8d44e9e40284f8743867b53add28d46.jpg".toList, buf,
            if "webp".toList = "png".toList then "image/png".toList
            else if "webp".toList = "gif".toList then "image/gif".toList
            else "image/jpeg".toList⟩ :=
  (C11_format_by_switch taggedImaging (calmEnv 100 50) sampleState (sampleRequest webpParams)
    webpParams "webp".toList rfl rfl).1
    ⟨100, 1, "uploads/0a1b_f8d44e9e40284f8743867b53add28d46.jpg".toList,
     "https://store/uploads/0a1b_f8d44e9e40284f8743867b53add28d46.jpg".toList, webpParams,
     "f8d44e9e40284f8743867b53add28d46".toList, 50⟩
    (by decide!)

/-- With a library that cannot encode GIF, the request for "png" on the
sample image is answered 201 and the same request for "gif" is answered 500
"Failed to encode transformed image", with the state unchanged: a requested
format fails the request only through the encoder. -/
theorem format_encode_failure_example :
    (TransformImage noGifImaging (calmEnv 100 50) sampleState
        (sampleRequest pngParams)).resp.status = 201 ∧
    (TransformImage noGifImaging (calmEnv 100 50) sampleState
        (sampleRequest gifParams)).resp
      = .error 500 "Failed to encode transformed image".toList ∧
    (TransformImage noGifImaging (calmEnv 100 50) sampleState
        (sampleRequest gifParams)).state = sampleState := by
  decide!

/-- With no format requested, an image whose stored file name has the
extension ".png", ".gif", ".jpg" or ".jpeg" in lower case is encoded in its
own format. -/
theorem outputFormat_original (p : TransformParams) (im : Image) (hf : p.Format = none) :
    (filepathExt im.Filename = ".png".toList →
      outputFormat p im = (Format.PNG, "image/png".toList)) ∧
    (filepathExt im.Filename = ".gif".toList →
      outputFormat p im = (Format.GIF, "image/gif".toList)) ∧
    (filepathExt im.Filename = ".jpg".toList ∨ filepathExt im.Filename = ".jpeg".toList →
      outputFormat p im = (Format.JPEG, "image/jpeg".toList)) := by
  refine ⟨fun h => ?_, fun h => ?_, fun h => ?_⟩
  · simp only [outputFormat, hf, h, if_true]
  · simp only [outputFormat, hf, h]
    decide
  · rcases h with h | h <;>
    · simp only [outputFormat, hf, h]
      decide

/-- C12 at the failing input: the upload "photo.PNG" of type image/png is
accepted by `ValidateImageFile` (which lower-cases the extension) and stored
under the file name "0a1b.PNG"; a transform request with no output format is
then answered 201 with an artifact encoded as JPEG (leading byte 0 of the
tagged encoding) and stored as image/jpeg, not as PNG: the handler compares
the extension with ".png" as it is, in upper case. -/
theorem C12_uppercase_extension_evaluation :
    ValidateImageFile Char.toLower upperHeader = (true, []) ∧
    (UploadImage Char.toLower plainJoin calmUploadEnv emptyState upperUpload).2
      = .image 201 ⟨5, 7, "0a1b.PNG".toList, "image/png".toList, 2,
          "uploads/0a1b.PNG".toList, "https://store/uploads/0a1b.PNG".toList, [], 10, 10⟩ ∧
    (TransformImage taggedImaging (calmEnv 100 50)
        (UploadImage Char.toLower plainJoin calmUploadEnv emptyState upperUpload).1
        ⟨some 7, some 5, .ok noParams⟩).resp.status = 201 ∧
    (TransformImage taggedImaging (calmEnv 100 50)
        (UploadImage Char.toLower plainJoin calmUploadEnv emptyState upperUpload).1
        ⟨some 7, some 5, .ok noParams⟩).state.bucket.get
          "uploads/0a1b_99914b932bd37a50b983c5e7c90ae93b.PNG".toList
      = some ⟨"uploads/0a1b_99914b932bd37a50b983c5e7c90ae93b.PNG".toList, [0, 8, 6],
          "image/jpeg".toList⟩ := by
  decide!

/-! ### The quality parameter -/

/-- The pipeline output, the output format and the content type do not depend on the quality. -/
theorem quality_not_read {Img : Type} (lib : Imaging Img) (p : TransformParams)
    (q : Option Int) (im : Image) (src : Img) :
    applyTransformations lib { p with Quality := q } src = applyTransformations lib p src ∧
    outputFormat { p with Quality := q } im = outputFormat p im :=
  ⟨rfl, rfl⟩

/-- C13 at the failing input: the encoder gets the image and the format
only, so the requested quality is never applied. For every library, image
and parameters, changing the quality changes neither the image that is
encoded nor the format it is encoded in, JPEG included; on the sample JPEG
image the requests with quality 10 and with quality 90 are both answered
201, under different digests, with the same encoded bytes. -/
theorem C13_quality_ignored_evaluation :
    (∀ (Img : Type) (lib : Imaging Img) (p : TransformParams) (q : Option Int) (im : Image)
        (src : Img),
      lib.Encode (applyTransformations lib { p with Quality := q } src)
          (outputFormat { p with Quality := q } im).1
        = lib.Encode (applyTransformations lib p src) (outputFormat p im).1) ∧
    outputFormat (qualityParams 10) sampleImage = (Format.JPEG, "image/jpeg".toList) ∧
    ((TransformImage taggedImaging (calmEnv 100 50) sampleState
        (sampleRequest (qualityParams 10))).resp.status = 201) ∧
    ((TransformImage taggedImaging (calmEnv 100 50) sampleState
        (sampleRequest (qualityParams 10))).state.bucket.get
          "uploads/0a1b_c94ca7530999a958643105d1d6c3e110.jpg".toList
      = some ⟨"uploads/0a1b_c94ca7530999a958643105d1d6c3e110.jpg".toList, [0, 8, 6],
          "image/jpeg".toList⟩) ∧
    ((TransformImage taggedImaging (calmEnv 100 50) sampleState
        (sampleRequest (qualityParams 90))).resp.status = 201) ∧
    ((TransformImage taggedImaging (calmEnv 100 50) sampleState
        (sampleRequest (qualityParams 90))).state.bucket.get
          "uploads/0a1b_ee42e679a8598f4e2b00194a5064f296.jpg".toList
      = some ⟨"uploads/0a1b_ee42e679a8598f4e2b00194a5064f296.jpg".toList, [0, 8, 6],
          "image/jpeg".toList⟩) := by
  refine ⟨fun Img lib p q im src => rfl, ?_⟩
  decide!

/-! ### Images that are not there -/

/-- The image lookup finds nothing exactly when no record has the id and the user. -/
theorem findImage_eq_none (images : List Image) (i u : ObjectID) :
    findImage images i u = none ↔ ∀ im ∈ images, im.ID = i → im.UserID ≠ u := by
  unfold findImage
  rw [List.find?_eq_none]
  constructor
  · intro h im him hid hus
    exact h im him (by simp [hid, hus])
  · intro h im him hc
    simp only [Bool.and_eq_true, decide_eq_true_eq] at hc
    exact h im him hc.1 hc.2

/-- C14: for a user u and an image id i such that no image record has id i
and owner u (the record does not exist or belongs to another user), with the
request well-formed and the database lookup answering, `TransformImage` and
`GetImage` answer 404 "Image not found"; `TransformImage` leaves the state
(ledger, image records, bucket) as it was and calls nothing but the image
lookup: no source fetch, no pipeline run, no write. -/
theorem C14_image_not_found {Img : Type} (lib : Imaging Img) (env : Env) (s : State)
    (req : Request) (u i : ObjectID) (p : TransformParams)
    (hu : req.userID = some u) (hi : req.imageID = some i) (hb : req.body = .ok p)
    (he : env.findImageErr = none)
    (hno : ∀ im ∈ s.images, im.ID = i → im.UserID ≠ u) :
    TransformImage lib env s req
      = ⟨s, .error 404 "Image not found".toList, [.findImage]⟩ ∧
    GetImage env s (some u) (some i) = .error 404 "Image not found".toList := by
  have hf := (findImage_eq_none s.images i u).mpr hno
  constructor
  · simp only [TransformImage, TransformImage.lookup, hu, hi, hb, he, hf]
  · simp only [GetImage, he, hf]

/-- C14 at the sample state: user 9 asks for image 1 of user 7, and user 7 for an image 3. -/
theorem C14_image_not_found_witness :
    (TransformImage boundsImaging (calmEnv 100 50) sampleState
        ⟨some 9, some 1, .ok scenarioParams⟩
      = ⟨sampleState, .error 404 "Image not found".toList, [.findImage]⟩ ∧
     GetImage (calmEnv 100 50) sampleState (some 9) (some 1)
      = .error 404 "Image not found".toList) ∧
    (TransformImage boundsImaging (calmEnv 100 50) sampleState
        ⟨some 7, some 3, .ok scenarioParams⟩
      = ⟨sampleState, .error 404 "Image not found".toList, [.findImage]⟩ ∧
     GetImage (calmEnv 100 50) sampleState (some 7) (some 3)
      = .error 404 "Image not found".toList) :=
  ⟨C14_image_not_found boundsImaging (calmEnv 100 50) sampleState
      ⟨some 9, some 1, .ok scenarioParams⟩ 9 1 scenarioParams rfl rfl rfl rfl (by decide),
   C14_image_not_found boundsImaging (calmEnv 100 50) sampleState
      ⟨some 7, some 3, .ok scenarioParams⟩ 7 3 scenarioParams rfl rfl rfl rfl (by decide)⟩

/-! ### The append onto the image record -/

/-- The first half does not read the outcome of the image update. -/
theorem lookup_updateErr {Img : Type} (lib : Imaging Img) (env : Env) (s : State)
    (req : Request) (b : Bool) :
    TransformImage.lookup lib { env with updateErr := b } s req
      = TransformImage.lookup lib env s req := rfl

/-- The image records after a successful second half: untouched when the
update fails, with the record pushed when it succeeds. -/
theorem materialize_success_images {Img : Type} (lib : Imaging Img) (env : Env) (s : State)
    (pd : Pending) (src : Img) (buf : Bytes) (url : List Char)
    (hg : env.getObjectErr = false)
    (hsrc : (s.bucket.get pd.image.ObjectName).bind (fun o => lib.Decode o.data) = some src)
    (henc : lib.Encode (applyTransformations lib pd.params src)
      (outputFormat pd.params pd.image).1 = some buf)
    (hput : env.putObjectErr = false)
    (hurl : env.presign (StorageClient.transformedObjectName pd.image.ObjectName pd.hash)
      = some url)
    (hins : env.insertErr = none) :
    (TransformImage.materialize lib env s pd).state.images
      = if env.updateErr then s.images
        else pushTransformation pd.imageID
          ⟨env.newObjectID, pd.imageID,
           StorageClient.transformedObjectName pd.image.ObjectName pd.hash, url, pd.params,
           pd.hash, env.now⟩ env.updatedAt s.images := by
  simp only [TransformImage.materialize, StorageClient.StoreTransformedImage, hg, hsrc, henc,
    hput, hurl, hins]
  cases env.updateErr <;> simp [hurl, hins]

/-- C15: the append onto the image record is best-effort. For every call
whose ledger insert succeeded (a call answered 201 with the record t under
some outcome of the image update), the call is answered 201 with the same
record t whether the update of the image's transformations array succeeds
or fails, and in both cases the ledger is the ledger before with t
appended; the outcome of the update shows in the image records only, which
are untouched when it fails and have t pushed when it succeeds. -/
theorem C15_append_best_effort {Img : Type} (lib : Imaging Img) (env : Env) (s : State)
    (req : Request) (t : Transformation)
    (h : (TransformImage lib env s req).resp = .transformation 201 t) (b : Bool) :
    (TransformImage lib { env with updateErr := b } s req).resp = .transformation 201 t ∧
    (TransformImage lib { env with updateErr := b } s req).state.transformations
      = s.transformations ++ [t] ∧
    (TransformImage lib { env with updateErr := b } s req).state.images
      = if b then s.images else pushTransformation t.ImageID t env.updatedAt s.images := by
  cases hl : TransformImage.lookup lib env s req with
  | answered resp tr =>
    simp only [TransformImage, hl] at h
    subst h
    obtain ⟨-, -, -, -, -, -, -, -, -, -, -, -, -, -, hst, -⟩ :=
      lookup_hit lib env s req 201 t tr hl
    cases hst
  | miss pd =>
    simp only [TransformImage, hl] at h
    obtain ⟨src, buf, url, hg, hsrc, henc, hput, hurl, hins, -, ht, -⟩ :=
      materialize_created lib env s pd 201 t h
    have hl' : TransformImage.lookup lib { env with updateErr := b } s req = .miss pd := by
      rw [lookup_updateErr]; exact hl
    obtain ⟨hr, hled, -⟩ := materialize_success lib { env with updateErr := b } s pd src buf url
      hg hsrc henc hput hurl hins
    have himg := materialize_success_images lib { env with updateErr := b } s pd src buf url
      hg hsrc henc hput hurl hins
    simp only [TransformImage, hl']
    subst ht
    exact ⟨hr, hled, himg⟩

/-- C15 at the scenario request on the sample state, with the update failing. -/
theorem C15_append_best_effort_witness :
    (TransformImage boundsImaging { calmEnv 100 50 with updateErr := true } sampleState
        (sampleRequest scenarioParams)).resp = .transformation 201 scenarioRecord ∧
    (TransformImage boundsImaging { calmEnv 100 50 with updateErr := true } sampleState
        (sampleRequest scenarioParams)).state.transformations
      = sampleState.transformations ++ [scenarioRecord] ∧
    (TransformImage boundsImaging { calmEnv 100 50 with updateErr := true } sampleState
        (sampleRequest scenarioParams)).state.images
      = if true then sampleState.images
        else pushTransformation scenarioRecord.ImageID scenarioRecord (calmEnv 100 50).updatedAt
          sampleState.images :=
  C15_append_best_effort boundsImaging (calmEnv 100 50) sampleState
    (sampleRequest scenarioParams) scenarioRecord (by decide!) true

/-! ### What a request leaves alone -/

/-- The fields of an image record that `TransformImage` never writes. -/
theorem pushTransformation_frame (i : ObjectID) (t : Transformation) (at_ : Time)
    (images : List Image) :
    (pushTransformation i t at_ images).map
        (fun im => (im.ID, im.UserID, im.Filename, im.ContentType, im.Size, im.ObjectName,
          im.URL, im.CreatedAt))
      = images.map
        (fun im => (im.ID, im.UserID, im.Filename, im.ContentType, im.Size, im.ObjectName,
          im.URL, im.CreatedAt)) := by
  induction images with
  | nil => rfl
  | cons im rest ih =>
    simp only [pushTransformation]
    split
    · rfl
    · simp only [List.map_cons, ih]

/-- The image records after a request: as before, or with one transformation pushed. -/
theorem TransformImage_images {Img : Type} (lib : Imaging Img) (env : Env) (s : State)
    (req : Request) :
    (TransformImage lib env s req).state.images = s.images ∨
    ∃ i t at_, (TransformImage lib env s req).state.images
      = pushTransformation i t at_ s.images := by
  cases hl : TransformImage.lookup lib env s req with
  | answered resp tr =>
    left
    simp only [TransformImage, hl]
  | miss pd =>
    simp only [TransformImage, hl]
    rcases materialize_cases lib env s pd with ⟨msg, -, -, himg⟩ | ⟨t, -, -, -, -, -, -, -, himg⟩
    · exact Or.inl himg
    · rcases himg with himg | himg
      · exact Or.inl himg
      · exact Or.inr ⟨_, _, _, himg⟩

/-- C16: every `TransformImage` step leaves the ledger records that were
there in place and unchanged: the ledger after the step is the ledger
before it, or the ledger before it with exactly one record appended. Of the
image records it changes nothing but the transformations list and
updated_at: the list of image records keeps, record by record, its id,
owner, filename, content type, size, object key, URL and creation time. -/
theorem C16_frame {Img : Type} (lib : Imaging Img) (env : Env) (s : State) (req : Request) :
    ((TransformImage lib env s req).state.transformations = s.transformations ∨
     ∃ t, (TransformImage lib env s req).state.transformations = s.transformations ++ [t]) ∧
    (TransformImage lib env s req).state.images.map
        (fun im => (im.ID, im.UserID, im.Filename, im.ContentType, im.Size, im.ObjectName,
          im.URL, im.CreatedAt))
      = s.images.map
        (fun im => (im.ID, im.UserID, im.Filename, im.ContentType, im.Size, im.ObjectName,
          im.URL, im.CreatedAt)) := by
  constructor
  · rcases TransformImage_ledger lib env s req with h | ⟨t, -, h, -⟩
    · exact Or.inl h
    · exact Or.inr ⟨t, h⟩
  · rcases TransformImage_images lib env s req with h | ⟨i, t, at_, h⟩
    · rw [h]
    · rw [h, pushTransformation_frame]

/-! ### Upload validation -/

theorem SupportedImageTypes_iff (ct : List Char) :
    SupportedImageTypes ct = true ↔
      ct = "image/jpeg".toList ∨ ct = "image/png".toList ∨ ct = "image/gif".toList := by
  simp [SupportedImageTypes, or_assoc]

/-- C18: `ValidateImageFile` accepts a file header, returning (true, ""),
exactly when its size is at most 10 * 2^20 bytes, its Content-Type is one of
image/jpeg, image/png, image/gif and its lower-cased filename extension is
one of .jpg, .jpeg, .png, .gif. Otherwise it returns false with the message
of the first failing check in the order size, content type, extension, and
`UploadImage` answers 400 with that message and changes nothing. -/
theorem C18_validate_image_file (lower : Char → Char) (file : FileHeader) :
    (ValidateImageFile lower file = (true, []) ↔
      file.Size ≤ 10 * 2 ^ 20 ∧
      (file.ContentType = "image/jpeg".toList ∨ file.ContentType = "image/png".toList ∨
        file.ContentType = "image/gif".toList) ∧
      (stringsToLower lower (filepathExt file.Filename) = ".jpg".toList ∨
        stringsToLower lower (filepathExt file.Filename) = ".jpeg".toList ∨
        stringsToLower lower (filepathExt file.Filename) = ".png".toList ∨
        stringsToLower lower (filepathExt file.Filename) = ".gif".toList)) ∧
    (file.Size > 10 * 2 ^ 20 →
      ValidateImageFile lower file = (false, "File size exceeds limit (10MB)".toList)) ∧
    (file.Size ≤ 10 * 2 ^ 20 →
      ¬ (file.ContentType = "image/jpeg".toList ∨ file.ContentType = "image/png".toList ∨
        file.ContentType = "image/gif".toList) →
      ValidateImageFile lower file
        = (false, "File type not supported (only JPEG, PNG, GIF)".toList)) ∧
    (file.Size ≤ 10 * 2 ^ 20 →
      (file.ContentType = "image/jpeg".toList ∨ file.ContentType = "image/png".toList ∨
        file.ContentType = "image/gif".toList) →
      ¬ (stringsToLower lower (filepathExt file.Filename) = ".jpg".toList ∨
        stringsToLower lower (filepathExt file.Filename) = ".jpeg".toList ∨
        stringsToLower lower (filepathExt file.Filename) = ".png".toList ∨
        stringsToLower lower (filepathExt file.Filename) = ".gif".toList) →
      ValidateImageFile lower file
        = (false,
           "Invalid file extension (only .jpg, .jpeg, .png, .gif are allowed)".toList)) ∧
    (∀ (join : List Char → List Char → List Char) (env : UploadEnv) (s : State)
        (req : UploadRequest) (u : ObjectID) (content : Bytes),
      req.userID = some u → req.formErr = false → req.file = some (file, content) →
      (ValidateImageFile lower file).1 = false →
      UploadImage lower join env s req = (s, .error 400 (ValidateImageFile lower file).2)) := by
  have hmax : (10 : Int) * 2 ^ 20 = MaxFileSize := by decide
  rw [hmax]
  have hct := SupportedImageTypes_iff file.ContentType
  refine ⟨?_, ?_, ?_, ?_, ?_⟩
  · unfold ValidateImageFile
    by_cases hs : file.Size > MaxFileSize
    · simp only [hs, if_true]
      constructor
      · intro h; cases h
      · intro h; omega
    · by_cases hc : SupportedImageTypes file.ContentType = true
      · simp only [hs, if_false, hc, Bool.not_true]
        constructor
        · intro h
          refine ⟨by omega, hct.mp hc, ?_⟩
          by_contra hne
          simp only [not_or] at hne
          have hcond : stringsToLower lower (filepathExt file.Filename) ≠ ".jpg".toList ∧
              stringsToLower lower (filepathExt file.Filename) ≠ ".jpeg".toList ∧
              stringsToLower lower (filepathExt file.Filename) ≠ ".png".toList ∧
              stringsToLower lower (filepathExt file.Filename) ≠ ".gif".toList := hne
          simp only [Bool.false_eq_true, if_false] at h
          rw [if_pos hcond] at h
          cases h
        · rintro ⟨-, -, he⟩
          have : ¬ (stringsToLower lower (filepathExt file.Filename) ≠ ".jpg".toList ∧
              stringsToLower lower (filepathExt file.Filename) ≠ ".jpeg".toList ∧
              stringsToLower lower (filepathExt file.Filename) ≠ ".png".toList ∧
              stringsToLower lower (filepathExt file.Filename) ≠ ".gif".toList) := by
            rintro ⟨h1, h2, h3, h4⟩
            rcases he with he | he | he | he
            · exact h1 he
            · exact h2 he
            · exact h3 he
            · exact h4 he
          simp only [Bool.false_eq_true, if_false, this]
      · have hc' : SupportedImageTypes file.ContentType = false := by
          simpa using hc
        simp only [hs, if_false, hc', Bool.not_false, if_true]
        constructor
        · intro h; cases h
        · rintro ⟨-, h, -⟩
          exact absurd (hct.mpr h) hc
  · intro hs
    simp only [ValidateImageFile, hs, if_true]
  · intro hs hc
    have hs' : ¬ file.Size > MaxFileSize := by omega
    have hc' : SupportedImageTypes file.ContentType = false := by
      have : ¬ SupportedImageTypes file.ContentType = true := fun h => hc (hct.mp h)
      simpa using this
    simp only [ValidateImageFile, hs', if_false, hc', Bool.not_false, if_true]
  · intro hs hc he
    have hs' : ¬ file.Size > MaxFileSize := by omega
    have hc' : SupportedImageTypes file.ContentType = true := hct.mpr hc
    simp only [not_or] at he
    have he' : stringsToLower lower (filepathExt file.Filename) ≠ ".jpg".toList ∧
        stringsToLower lower (filepathExt file.Filename) ≠ ".jpeg".toList ∧
        stringsToLower lower (filepathExt file.Filename) ≠ ".png".toList ∧
        stringsToLower lower (filepathExt file.Filename) ≠ ".gif".toList := he
    simp only [ValidateImageFile, hs', if_false, hc', Bool.not_true, Bool.false_eq_true]
    rw [if_pos he']
  · intro join env s req u content hu hf hfile hv
    have hpair : ValidateImageFile lower file = (false, (ValidateImageFile lower file).2) := by
      rw [← hv]
    simp only [UploadImage, hu, hf, hfile]
    rw [hpair]
    simp

/-- C18 at four headers: an accepted one, one byte too large, a PDF content
type, and a text extension (whose upload is answered 400). -/
theorem C18_validate_image_file_witness :
    ValidateImageFile Char.toLower upperHeader = (true, []) ∧
    ValidateImageFile Char.toLower ⟨"a.jpg".toList, "image/jpeg".toList, 10485761⟩
      = (false, "File size exceeds limit (10MB)".toList) ∧
    ValidateImageFile Char.toLower ⟨"a.jpg".toList, "application/pdf".toList, 10485760⟩
      = (false, "File type not supported (only JPEG, PNG, GIF)".toList) ∧
    ValidateImageFile Char.toLower ⟨"a.txt".toList, "image/gif".toList, 5⟩
      = (false, "Invalid file extension (only .jpg, .jpeg, .png, .gif are allowed)".toList) ∧
    UploadImage Char.toLower plainJoin calmUploadEnv emptyState
        ⟨some 7, false, some (⟨"a.txt".toList, "image/gif".toList, 5⟩, [8, 6])⟩
      = (emptyState, .error 400
          (ValidateImageFile Char.toLower ⟨"a.txt".toList, "image/gif".toList, 5⟩).2) :=
  ⟨(C18_validate_image_file Char.toLower upperHeader).1.mpr
      ⟨by decide, Or.inr (Or.inl rfl), Or.inr (Or.inr (Or.inl (by decide)))⟩,
   (C18_validate_image_file Char.toLower ⟨"a.jpg".toList, "image/jpeg".toList, 10485761⟩).2.1
      (by decide),
   (C18_validate_image_file Char.toLower
      ⟨"a.jpg".toList, "application/pdf".toList, 10485760⟩).2.2.1 (by decide) (by decide),
   (C18_validate_image_file Char.toLower ⟨"a.txt".toList, "image/gif".toList, 5⟩).2.2.2.1
      (by decide) (Or.inr (Or.inr rfl)) (by decide),
   (C18_validate_image_file Char.toLower ⟨"a.txt".toList, "image/gif".toList, 5⟩).2.2.2.2
      plainJoin calmUploadEnv emptyState
      ⟨some 7, false, some (⟨"a.txt".toList, "image/gif".toList, 5⟩, [8, 6])⟩ 7 [8, 6]
      rfl rfl rfl (by decide)⟩

/-! ### The rate limiter -/

/-- C17, refuted: with limit 1 and a window of 9223372037 seconds the
product with 10^9 nanoseconds does not fit 64 bits and wraps to a positive
duration; the window start lies in the future, every kept time is dropped
and two requests of one client one second apart are both passed on: two
admitted requests in a window that allows one. -/
theorem C17_window_overflow_counterexample :
    windowDuration 9223372037 = 9223372036709551616 ∧
    admitted (NewRateLimiter 1 9223372037)
        [("10.0.0.1".toList, 0), ("10.0.0.1".toList, 1000000000)]
      = [("10.0.0.1".toList, 0), ("10.0.0.1".toList, 1000000000)] ∧
    countIn (timesOf (admitted (NewRateLimiter 1 9223372037)
        [("10.0.0.1".toList, 0), ("10.0.0.1".toList, 1000000000)]) "10.0.0.1".toList)
        (1000000000 - 9223372037 * 1000000000) 1000000000 = 2 := by
  decide!

theorem filter_gt_filter_gt (l : List Int) (ws c : Int) (h : ws ≤ c) :
    (l.filter (fun a => decide (a > ws))).filter (fun a => decide (a > c))
      = l.filter (fun a => decide (a > c)) := by
  rw [List.filter_filter]
  apply List.filter_congr
  intro a _
  by_cases hc : a > c
  · have : a > ws := by omega
    simp [hc, this]
  · simp [hc]

theorem timesOf_append_one (hist : List (List Char × Int)) (ip₀ ip : List Char) (now : Int) :
    timesOf (hist ++ [(ip₀, now)]) ip
      = timesOf hist ip ++ (if ip₀ = ip then [now] else []) := by
  unfold timesOf
  rw [List.filter_append, List.map_append]
  by_cases h : ip₀ = ip
  · simp [h]
  · simp [h]

theorem countIn_le_length_filter (l : List Int) (lo hi : Int) :
    countIn l lo hi ≤ (l.filter (fun a => decide (a > lo))).length := by
  unfold countIn
  rw [← List.countP_eq_length_filter]
  apply List.countP_mono_left
  intro a _ ha
  simp only [Bool.and_eq_true, decide_eq_true_eq] at ha
  simpa using ha.1

theorem length_filter_gt_mono (l : List Int) (lo lo' : Int) (h : lo ≤ lo') :
    (l.filter (fun a => decide (a > lo'))).length
      ≤ (l.filter (fun a => decide (a > lo))).length := by
  rw [← List.countP_eq_length_filter, ← List.countP_eq_length_filter]
  apply List.countP_mono_left
  intro a _ ha
  simp only [decide_eq_true_eq] at ha ⊢
  omega

theorem stored_update_same (limiter : RateLimiter) (ip : List Char) (v : List Int) :
    RateLimiter.stored
      { limiter with requests := fun k => if k = ip then some v else limiter.requests k } ip
      = v := by
  simp [RateLimiter.stored]

theorem stored_update_other (limiter : RateLimiter) (ip ip' : List Char) (v : List Int)
    (h : ip' ≠ ip) :
    RateLimiter.stored
      { limiter with requests := fun k => if k = ip then some v else limiter.requests k } ip'
      = limiter.stored ip' := by
  simp [RateLimiter.stored, h]

theorem countIn_append (l₁ l₂ : List Int) (lo hi : Int) :
    countIn (l₁ ++ l₂) lo hi = countIn l₁ lo hi + countIn l₂ lo hi := by
  simp [countIn, List.countP_append]

theorem countIn_singleton_le (a lo hi : Int) : countIn [a] lo hi ≤ 1 := by
  unfold countIn
  exact le_trans (List.countP_le_length _) (by simp)

theorem countIn_singleton_out (a lo hi : Int) (h : ¬ (lo < a ∧ a ≤ hi)) :
    countIn [a] lo hi = 0 := by
  unfold countIn
  rw [List.countP_eq_zero]
  intro x hx
  rw [List.mem_singleton] at hx
  subst hx
  simpa using h

/-- One request through the middleware keeps the invariant, with the time of
the request as the new lower bound, when the window duration has not wrapped. -/
theorem RateLimiterMiddleware_inv (limiter : RateLimiter) (hist : List (List Char × Int))
    (W L : Int) (ip : List Char) (now : Int)
    (hW : windowDuration limiter.windowSecs = -W) (hinv : LimiterInv limiter hist W L)
    (hnow : L ≤ now) :
    (RateLimiterMiddleware limiter ip now).1.limit = limiter.limit ∧
    (RateLimiterMiddleware limiter ip now).1.windowSecs = limiter.windowSecs ∧
    LimiterInv (RateLimiterMiddleware limiter ip now).1
      (if (RateLimiterMiddleware limiter ip now).2 then hist ++ [(ip, now)] else hist) W now := by
  have hvalid : (limiter.stored ip).filter (fun a => decide (a > now + -W))
      = (timesOf hist ip).filter (fun a => decide (a > now + -W)) :=
    hinv.1 ip (now + -W) (by omega)
  generalize hv : (limiter.stored ip).filter (fun a => decide (a > now + -W)) = v at hvalid
  by_cases hfull : (v.length : Int) ≥ limiter.limit
  · have hr : RateLimiterMiddleware limiter ip now
        = (⟨fun k => if k = ip then some v else limiter.requests k, limiter.limit,
            limiter.windowSecs⟩, false) := by
      simp only [RateLimiterMiddleware, hW, hv, hfull, if_true]
    rw [hr]
    refine ⟨rfl, rfl, ?_, ?_⟩
    · intro ip' c hc
      simp only [Bool.false_eq_true, if_false]
      by_cases hip : ip' = ip
      · subst hip
        rw [stored_update_same, hvalid, filter_gt_filter_gt _ _ _ (by omega)]
      · rw [stored_update_other _ _ _ _ hip]
        exact hinv.1 ip' c (by omega)
    · intro ip' t
      simp only [Bool.false_eq_true, if_false]
      exact hinv.2 ip' t
  · have hr : RateLimiterMiddleware limiter ip now
        = (⟨fun k => if k = ip then some (v ++ [now]) else limiter.requests k, limiter.limit,
            limiter.windowSecs⟩, true) := by
      simp only [RateLimiterMiddleware, hW, hv, hfull, if_false]
    rw [hr]
    refine ⟨rfl, rfl, ?_, ?_⟩
    · intro ip' c hc
      simp only [if_true]
      by_cases hip : ip' = ip
      · subst hip
        rw [stored_update_same, timesOf_append_one, if_pos rfl, List.filter_append,
          List.filter_append, hvalid, filter_gt_filter_gt _ _ _ (by omega)]
      · rw [stored_update_other _ _ _ _ hip, timesOf_append_one,
          if_neg (fun h => hip h.symm), List.append_nil]
        exact hinv.1 ip' c (by omega)
    · intro ip' t
      simp only [if_true]
      by_cases hip : ip' = ip
      · subst hip
        rw [timesOf_append_one, if_pos rfl, countIn_append]
        show ((countIn (timesOf hist ip') (t - W) t + countIn [now] (t - W) t : Nat) : Int)
          ≤ limiter.limit
        by_cases hin : t - W < now ∧ now ≤ t
        · have h1 := countIn_le_length_filter (timesOf hist ip') (t - W) t
          have h2 := length_filter_gt_mono (timesOf hist ip') (now + -W) (t - W) (by omega)
          have h3 := countIn_singleton_le now (t - W) t
          rw [← hvalid] at h2
          push_cast
          omega
        · rw [countIn_singleton_out now (t - W) t hin]
          exact hinv.2 ip' t
      · rw [timesOf_append_one, if_neg (fun h => hip h.symm), List.append_nil]
        exact hinv.2 ip' t

/-- A window that fits 64 bits in nanoseconds does not wrap. -/
theorem windowDuration_fits (windowSecs : Int) (h0 : 0 ≤ windowSecs)
    (hfit : windowSecs ≤ 9223372036) :
    windowDuration windowSecs = -(windowSecs * 1000000000) := by
  unfold windowDuration
  omega

/-- A run of requests with non-decreasing times, none before the lower
bound, keeps every window of every client within the limit. -/
theorem admitted_inv (W : Int) (reqs : List (List Char × Int)) :
    ∀ (limiter : RateLimiter) (hist : List (List Char × Int)) (L : Int),
      windowDuration limiter.windowSecs = -W → LimiterInv limiter hist W L →
      (∀ r ∈ reqs, L ≤ r.2) → (reqs.map (fun r => r.2)).Pairwise (fun a b => a ≤ b) →
      ∀ (ip : List Char) (t : Int),
        (countIn (timesOf (hist ++ admitted limiter reqs) ip) (t - W) t : Int)
          ≤ limiter.limit := by
  induction reqs with
  | nil =>
    intro limiter hist L _ hinv _ _ ip t
    simp only [admitted, List.append_nil]
    exact hinv.2 ip t
  | cons r rest ih =>
    intro limiter hist L hW hinv hL hsorted ip t
    obtain ⟨ip₀, now⟩ := r
    have hnow : L ≤ now := hL (ip₀, now) (List.mem_cons_self _ _)
    obtain ⟨hlim, hws, hinv'⟩ := RateLimiterMiddleware_inv limiter hist W L ip₀ now hW hinv hnow
    simp only [List.map_cons, List.pairwise_cons] at hsorted
    have hL' : ∀ r ∈ rest, now ≤ r.2 := by
      intro r hr
      exact hsorted.1 r.2 (List.mem_map.mpr ⟨r, hr, rfl⟩)
    have key := ih (RateLimiterMiddleware limiter ip₀ now).1
      (if (RateLimiterMiddleware limiter ip₀ now).2 then hist ++ [(ip₀, now)] else hist) now
      (by rw [hws]; exact hW) hinv' hL' hsorted.2 ip t
    rw [hlim] at key
    have happ : hist ++ admitted limiter ((ip₀, now) :: rest)
        = (if (RateLimiterMiddleware limiter ip₀ now).2 then hist ++ [(ip₀, now)] else hist)
          ++ admitted (RateLimiterMiddleware limiter ip₀ now).1 rest := by
      simp only [admitted]
      cases (RateLimiterMiddleware limiter ip₀ now).2 <;> simp
    rw [happ]
    exact key

/-- C17, amended: for every limit >= 0, every window of 0 to 9223372036
seconds (so that the window in nanoseconds fits the 64-bit duration) and
every sequence of requests with non-decreasing times handled by
`RateLimiterMiddleware`, for each client IP and each instant t the number of
admitted requests of that IP with a time in the half-open window from
t - windowSecs (excluded) to t (included) is at most the limit. -/
theorem C17_sliding_window (limit windowSecs : Int) (hl : 0 ≤ limit) (hw : 0 ≤ windowSecs)
    (hfit : windowSecs ≤ 9223372036) (reqs : List (List Char × Int))
    (hsorted : (reqs.map (fun r => r.2)).Pairwise (fun a b => a ≤ b))
    (ip : List Char) (t : Int) :
    (countIn (timesOf (admitted (NewRateLimiter limit windowSecs) reqs) ip)
      (t - windowSecs * 1000000000) t : Int) ≤ limit := by
  cases reqs with
  | nil =>
    simp only [admitted, timesOf, countIn, List.filter_nil, List.map_nil, List.countP_nil]
    exact_mod_cast hl
  | cons r rest =>
    have hinit : LimiterInv (NewRateLimiter limit windowSecs) [] (windowSecs * 1000000000)
        r.2 := by
      refine ⟨fun ip c _ => rfl, fun ip t => ?_⟩
      simp only [timesOf, countIn, List.filter_nil, List.map_nil, List.countP_nil]
      exact_mod_cast hl
    have hL : ∀ x ∈ r :: rest, r.2 ≤ x.2 := by
      intro x hx
      rcases List.mem_cons.mp hx with rfl | hx
      · exact le_refl _
      · simp only [List.map_cons, List.pairwise_cons] at hsorted
        exact hsorted.1 x.2 (List.mem_map.mpr ⟨x, hx, rfl⟩)
    have key := admitted_inv (windowSecs * 1000000000) (r :: rest)
      (NewRateLimiter limit windowSecs) [] r.2
      (windowDuration_fits windowSecs hw hfit) hinit hL hsorted ip t
    simpa using key

/-- C17 amended, at the limiter of the transform endpoint (100 requests per
3600 seconds) and three requests of one client. -/
theorem C17_sliding_window_witness :
    (countIn (timesOf (admitted (NewRateLimiter 100 3600)
        [("10.0.0.1".toList, 0), ("10.0.0.1".toList, 5), ("10.0.0.1".toList, 7000000000)])
        "10.0.0.1".toList) (7000000000 - 3600 * 1000000000) 7000000000 : Int) ≤ 100 :=
  C17_sliding_window 100 3600 (by decide) (by decide) (by decide)
    [("10.0.0.1".toList, 0), ("10.0.0.1".toList, 5), ("10.0.0.1".toList, 7000000000)]
    (by decide) "10.0.0.1".toList 7000000000

/-- The limiter at work: with limit 2 and a window of one second, of four
requests of one client within that second the third and fourth are
rejected, and a request two seconds later is passed on again. -/
theorem limiter_example :
    admitted (NewRateLimiter 2 1)
        [("10.0.0.1".toList, 0), ("10.0.0.1".toList, 10), ("10.0.0.1".toList, 20),
         ("10.0.0.9".toList, 25), ("10.0.0.1".toList, 30), ("10.0.0.1".toList, 2000000000)]
      = [("10.0.0.1".toList, 0), ("10.0.0.1".toList, 10), ("10.0.0.9".toList, 25),
         ("10.0.0.1".toList, 2000000000)] := by
  decide!

/-! ### Object keys of ledger records -/

/-- A record found by the image lookup is in the collection and has the id and the owner. -/
theorem findImage_some {images : List Image} {i u : ObjectID} {im : Image}
    (h : findImage images i u = some im) : im ∈ images ∧ im.ID = i ∧ im.UserID = u := by
  unfold findImage at h
  have hm := List.mem_of_find?_eq_some h
  have hp := List.find?_some h
  simp only [Bool.and_eq_true, decide_eq_true_eq] at hp
  exact ⟨hm, hp.1, hp.2⟩

theorem imageKeys_pushTransformation (i : ObjectID) (t : Transformation) (at_ : Time)
    (images : List Image) :
    imageKeys (pushTransformation i t at_ images) = imageKeys images := by
  induction images with
  | nil => rfl
  | cons im rest ih =>
    simp only [pushTransformation]
    split
    · rfl
    · simp only [imageKeys, List.map_cons] at ih ⊢
      rw [ih]

/-- With image ids that are pairwise distinct, two records of the same image
and hash with derived keys have the same object key. -/
theorem KeyDerived_unique (keys : List (ObjectID × List Char))
    (hnodup : (keys.map (fun k => k.1)).Nodup) (t₁ t₂ : Transformation)
    (h₁ : KeyDerived keys t₁) (h₂ : KeyDerived keys t₂) (hi : t₁.ImageID = t₂.ImageID)
    (hh : t₁.Hash = t₂.Hash) : t₁.ObjectName = t₂.ObjectName := by
  obtain ⟨k₁, hk₁, e₁⟩ := h₁
  obtain ⟨k₂, hk₂, e₂⟩ := h₂
  have hinj := List.inj_on_of_nodup_map hnodup hk₁ hk₂ (by simpa using hi)
  have hk : k₁ = k₂ := by
    have := congrArg Prod.snd hinj
    simpa using this
  rw [e₁, e₂, hk, hh]

/-- One step of one handler keeps the keys of the images, the derived keys
of the ledger records and the handler's own condition. -/
theorem stepHandler_keys {Img : Type} (lib : Imaging Img) (keys : List (ObjectID × List Char))
    (s : State) (x : Handler) (hs : KeysInv keys s) (hx : x.Derived keys) :
    KeysInv keys (stepHandler lib s x).1 ∧ (stepHandler lib s x).2.Derived keys := by
  cases x with
  | start env req =>
    cases hl : TransformImage.lookup lib env s req with
    | answered resp tr =>
      simp only [stepHandler, hl]
      refine ⟨hs, ?_⟩
      intro t ht
      cases resp with
      | error st msg => cases ht
      | transformation st t' =>
        simp only [Response.record, Option.some.injEq] at ht
        subst ht
        obtain ⟨u, i, p, hash, e, url, -, -, -, -, -, hf, -, hte, -, -⟩ :=
          lookup_hit lib env s req st t' tr hl
        obtain ⟨k, hk, hn⟩ := hs.2 e (findTransformation_some hf).1
        subst hte
        exact ⟨k, hk, hn⟩
    | miss pd =>
      simp only [stepHandler, hl]
      refine ⟨hs, ?_⟩
      obtain ⟨-, -, -, ⟨u, -, him⟩, -⟩ := lookup_miss lib env s req pd hl
      obtain ⟨hmem, hid, -⟩ := findImage_some him
      show (pd.imageID, pd.image.ObjectName) ∈ keys
      rw [← hs.1, ← hid]
      exact List.mem_map.mpr ⟨pd.image, hmem, rfl⟩
  | pending env pd =>
    simp only [stepHandler]
    rcases materialize_cases lib env s pd with
      ⟨msg, hr, hled, himg⟩ | ⟨t, hr, hled, hti, hth, -, -, hname, himg⟩
    · refine ⟨⟨by rw [himg]; exact hs.1, by rw [hled]; exact hs.2⟩, ?_⟩
      rw [hr]
      intro t ht
      cases ht
    · have hd : KeyDerived keys t :=
        ⟨pd.image.ObjectName, by rw [hti]; exact hx, by rw [hname, hth]⟩
      refine ⟨⟨?_, ?_⟩, ?_⟩
      · rcases himg with himg | himg
        · rw [himg]; exact hs.1
        · rw [himg, imageKeys_pushTransformation]; exact hs.1
      · rw [hled]
        intro t' ht'
        rcases List.mem_append.mp ht' with ht' | ht'
        · exact hs.2 t' ht'
        · rw [List.mem_singleton] at ht'
          subst ht'
          exact hd
      · rw [hr]
        intro t' ht'
        simp only [Response.record, Option.some.injEq] at ht'
        subst ht'
        exact hd
  | finished resp => exact ⟨hs, hx⟩

/-- One step of a list of handlers keeps the conditions on the keys. -/
theorem stepAt_keys {Img : Type} (lib : Imaging Img) (keys : List (ObjectID × List Char))
    (s : State) (n : Nat) (hs : List Handler) (hst : KeysInv keys s)
    (hall : ∀ x ∈ hs, x.Derived keys) :
    KeysInv keys (stepAt lib s n hs).1 ∧ ∀ x ∈ (stepAt lib s n hs).2, x.Derived keys := by
  induction hs generalizing n with
  | nil => exact ⟨by simpa [stepAt] using hst, by simp [stepAt]⟩
  | cons x rest ih =>
    have hx := hall x (List.mem_cons_self _ _)
    have hrest : ∀ y ∈ rest, y.Derived keys := fun y hy => hall y (List.mem_cons_of_mem _ hy)
    cases n with
    | zero =>
      obtain ⟨h1, h2⟩ := stepHandler_keys lib keys s x hst hx
      simp only [stepAt]
      refine ⟨h1, ?_⟩
      intro y hy
      rcases List.mem_cons.mp hy with rfl | hy
      · exact h2
      · exact hrest y hy
    | succ n =>
      obtain ⟨h1, h2⟩ := ih n hrest
      simp only [stepAt]
      refine ⟨h1, ?_⟩
      intro y hy
      rcases List.mem_cons.mp hy with rfl | hy
      · exact hx
      · exact h2 y hy

/-- Every schedule keeps the conditions on the keys. -/
theorem runSchedule_keys {Img : Type} (lib : Imaging Img) (keys : List (ObjectID × List Char))
    (sched : List Nat) (sys : System) (hst : KeysInv keys sys.state)
    (hall : ∀ x ∈ sys.handlers, x.Derived keys) :
    KeysInv keys (runSchedule lib sys sched).state ∧
    ∀ x ∈ (runSchedule lib sys sched).handlers, x.Derived keys := by
  induction sched generalizing sys with
  | nil => exact ⟨hst, hall⟩
  | cons n rest ih =>
    obtain ⟨h1, h2⟩ := stepAt_keys lib keys sys.state n sys.handlers hst hall
    exact ih (System.step lib sys n) h1 h2

/-- The state at the arrival of calls meets the conditions on the keys when its ledger does. -/
theorem arrive_keys (s₀ : State) (calls : List (Env × Request))
    (hled : ∀ t ∈ s₀.transformations, KeyDerived (imageKeys s₀.images) t) :
    KeysInv (imageKeys s₀.images) (System.arrive s₀ calls).state ∧
    ∀ x ∈ (System.arrive s₀ calls).handlers, x.Derived (imageKeys s₀.images) := by
  refine ⟨⟨rfl, hled⟩, ?_⟩
  intro x hx
  simp only [System.arrive, List.mem_map] at hx
  obtain ⟨c, -, rfl⟩ := hx
  trivial

/-- A record that `TransformImage` answers with, found or new, has a derived
key and the image id of the request. -/
theorem TransformImage_answer_derived {Img : Type} (lib : Imaging Img)
    (keys : List (ObjectID × List Char)) (env : Env) (s : State) (req : Request) (st : Nat)
    (t : Transformation) (hs : KeysInv keys s)
    (h : (TransformImage lib env s req).resp = .transformation st t) :
    KeyDerived keys t ∧ req.imageID = some t.ImageID := by
  cases hl : TransformImage.lookup lib env s req with
  | answered resp tr =>
    simp only [TransformImage, hl] at h
    subst h
    obtain ⟨u, i, p, hash, e, url, -, hi, -, -, -, hf, -, hte, -, -⟩ :=
      lookup_hit lib env s req st t tr hl
    obtain ⟨hmem, hid, -⟩ := findTransformation_some hf
    obtain ⟨k, hk, hn⟩ := hs.2 e hmem
    subst hte
    exact ⟨⟨k, hk, hn⟩, by rw [hi, ← hid]⟩
  | miss pd =>
    simp only [TransformImage, hl] at h
    obtain ⟨-, hi, -, ⟨u, -, him⟩, -⟩ := lookup_miss lib env s req pd hl
    obtain ⟨hmem, hid, -⟩ := findImage_some him
    rcases materialize_cases lib env s pd with ⟨msg, hr, -⟩ | ⟨t', hr, -, hti, hth, -, -, hname, -⟩
    · rw [hr] at h; cases h
    · rw [hr] at h
      cases h
      refine ⟨⟨pd.image.ObjectName, ?_, by rw [hname, hth]⟩, by rw [hi, hti]⟩
      rw [hti, ← hs.1, ← hid]
      exact List.mem_map.mpr ⟨pd.image, hmem, rfl⟩

/-- C19: the second line of defense. From a state whose image ids are
pairwise distinct and whose ledger records have derived keys (the empty
ledger for one), in every state reached by any interleaving of the lookup
and insert steps of any calls, every ledger record of image i and hash h has
the object key derived from the object key of i and from h. Hence the
records that two calls are answered with, found or new, have the same object
key when they have the same image and hash, and any two `TransformImage`
calls for the same image with the same parameters on states reached so are
answered, when answered with a record, with the same object key, whether or
not the ledger holds duplicates. -/
theorem C19_artifact_keys_derived {Img : Type} (lib : Imaging Img) (s₀ : State)
    (calls : List (Env × Request))
    (hnodup : (s₀.images.map (fun im => im.ID)).Nodup)
    (hled : ∀ t ∈ s₀.transformations, KeyDerived (imageKeys s₀.images) t) :
    (∀ (sched : List Nat),
      ∀ t ∈ (runSchedule lib (System.arrive s₀ calls) sched).state.transformations,
        ∃ im ∈ s₀.images, im.ID = t.ImageID ∧
          t.ObjectName = StorageClient.transformedObjectName im.ObjectName t.Hash) ∧
    (∀ (sched : List Nat),
      ∀ x₁ ∈ (runSchedule lib (System.arrive s₀ calls) sched).handlers,
      ∀ x₂ ∈ (runSchedule lib (System.arrive s₀ calls) sched).handlers,
      ∀ t₁ t₂ : Transformation,
        x₁.answer.bind Response.record = some t₁ → x₂.answer.bind Response.record = some t₂ →
        t₁.ImageID = t₂.ImageID → t₁.Hash = t₂.Hash → t₁.ObjectName = t₂.ObjectName) ∧
    (∀ (sched₁ sched₂ : List Nat) (env₁ env₂ : Env) (req₁ req₂ : Request)
        (p : TransformParams) (st₁ st₂ : Nat) (t₁ t₂ : Transformation),
      req₁.imageID = req₂.imageID → req₁.body = .ok p → req₂.body = .ok p →
      (TransformImage lib env₁ (runSchedule lib (System.arrive s₀ calls) sched₁).state
        req₁).resp = .transformation st₁ t₁ →
      (TransformImage lib env₂ (runSchedule lib (System.arrive s₀ calls) sched₂).state
        req₂).resp = .transformation st₂ t₂ →
      t₁.ObjectName = t₂.ObjectName) := by
  have hk : ((imageKeys s₀.images).map (fun k => k.1)).Nodup := by
    simpa [imageKeys, Function.comp_def] using hnodup
  obtain ⟨h0s, h0h⟩ := arrive_keys s₀ calls hled
  refine ⟨?_, ?_, ?_⟩
  · intro sched t ht
    obtain ⟨hst, -⟩ := runSchedule_keys lib _ sched _ h0s h0h
    obtain ⟨k, hmem, hname⟩ := hst.2 t ht
    simp only [imageKeys, List.mem_map] at hmem
    obtain ⟨im, him, heq⟩ := hmem
    have h1 : im.ID = t.ImageID := congrArg Prod.fst heq
    have h2 : im.ObjectName = k := congrArg Prod.snd heq
    exact ⟨im, him, h1, by rw [h2]; exact hname⟩
  · intro sched x₁ hx₁ x₂ hx₂ t₁ t₂ ha₁ ha₂ hi hh
    obtain ⟨-, hall⟩ := runSchedule_keys lib _ sched _ h0s h0h
    have d₁ : KeyDerived (imageKeys s₀.images) t₁ := by
      have := hall x₁ hx₁
      cases x₁ with
      | start env req => cases ha₁
      | pending env pd => cases ha₁
      | finished resp => exact this t₁ ha₁
    have d₂ : KeyDerived (imageKeys s₀.images) t₂ := by
      have := hall x₂ hx₂
      cases x₂ with
      | start env req => cases ha₂
      | pending env pd => cases ha₂
      | finished resp => exact this t₂ ha₂
    exact KeyDerived_unique _ hk t₁ t₂ d₁ d₂ hi hh
  · intro sched₁ sched₂ env₁ env₂ req₁ req₂ p st₁ st₂ t₁ t₂ hid hb₁ hb₂ h₁ h₂
    obtain ⟨hs₁, -⟩ := runSchedule_keys lib _ sched₁ _ h0s h0h
    obtain ⟨hs₂, -⟩ := runSchedule_keys lib _ sched₂ _ h0s h0h
    obtain ⟨d₁, i₁⟩ := TransformImage_answer_derived lib _ env₁ _ req₁ st₁ t₁ hs₁ h₁
    obtain ⟨d₂, i₂⟩ := TransformImage_answer_derived lib _ env₂ _ req₂ st₂ t₂ hs₂ h₂
    have hi : t₁.ImageID = t₂.ImageID := by
      rw [hid, i₂] at i₁
      exact (Option.some.inj i₁).symm
    have e₁ := TransformImage_record_hash lib env₁ _ req₁ p st₁ t₁ hb₁ h₁
    have e₂ := TransformImage_record_hash lib env₂ _ req₂ p st₂ t₂ hb₂ h₂
    have hh : t₁.Hash = t₂.Hash := by
      rw [← e₂] at e₁
      exact Option.some.inj e₁
    exact KeyDerived_unique _ hk t₁ t₂ d₁ d₂ hi hh

/-- C19 at the two racing calls of the scenario: the ledger ends with two
records of image 1 and the same hash; the first of them, the record of the
scenario, is under the key derived from the key of image 1. -/
theorem C19_artifact_keys_derived_witness :
    ∃ im ∈ sampleState.images, im.ID = scenarioRecord.ImageID ∧
      scenarioRecord.ObjectName
        = StorageClient.transformedObjectName im.ObjectName scenarioRecord.Hash :=
  (C19_artifact_keys_derived boundsImaging sampleState
    [(calmEnv 100 50, sampleRequest scenarioParams),
     (calmEnv 101 51, sampleRequest scenarioParams)]
    (by decide) (by intro t ht; simp [sampleState] at ht)).1 [0, 1, 0, 1] scenarioRecord
    (by decide!)

/-! ### The Authorization header -/

/-- C20 at the failing input: the header "Basic abc Bearer tok" is not of
the form "Bearer " followed by a token, yet `strings.Split` cuts it into the
two parts "Basic abc " and "tok", the check on the number of parts passes,
the second part goes to token verification and the next handler runs for
user 7, exactly as for the header "Bearer tok". Headers without "Bearer "
(empty, or the bare token) and headers with "Bearer " twice are answered
401. -/
theorem C20_text_before_bearer_evaluation :
    stringsSplit "Basic abc Bearer tok".toList "Bearer ".toList
      = ["Basic abc ".toList, "tok".toList] ∧
    AuthMiddleware sampleJWT "Basic abc Bearer tok".toList = .next 7 ∧
    AuthMiddleware sampleJWT "Bearer tok".toList = .next 7 ∧
    AuthMiddleware sampleJWT [] = .abort 401 "Authorization header is required".toList ∧
    AuthMiddleware sampleJWT "tok".toList
      = .abort 401 "Authorization header format must be Bearer \x7btoken\x7d".toList ∧
    AuthMiddleware sampleJWT "Bearer Bearer tok".toList
      = .abort 401 "Authorization header format must be Bearer \x7btoken\x7d".toList := by
  decide!

/-! ### The naming scheme is injective -/

theorem MD5.length_leBytes (n x : Nat) : (MD5.leBytes n x).length = n := by
  induction n generalizing x with
  | zero => rfl
  | succ n ih => simp [MD5.leBytes, ih]

theorem hexDigit_mem (n : Nat) : hexDigit n ∈ "0123456789abcdef".toList := by
  unfold hexDigit
  rw [List.getD_eq_getElem?_getD]
  cases h : "0123456789abcdef".toList[n]? with
  | none => decide
  | some c => exact List.getElem?_mem h

theorem hexEncodeToString_spec (bs : List Nat) :
    (hexEncodeToString bs).length = 2 * bs.length ∧
    ∀ c ∈ hexEncodeToString bs, c ∈ "0123456789abcdef".toList := by
  induction bs with
  | nil => exact ⟨rfl, fun c hc => by simp [hexEncodeToString] at hc⟩
  | cons b rest ih =>
    have hcons : hexEncodeToString (b :: rest)
        = hexDigit (b / 16) :: hexDigit (b % 16) :: hexEncodeToString rest := by
      simp [hexEncodeToString]
    rw [hcons]
    refine ⟨by simp [ih.1]; omega, ?_⟩
    intro c hc
    rcases List.mem_cons.mp hc with rfl | hc
    · exact hexDigit_mem _
    rcases List.mem_cons.mp hc with rfl | hc
    · exact hexDigit_mem _
    · exact ih.2 c hc

/-- The cache key of `TransformImage` is always 32 hexadecimal characters. -/
theorem transformationHash_isHexDigest (paramsJSON : List Char) :
    isHexDigest (transformationHash paramsJSON) := by
  unfold isHexDigest transformationHash
  obtain ⟨hl, hc⟩ := hexEncodeToString_spec (MD5.Sum (utf8Bytes paramsJSON))
  refine ⟨?_, hc⟩
  rw [hl]
  simp [MD5.Sum, MD5.length_leBytes]

/-- The derived name, with the stem and the extension apart. -/
theorem transformedObjectName_injective (k₁ k₂ d₁ d₂ : List Char) (h₁ : isHexDigest d₁)
    (h₂ : isHexDigest d₂)
    (he : StorageClient.transformedObjectName k₁ d₁
      = StorageClient.transformedObjectName k₂ d₂) :
    k₁ = k₂ ∧ d₁ = d₂ := by
  obtain ⟨s₁, hk₁, ht₁, -, hm₁⟩ := filepathExt_split k₁
  obtain ⟨s₂, hk₂, ht₂, -, hm₂⟩ := filepathExt_split k₂
  have hmid : ∀ d, isHexDigest d → ∀ c ∈ "_".toList ++ d, c ≠ '/' ∧ c ≠ '.' := by
    intro d hd c hc
    rcases List.mem_append.mp hc with hc | hc
    · have : c = '_' := by simpa using hc
      subst this
      decide
    · exact isHexDigest_chars d hd c hc
  have n₁ : StorageClient.transformedObjectName k₁ d₁
      = s₁ ++ ("_".toList ++ d₁) ++ filepathExt k₁ := by
    simp only [StorageClient.transformedObjectName, ht₁, List.append_assoc]
  have n₂ : StorageClient.transformedObjectName k₂ d₂
      = s₂ ++ ("_".toList ++ d₂) ++ filepathExt k₂ := by
    simp only [StorageClient.transformedObjectName, ht₂, List.append_assoc]
  rw [n₁, n₂] at he
  have hext : filepathExt k₁ = filepathExt k₂ := by
    have e₁ := hm₁ _ (hmid d₁ h₁)
    have e₂ := hm₂ _ (hmid d₂ h₂)
    rw [he] at e₁
    rw [← e₁, e₂]
  rw [hext] at he
  have hcancel := List.append_cancel_right he
  have hlen : ("_".toList ++ d₁).length = ("_".toList ++ d₂).length := by
    simp [h₁.1, h₂.1]
  obtain ⟨hs, hd⟩ := List.append_inj' hcancel hlen
  refine ⟨?_, List.append_cancel_left hd⟩
  rw [hk₁, hk₂, hs, hext]

/-- C21: the naming scheme of `StoreTransformedImage` (either backend) is
injective on pairs of an original key and a digest of 32 hexadecimal
characters: equal derived keys come from equal original keys and equal
digests. The digests `TransformImage` passes are always of that form, so
artifacts of different images or of different digests never share an object
key. -/
theorem C21_naming_injective (k₁ k₂ d₁ d₂ : List Char) (h₁ : isHexDigest d₁)
    (h₂ : isHexDigest d₂)
    (he : StorageClient.transformedObjectName k₁ d₁
        = StorageClient.transformedObjectName k₂ d₂ ∨
      S3StorageClient.transformedObjectName k₁ d₁
        = S3StorageClient.transformedObjectName k₂ d₂) :
    (k₁ = k₂ ∧ d₁ = d₂) ∧
    (∀ js₁ js₂ : List Char,
      StorageClient.transformedObjectName k₁ (transformationHash js₁)
        = StorageClient.transformedObjectName k₂ (transformationHash js₂) →
      k₁ = k₂ ∧ transformationHash js₁ = transformationHash js₂) := by
  refine ⟨?_, fun js₁ js₂ h => transformedObjectName_injective _ _ _ _
    (transformationHash_isHexDigest js₁) (transformationHash_isHexDigest js₂) h⟩
  rcases he with he | he
  · exact transformedObjectName_injective k₁ k₂ d₁ d₂ h₁ h₂ he
  · exact transformedObjectName_injective k₁ k₂ d₁ d₂ h₁ h₂ he

/-- C21 at the key of the sample image and the digest of the scenario, against itself. -/
theorem C21_naming_injective_witness :
    "uploads/0a1b.jpg".toList = "uploads/0a1b.jpg".toList ∧
    "43d54b0598768e2ce5138c80e2050a8e".toList = "43d54b0598768e2ce5138c80e2050a8e".toList :=
  (C21_naming_injective "uploads/0a1b.jpg".toList "uploads/0a1b.jpg".toList
    "43d54b0598768e2ce5138c80e2050a8e".toList "43d54b0598768e2ce5138c80e2050a8e".toList
    (by decide!) (by decide!) (Or.inl rfl)).1

/-- Two keys that a naming without the underscore would confuse are kept
apart: "a" with digest d and "a_" with the same digest give different names. -/
theorem naming_example :
    StorageClient.transformedObjectName "uploads/a.png".toList
        "43d54b0598768e2ce5138c80e2050a8e".toList
      ≠ StorageClient.transformedObjectName "uploads/a_.png".toList
        "43d54b0598768e2ce5138c80e2050a8e".toList := by
  decide!

/-! ### Explicit negatives in the pipeline -/

/-- C23: in the pipeline of `TransformImage` an explicit negative is the
same as absence. For every imaging library, source image, image record and
parameters, setting flip to false, mirror to false, or filters to the
record with grayscale false, sepia false and no blur or sharpen, gives the
same transformed image, output format and content type as leaving that
field absent. -/
theorem C23_explicit_negative_is_absence {Img : Type} (lib : Imaging Img)
    (p : TransformParams) (src : Img) (im : Image) :
    (applyTransformations lib { p with Flip := some false } src
        = applyTransformations lib { p with Flip := none } src ∧
      outputFormat { p with Flip := some false } im = outputFormat { p with Flip := none } im) ∧
    (applyTransformations lib { p with Mirror := some false } src
        = applyTransformations lib { p with Mirror := none } src ∧
      outputFormat { p with Mirror := some false } im
        = outputFormat { p with Mirror := none } im) ∧
    (applyTransformations lib { p with Filters := some ⟨false, false, none, none⟩ } src
        = applyTransformations lib { p with Filters := none } src ∧
      outputFormat { p with Filters := some ⟨false, false, none, none⟩ } im
        = outputFormat { p with Filters := none } im) :=
  ⟨⟨rfl, rfl⟩, ⟨rfl, rfl⟩, ⟨rfl, rfl⟩⟩

/-- The explicit negatives at work: on the sample image, the requests with
flip false and with no field at all store the same bytes with the same
content type, under different object keys. -/
theorem explicit_negative_example :
    ((TransformImage taggedImaging (calmEnv 100 50) sampleState
        (sampleRequest { noParams with Flip := some false })).state.bucket.get
          "uploads/0a1b_372b24a231e857f8ccf7cb5035f28d92.jpg".toList).map
        (fun o => (o.data, o.contentType)) = some ([0, 8, 6], "image/jpeg".toList) ∧
    ((TransformImage taggedImaging (calmEnv 100 50) sampleState
        (sampleRequest noParams)).state.bucket.get
          "uploads/0a1b_99914b932bd37a50b983c5e7c90ae93b.jpg".toList).map
        (fun o => (o.data, o.contentType)) = some ([0, 8, 6], "image/jpeg".toList) := by
  decide!

/-! ### Failed requests and the ledger -/

/-- C24: `TransformImage` is atomic on the ledger with respect to failure.
For every request that ends in an error response, whatever the status and
the step that failed (missing user, invalid id or body, image lookup, image
not found, serialization, ledger lookup, URL of a hit, source fetch, decode,
encode, store, URL, insert), the ledger and the image records, with their
transformations lists, are after the request what they were before it. -/
theorem C24_failure_leaves_ledger {Img : Type} (lib : Imaging Img) (env : Env) (s : State)
    (req : Request) (st : Nat) (msg : List Char)
    (h : (TransformImage lib env s req).resp = .error st msg) :
    (TransformImage lib env s req).state.transformations = s.transformations ∧
    (TransformImage lib env s req).state.images = s.images ∧
    (TransformImage lib env s req).state.images.map (fun im => im.Transformations)
      = s.images.map (fun im => im.Transformations) := by
  have key : (TransformImage lib env s req).state.transformations = s.transformations ∧
      (TransformImage lib env s req).state.images = s.images := by
    cases hl : TransformImage.lookup lib env s req with
    | answered resp tr =>
      simp only [TransformImage, hl]
      exact ⟨trivial, trivial⟩
    | miss pd =>
      simp only [TransformImage, hl] at h ⊢
      rcases materialize_cases lib env s pd with ⟨m, -, hled, himg⟩ | ⟨t, hr, -⟩
      · exact ⟨hled, himg⟩
      · rw [hr] at h
        cases h
  exact ⟨key.1, key.2, by rw [key.2]⟩

/-- C24 at a request whose insert fails: the answer is the database error,
the ledger and the image records are untouched (the stored artifact stays in
the bucket). -/
theorem C24_failure_leaves_ledger_witness :
    (TransformImage boundsImaging { calmEnv 100 50 with insertErr := some "E11000".toList }
        sampleState (sampleRequest scenarioParams)).state.transformations
      = sampleState.transformations ∧
    (TransformImage boundsImaging { calmEnv 100 50 with insertErr := some "E11000".toList }
        sampleState (sampleRequest scenarioParams)).state.images = sampleState.images ∧
    (TransformImage boundsImaging { calmEnv 100 50 with insertErr := some "E11000".toList }
        sampleState (sampleRequest scenarioParams)).state.images.map
          (fun im => im.Transformations)
      = sampleState.images.map (fun im => im.Transformations) :=
  C24_failure_leaves_ledger boundsImaging
    { calmEnv 100 50 with insertErr := some "E11000".toList } sampleState
    (sampleRequest scenarioParams) 500 "E11000".toList (by decide!)

/-- A failed request can leave an artifact behind: when the insert fails the
bucket has gained the stored object while the ledger has no record of it. -/
theorem orphan_example :
    ((TransformImage boundsImaging { calmEnv 100 50 with insertErr := some "E11000".toList }
        sampleState (sampleRequest scenarioParams)).state.bucket.get
          scenarioRecord.ObjectName).map (fun o => o.data) = some [400, 300] ∧
    (TransformImage boundsImaging { calmEnv 100 50 with insertErr := some "E11000".toList }
        sampleState (sampleRequest scenarioParams)).state.transformations = [] := by
  decide!

/-! ### The serialization is injective -/

theorem digitChar_decimal (d : Nat) (hd : d < 10) :
    (Nat.digitChar d).toNat - 48 = d ∧ Nat.digitChar d ∈ "0123456789".toList := by
  interval_cases d <;> decide

theorem toDigitsCore_value (fuel : Nat) :
    ∀ (n : Nat) (acc : List Char), n < fuel →
      digitsValue 0 (Nat.toDigitsCore 10 fuel n acc) = digitsValue n acc := by
  induction fuel with
  | zero => intro n acc h; omega
  | succ fuel ih =>
    intro n acc h
    have hd := (digitChar_decimal (n % 10) (Nat.mod_lt _ (by decide))).1
    simp only [Nat.toDigitsCore]
    by_cases h0 : n / 10 = 0
    · simp only [h0, if_true]
      have hn : n % 10 = n := by omega
      simp only [digitsValue, List.foldl_cons, hd]
      rw [hn]
      simp
    · simp only [h0, if_false]
      rw [ih (n / 10) _ (by omega)]
      simp only [digitsValue, List.foldl_cons, hd]
      have : n / 10 * 10 + n % 10 = n := by omega
      rw [this]

theorem toDigitsCore_chars (fuel : Nat) :
    ∀ (n : Nat) (acc : List Char) (c : Char), c ∈ Nat.toDigitsCore 10 fuel n acc →
      c ∈ acc ∨ c ∈ "0123456789".toList := by
  induction fuel with
  | zero => intro n acc c h; exact Or.inl h
  | succ fuel ih =>
    intro n acc c h
    have hd := (digitChar_decimal (n % 10) (Nat.mod_lt _ (by decide))).2
    simp only [Nat.toDigitsCore] at h
    by_cases h0 : n / 10 = 0
    · simp only [h0, if_true] at h
      rcases List.mem_cons.mp h with rfl | h
      · exact Or.inr hd
      · exact Or.inl h
    · simp only [h0, if_false] at h
      rcases ih _ _ _ h with h | h
      · rcases List.mem_cons.mp h with rfl | h
        · exact Or.inr hd
        · exact Or.inl h
      · exact Or.inr h

theorem toDigits_value (n : Nat) : digitsValue 0 (Nat.toDigits 10 n) = n := by
  unfold Nat.toDigits
  rw [toDigitsCore_value (n + 1) n [] (by omega)]
  rfl

theorem toDigits_chars (n : Nat) : ∀ c ∈ Nat.toDigits 10 n, c ∈ "0123456789".toList := by
  intro c hc
  rcases toDigitsCore_chars (n + 1) n [] c hc with h | h
  · cases h
  · exact h

theorem decimal_char (c : Char) (h : c ∈ "0123456789".toList) :
    c ≠ '-' ∧ c ≠ ',' ∧ c ≠ '}' := by
  have hl : "0123456789".toList = ['0', '1', '2', '3', '4', '5', '6', '7', '8', '9'] := rfl
  rw [hl] at h
  simp only [List.mem_cons, List.mem_singleton, List.not_mem_nil, or_false] at h
  rcases h with h | h | h | h | h | h | h | h | h | h <;> subst h <;> decide

/-- The decimal text of an integer reads back as the integer. -/
theorem decodeInt_formatInt (i : Int) : decodeInt (formatInt i) = i := by
  cases i with
  | ofNat n =>
    simp only [formatInt]
    have hv := toDigits_value n
    have hc := toDigits_chars n
    cases hl : Nat.toDigits 10 n with
    | nil =>
      rw [hl] at hv
      simp only [decodeInt]
      have : n = 0 := by simpa [digitsValue] using hv.symm
      simp [this]
    | cons c rest =>
      rw [hl] at hv hc
      have hne : c ≠ '-' := (decimal_char c (hc c (List.mem_cons_self _ _))).1
      simp only [decodeInt, hne, if_false, hv]
      rfl
  | negSucc n =>
    simp only [formatInt, decodeInt, if_true, toDigits_value]
    rfl

theorem formatInt_injective (a b : Int) (h : formatInt a = formatInt b) : a = b := by
  have := congrArg decodeInt h
  rwa [decodeInt_formatInt, decodeInt_formatInt] at this

theorem formatInt_noDelim (i : Int) : NoDelim (formatInt i) := by
  intro c hc
  cases i with
  | ofNat n =>
    exact (decimal_char c (toDigits_chars n c hc)).2
  | negSucc n =>
    simp only [formatInt] at hc
    rcases List.mem_cons.mp hc with rfl | hc
    · decide
    · exact (decimal_char c (toDigits_chars (n + 1) c hc)).2

theorem formatBool_injective (a b : Bool) (h : formatBool a = formatBool b) : a = b := by
  cases a <;> cases b <;> first | rfl | (exact absurd h (by decide))

theorem formatBool_noDelim (b : Bool) : NoDelim (formatBool b) := by
  intro c hc
  cases b
  · have hl : formatBool false = ['f', 'a', 'l', 's', 'e'] := rfl
    rw [hl] at hc
    simp only [List.mem_cons, List.mem_singleton, List.not_mem_nil, or_false] at hc
    rcases hc with h | h | h | h | h <;> subst h <;> decide
  · have hl : formatBool true = ['t', 'r', 'u', 'e'] := rfl
    rw [hl] at hc
    simp only [List.mem_cons, List.mem_singleton, List.not_mem_nil, or_false] at hc
    rcases hc with h | h | h | h <;> subst h <;> decide

theorem hexVal_hexDigit (n : Nat) (h : n < 16) : hexVal (hexDigit n) = n := by
  interval_cases n <;> decide

theorem unescape_escapeChar (c : Char) (rest : List Char) :
    unescape (escapeChar c ++ rest) = some (c, rest) := by
  unfold escapeChar
  split_ifs with h1 h2 h3 h4 h5 h6 h7 h8 h9
  · subst h1; rfl
  · subst h2; rfl
  · have : c = Char.ofNat 8 := by rw [← h3, Char.ofNat_toNat]
    subst this; rfl
  · have : c = Char.ofNat 12 := by rw [← h4, Char.ofNat_toNat]
    subst this; rfl
  · subst h5; rfl
  · subst h6; rfl
  · subst h7; rfl
  · have hlt : c.toNat < 128 := by
      rcases h8 with h | h | h | h
      · omega
      · subst h; decide
      · subst h; decide
      · subst h; decide
    have ha := hexVal_hexDigit (c.toNat / 16) (by omega)
    have hb := hexVal_hexDigit (c.toNat % 16) (by omega)
    simp only [List.cons_append, List.nil_append, unescape, if_true, ha, hb]
    have : c.toNat / 16 * 16 + c.toNat % 16 = c.toNat := by omega
    simp [this, Char.ofNat_toNat]
  · have hb := hexVal_hexDigit (c.toNat % 16) (by omega)
    simp only [List.cons_append, List.nil_append, unescape, if_true, hb]
    have : 8224 + c.toNat % 16 = c.toNat := by omega
    simp [this, Char.ofNat_toNat]
  · simp [unescape, h2]

theorem terminated_cons_noDelim (c : Char) (v r : List Char) (hv : NoDelim (c :: v))
    (hr : Terminated r) (rest : List Char) : r ≠ c :: rest := by
  obtain ⟨d, more, rfl, hd⟩ := hr
  intro h
  have hc := hv c (List.mem_cons_self _ _)
  have : d = c := (List.cons.inj h).1
  subst this
  rcases hd with hd | hd
  · exact hc.1 hd
  · exact hc.2 hd

/-- A text without a delimiter ends where the first delimiter stands. -/
theorem delim_noDelim : Delim NoDelim := by
  intro v₁
  induction v₁ with
  | nil =>
    intro v₂ r₁ r₂ _ h₂ t₁ _ h
    cases v₂ with
    | nil => exact ⟨rfl, h⟩
    | cons c v₂ => exact absurd h (terminated_cons_noDelim c v₂ r₁ h₂ t₁ _)
  | cons c v₁ ih =>
    intro v₂ r₁ r₂ h₁ h₂ t₁ t₂ h
    cases v₂ with
    | nil => exact absurd h.symm (terminated_cons_noDelim c v₁ r₂ h₁ t₂ _)
    | cons d v₂ =>
      obtain ⟨hcd, htl⟩ := List.cons.inj h
      subst hcd
      obtain ⟨hv, hr⟩ := ih v₂ r₁ r₂ (fun x hx => h₁ x (List.mem_cons_of_mem _ hx))
        (fun x hx => h₂ x (List.mem_cons_of_mem _ hx)) t₁ t₂ htl
      exact ⟨by rw [hv], hr⟩

theorem escaped_inj (s₁ : List Char) :
    ∀ (s₂ r₁ r₂ : List Char),
      s₁.flatMap escapeChar ++ '"' :: r₁ = s₂.flatMap escapeChar ++ '"' :: r₂ →
      s₁ = s₂ ∧ r₁ = r₂ := by
  induction s₁ with
  | nil =>
    intro s₂ r₁ r₂ h
    cases s₂ with
    | nil => exact ⟨rfl, (List.cons.inj h).2⟩
    | cons c s₂ =>
      exfalso
      have h1 := congrArg unescape h
      rw [List.flatMap_cons, List.append_assoc, unescape_escapeChar] at h1
      simp only [List.flatMap_nil, List.nil_append, unescape] at h1
      have hc : c = '"' := by
        have := congrArg Prod.fst (Option.some.inj h1)
        exact this.symm
      subst hc
      have h2 := h
      rw [List.flatMap_cons] at h2
      exact absurd (List.cons.inj h2).1 (by decide)
  | cons c s₁ ih =>
    intro s₂ r₁ r₂ h
    cases s₂ with
    | nil =>
      exfalso
      have h1 := congrArg unescape h
      rw [List.flatMap_cons, List.append_assoc, unescape_escapeChar] at h1
      simp only [List.flatMap_nil, List.nil_append, unescape] at h1
      have hc : c = '"' := by
        have := congrArg Prod.fst (Option.some.inj h1)
        exact this
      subst hc
      have h2 := h
      rw [List.flatMap_cons] at h2
      exact absurd (List.cons.inj h2).1 (by decide)
    | cons d s₂ =>
      have h1 := congrArg unescape h
      rw [List.flatMap_cons, List.flatMap_cons, List.append_assoc, List.append_assoc,
        unescape_escapeChar, unescape_escapeChar] at h1
      have hp := Option.some.inj h1
      have hcd : c = d := congrArg Prod.fst hp
      have htl := congrArg Prod.snd hp
      obtain ⟨hs, hr⟩ := ih s₂ r₁ r₂ htl
      exact ⟨by rw [hcd, hs], hr⟩

/-- A JSON string ends at its closing quote: two strings followed by anything
agree only when they are the same string followed by the same text. -/
theorem formatString_inj (s₁ s₂ r₁ r₂ : List Char)
    (h : formatString s₁ ++ r₁ = formatString s₂ ++ r₂) : s₁ = s₂ ∧ r₁ = r₂ := by
  unfold formatString at h
  simp only [List.cons_append, List.append_assoc, List.nil_append] at h
  exact escaped_inj s₁ s₂ r₁ r₂ (List.cons.inj h).2

theorem name_inj (n₁ : List Char) :
    ∀ (n₂ r₁ r₂ : List Char), '"' ∉ n₁ → '"' ∉ n₂ →
      n₁ ++ '"' :: r₁ = n₂ ++ '"' :: r₂ → n₁ = n₂ ∧ r₁ = r₂ := by
  induction n₁ with
  | nil =>
    intro n₂ r₁ r₂ _ h₂ h
    cases n₂ with
    | nil => exact ⟨rfl, (List.cons.inj h).2⟩
    | cons c n₂ =>
      exact absurd (List.mem_cons_self _ _) ((List.cons.inj h).1 ▸ h₂)
  | cons c n₁ ih =>
    intro n₂ r₁ r₂ h₁ h₂ h
    cases n₂ with
    | nil =>
      exact absurd (List.mem_cons_self _ _) ((List.cons.inj h).1 ▸ h₁)
    | cons d n₂ =>
      obtain ⟨hcd, htl⟩ := List.cons.inj h
      obtain ⟨hn, hr⟩ := ih n₂ r₁ r₂ (fun hx => h₁ (List.mem_cons_of_mem _ hx))
        (fun hx => h₂ (List.mem_cons_of_mem _ hx)) htl
      exact ⟨by rw [hcd, hn], hr⟩

theorem member_inj (n₁ n₂ : String) (v₁ v₂ r₁ r₂ : List Char)
    (h₁ : '"' ∉ n₁.toList) (h₂ : '"' ∉ n₂.toList)
    (h : member n₁ v₁ ++ r₁ = member n₂ v₂ ++ r₂) : n₁ = n₂ ∧ v₁ ++ r₁ = v₂ ++ r₂ := by
  unfold member at h
  simp only [List.cons_append, List.append_assoc] at h
  obtain ⟨hn, hr⟩ := name_inj _ _ _ _ h₁ h₂ (List.cons.inj h).2
  exact ⟨String.ext hn, (List.cons.inj hr).2⟩

theorem sepText_terminated (fs : List (String × List Char)) (r : List Char) :
    Terminated (sepText fs ++ r) := by
  cases fs with
  | nil => exact ⟨'}', r, rfl, Or.inr rfl⟩
  | cons f fs => exact ⟨',', _, rfl, Or.inl rfl⟩

theorem sepText_inj (V : String → List Char → Prop) (hV : ∀ n, Delim (V n))
    (fs₁ : List (String × List Char)) :
    ∀ (fs₂ : List (String × List Char)) (r₁ r₂ : List Char),
      WellFormed V fs₁ → WellFormed V fs₂ →
      sepText fs₁ ++ r₁ = sepText fs₂ ++ r₂ → fs₁ = fs₂ ∧ r₁ = r₂ := by
  induction fs₁ with
  | nil =>
    intro fs₂ r₁ r₂ _ _ h
    cases fs₂ with
    | nil => exact ⟨rfl, (List.cons.inj h).2⟩
    | cons f fs₂ => exact absurd (List.cons.inj h).1 (by decide)
  | cons f fs₁ ih =>
    intro fs₂ r₁ r₂ w₁ w₂ h
    cases fs₂ with
    | nil => exact absurd (List.cons.inj h).1 (by decide)
    | cons g fs₂ =>
      simp only [sepText, List.cons_append, List.append_assoc] at h
      have hf := w₁ f (List.mem_cons_self _ _)
      have hg := w₂ g (List.mem_cons_self _ _)
      obtain ⟨hn, hv⟩ := member_inj _ _ _ _ _ _ hf.1 hg.1 (List.cons.inj h).2
      have hg2 : V f.1 g.2 := by rw [hn]; exact hg.2
      obtain ⟨hval, hrest⟩ := hV f.1 _ _ _ _ hf.2 hg2
        (sepText_terminated fs₁ r₁) (sepText_terminated fs₂ r₂) hv
      obtain ⟨hfs, hr⟩ := ih fs₂ r₁ r₂ (fun x hx => w₁ x (List.mem_cons_of_mem _ hx))
        (fun x hx => w₂ x (List.mem_cons_of_mem _ hx)) hrest
      exact ⟨by rw [Prod.ext hn hval, hfs], hr⟩

theorem bodyText_inj (V : String → List Char → Prop) (hV : ∀ n, Delim (V n))
    (fs₁ fs₂ : List (String × List Char)) (r₁ r₂ : List Char)
    (w₁ : WellFormed V fs₁) (w₂ : WellFormed V fs₂)
    (h : bodyText fs₁ ++ r₁ = bodyText fs₂ ++ r₂) : fs₁ = fs₂ ∧ r₁ = r₂ := by
  cases fs₁ with
  | nil =>
    cases fs₂ with
    | nil => exact ⟨rfl, (List.cons.inj h).2⟩
    | cons g fs₂ => exact absurd (List.cons.inj h).1 (by decide)
  | cons f fs₁ =>
    cases fs₂ with
    | nil => exact absurd (List.cons.inj h).1 (by decide)
    | cons g fs₂ =>
      simp only [bodyText, List.append_assoc] at h
      have hf := w₁ f (List.mem_cons_self _ _)
      have hg := w₂ g (List.mem_cons_self _ _)
      obtain ⟨hn, hv⟩ := member_inj _ _ _ _ _ _ hf.1 hg.1 h
      have hg2 : V f.1 g.2 := by rw [hn]; exact hg.2
      obtain ⟨hval, hrest⟩ := hV f.1 _ _ _ _ hf.2 hg2
        (sepText_terminated fs₁ r₁) (sepText_terminated fs₂ r₂) hv
      obtain ⟨hfs, hr⟩ := sepText_inj V hV fs₁ fs₂ r₁ r₂
        (fun x hx => w₁ x (List.mem_cons_of_mem _ hx))
        (fun x hx => w₂ x (List.mem_cons_of_mem _ hx)) hrest
      exact ⟨by rw [Prod.ext hn hval, hfs], hr⟩

theorem intercalate_members (m : List Char) (fs : List (String × List Char)) :
    List.intercalate [','] (m :: members fs) ++ ['}'] = m ++ sepText fs := by
  induction fs generalizing m with
  | nil => simp [members, List.intercalate, sepText]
  | cons f fs ih =>
    have hm : members (f :: fs) = member f.1 f.2 :: members fs := rfl
    rw [hm, intercalate_cons_cons, List.append_assoc, List.append_assoc, ih]
    rfl

theorem object_members (fs : List (String × List Char)) :
    object (members fs) = '{' :: bodyText fs := by
  cases fs with
  | nil => rfl
  | cons f fs =>
    have hm : members (f :: fs) = member f.1 f.2 :: members fs := rfl
    rw [hm]
    show '{' :: (List.intercalate [','] (member f.1 f.2 :: members fs) ++ ['}']) = _
    rw [intercalate_members]
    rfl

theorem delim_innerClass (n : String) : Delim (InnerClass n) := by
  unfold InnerClass
  by_cases h : n = "text"
  · simp only [h, if_true]
    rintro v₁ v₂ r₁ r₂ ⟨s₁, rfl⟩ ⟨s₂, rfl⟩ _ _ heq
    obtain ⟨hs, hr⟩ := formatString_inj _ _ _ _ heq
    exact ⟨by rw [hs], hr⟩
  · simp only [h, if_false]
    exact delim_noDelim

theorem delim_outerClass (n : String) : Delim (OuterClass n) := by
  unfold OuterClass
  by_cases h : n = "format"
  · simp only [h, if_true]
    rintro v₁ v₂ r₁ r₂ ⟨s₁, rfl⟩ ⟨s₂, rfl⟩ _ _ heq
    obtain ⟨hs, hr⟩ := formatString_inj _ _ _ _ heq
    exact ⟨by rw [hs], hr⟩
  · simp only [h, if_false]
    by_cases h2 : n = "resize" ∨ n = "crop" ∨ n = "filters" ∨ n = "watermark"
    · simp only [h2, if_true]
      rintro v₁ v₂ r₁ r₂ ⟨fs₁, w₁, rfl⟩ ⟨fs₂, w₂, rfl⟩ _ _ heq
      obtain ⟨hs, hr⟩ := bodyText_inj InnerClass delim_innerClass fs₁ fs₂ r₁ r₂ w₁ w₂
        (List.cons.inj heq).2
      exact ⟨by rw [hs], hr⟩
    · simp only [h2, if_false]
      exact delim_noDelim

theorem present_names (slots : List (String × Option (List Char))) (f : String × List Char)
    (h : f ∈ present slots) : f.1 ∈ slots.map Prod.fst := by
  unfold present at h
  obtain ⟨s, hs, hf⟩ := List.mem_filterMap.mp h
  cases hv : s.2 with
  | none => rw [hv] at hf; cases hf
  | some v =>
    rw [hv] at hf
    have : f = (s.1, v) := (Option.some.inj hf).symm
    rw [this]
    exact List.mem_map.mpr ⟨s, hs, rfl⟩

/-- The fields that are written determine the slots: with the same distinct
names in the same order, two slot lists that write the same fields are equal. -/
theorem present_inj (s₁ : List (String × Option (List Char))) :
    ∀ (s₂ : List (String × Option (List Char))),
      s₁.map Prod.fst = s₂.map Prod.fst → (s₁.map Prod.fst).Nodup →
      present s₁ = present s₂ → s₁ = s₂ := by
  induction s₁ with
  | nil =>
    intro s₂ hn _ _
    cases s₂ with
    | nil => rfl
    | cons b s₂ => cases hn
  | cons a s₁ ih =>
    intro s₂ hn hd hp
    cases s₂ with
    | nil => cases hn
    | cons b s₂ =>
      obtain ⟨hab, htl⟩ := List.cons.inj hn
      have hd2 := List.nodup_cons.mp hd
      obtain ⟨an, av⟩ := a
      obtain ⟨bn, bv⟩ := b
      simp only at hab
      subst hab
      cases av with
      | none =>
        cases bv with
        | none =>
          have hp2 : present s₁ = present s₂ := hp
          rw [ih s₂ htl hd2.2 hp2]
        | some v =>
          exfalso
          have hp2 : present s₁ = (an, v) :: present s₂ := hp
          have hm : (an, v) ∈ present s₁ := by rw [hp2]; exact List.mem_cons_self _ _
          exact hd2.1 (present_names s₁ _ hm)
      | some u =>
        cases bv with
        | none =>
          exfalso
          have hp2 : (an, u) :: present s₁ = present s₂ := hp
          have hm : (an, u) ∈ present s₂ := by rw [← hp2]; exact List.mem_cons_self _ _
          have := present_names s₂ _ hm
          rw [← htl] at this
          exact hd2.1 this
        | some v =>
          have hp2 : (an, u) :: present s₁ = (an, v) :: present s₂ := hp
          obtain ⟨hh, ht⟩ := List.cons.inj hp2
          have huv : u = v := (Prod.mk.inj hh).2
          rw [ih s₂ htl hd2.2 ht, huv]

theorem collect_cons_some (ms : List (List Char)) (rest : List (Option (List (List Char))))
    (out : List (List Char)) (h : collect (some ms :: rest) = some out) :
    ∃ more, collect rest = some more ∧ out = ms ++ more := by
  simp only [collect] at h
  cases hc : collect rest with
  | none => rw [hc] at h; cases h
  | some more =>
    rw [hc] at h
    exact ⟨more, rfl, (Option.some.inj h).symm⟩

theorem collect_omitempty {α : Type} (n : String) (f : α → Option (List Char)) (o : Option α)
    (rest : List (Option (List (List Char)))) (out : List (List Char))
    (h : collect (omitempty n f o :: rest) = some out) :
    ∃ more, collect rest = some more ∧ out = members (present [(n, o.bind f)]) ++ more ∧
      (o.bind f).isSome = o.isSome := by
  cases o with
  | none =>
    obtain ⟨more, hm, ho⟩ := collect_cons_some [] rest out h
    exact ⟨more, hm, ho, rfl⟩
  | some v =>
    cases hf : f v with
    | none =>
      have ho : omitempty n f (some v) = none := by simp [omitempty, hf]
      rw [ho] at h
      cases h
    | some t =>
      have ho : omitempty n f (some v) = some [member n t] := by simp [omitempty, hf]
      rw [ho] at h
      obtain ⟨more, hm, hout⟩ := collect_cons_some _ rest out h
      refine ⟨more, hm, ?_, ?_⟩
      · rw [hout]
        simp [present, members, hf]
      · simp [hf]

theorem members_present_cons (a b : String × Option (List Char))
    (l : List (String × Option (List Char))) :
    members (present (a :: b :: l)) = members (present [a]) ++ members (present (b :: l)) := by
  obtain ⟨n, v⟩ := a
  cases v <;> simp [present, members]

theorem wellFormed_present (V : String → List Char → Prop)
    (slots : List (String × Option (List Char)))
    (h : ∀ s ∈ slots, '"' ∉ s.1.toList ∧ ∀ v, s.2 = some v → V s.1 v) :
    WellFormed V (present slots) := by
  intro f hf
  unfold present at hf
  obtain ⟨s, hs, hv⟩ := List.mem_filterMap.mp hf
  cases hsv : s.2 with
  | none => rw [hsv] at hv; cases hv
  | some v =>
    rw [hsv] at hv
    have hfe : f = (s.1, v) := (Option.some.inj hv).symm
    rw [hfe]
    exact ⟨(h s hs).1, (h s hs).2 v hsv⟩

theorem marshalResize_fields (r : ResizeParams) :
    marshalResize r = '{' :: bodyText (resizeFields r) := by
  rw [← object_members]; rfl

theorem marshalCrop_fields (c : CropParams) :
    marshalCrop c = '{' :: bodyText (cropFields c) := by
  rw [← object_members]; rfl

theorem innerClass_token (n : String) (v : List Char) (hn : n ≠ "text") (hv : NoDelim v) :
    InnerClass n v := by
  unfold InnerClass
  rw [if_neg hn]
  exact hv

theorem token_field (n : String) (v : List Char) (hq : '"' ∉ n.toList) (hn : n ≠ "text")
    (hv : NoDelim v) : '"' ∉ (n, v).1.toList ∧ InnerClass (n, v).1 (n, v).2 :=
  ⟨hq, innerClass_token n v hn hv⟩

theorem token_slot (n : String) (o : Option (List Char)) (hq : '"' ∉ n.toList)
    (hn : n ≠ "text") (ho : ∀ v, o = some v → NoDelim v) :
    '"' ∉ (n, o).1.toList ∧ ∀ v, (n, o).2 = some v → InnerClass (n, o).1 v :=
  ⟨hq, fun v hv => innerClass_token n v hn (ho v hv)⟩

theorem wellFormed_resizeFields (r : ResizeParams) : WellFormed InnerClass (resizeFields r) := by
  intro f hf
  simp only [resizeFields, List.mem_cons, List.mem_singleton, List.not_mem_nil, or_false] at hf
  rcases hf with rfl | rfl
  · exact token_field "width" _ (by decide) (by decide) (formatInt_noDelim _)
  · exact token_field "height" _ (by decide) (by decide) (formatInt_noDelim _)

theorem wellFormed_cropFields (c : CropParams) : WellFormed InnerClass (cropFields c) := by
  intro f hf
  simp only [cropFields, List.mem_cons, List.mem_singleton, List.not_mem_nil, or_false] at hf
  rcases hf with rfl | rfl | rfl | rfl
  · exact token_field "width" _ (by decide) (by decide) (formatInt_noDelim _)
  · exact token_field "height" _ (by decide) (by decide) (formatInt_noDelim _)
  · exact token_field "x" _ (by decide) (by decide) (formatInt_noDelim _)
  · exact token_field "y" _ (by decide) (by decide) (formatInt_noDelim _)

theorem wellFormed_watermarkFields (w : WatermarkParams) (fs op : List Char)
    (hfs : NoDelim fs) (hop : NoDelim op) : WellFormed InnerClass (watermarkFields w fs op) := by
  intro f hf
  simp only [watermarkFields, List.mem_cons, List.mem_singleton, List.not_mem_nil,
    or_false] at hf
  rcases hf with rfl | rfl | rfl | rfl | rfl
  · have hq : '"' ∉ ("text" : String).toList := by decide
    refine ⟨hq, ?_⟩
    show InnerClass "text" (formatString w.Text)
    unfold InnerClass
    rw [if_pos rfl]
    exact ⟨w.Text, rfl⟩
  · exact token_field "font_size" _ (by decide) (by decide) hfs
  · exact token_field "x" _ (by decide) (by decide) (formatInt_noDelim _)
  · exact token_field "y" _ (by decide) (by decide) (formatInt_noDelim _)
  · exact token_field "opacity" _ (by decide) (by decide) hop

theorem bind_noDelim (fj : Float64 → Option (List Char))
    (hfj : ∀ x t, fj x = some t → NoDelim t) (o : Option Float64) (v : List Char)
    (h : o.bind fj = some v) : NoDelim v := by
  cases o with
  | none => cases h
  | some x => exact hfj x v h

theorem some_noDelim (t : List Char) (ht : NoDelim t) (v : List Char) (h : some t = some v) :
    NoDelim v := by
  rw [← Option.some.inj h]; exact ht

theorem wellFormed_filterSlots (fj : Float64 → Option (List Char))
    (hfj : ∀ x t, fj x = some t → NoDelim t) (f : FilterParams) :
    WellFormed InnerClass (present (filterSlots fj f)) := by
  apply wellFormed_present
  intro s hs
  simp only [filterSlots, List.mem_cons, List.mem_singleton, List.not_mem_nil, or_false] at hs
  rcases hs with rfl | rfl | rfl | rfl
  · exact token_slot "grayscale" _ (by decide) (by decide)
      (some_noDelim _ (formatBool_noDelim _))
  · exact token_slot "sepia" _ (by decide) (by decide)
      (some_noDelim _ (formatBool_noDelim _))
  · exact token_slot "blur" _ (by decide) (by decide) (bind_noDelim fj hfj _)
  · exact token_slot "sharpen" _ (by decide) (by decide) (bind_noDelim fj hfj _)

theorem marshalFilters_slots (fj : Float64 → Option (List Char)) (f : FilterParams)
    (v : List Char) (h : marshalFilters fj f = some v) :
    v = '{' :: bodyText (present (filterSlots fj f)) ∧
      (f.Blur.bind fj).isSome = f.Blur.isSome ∧ (f.Sharpen.bind fj).isSome = f.Sharpen.isSome := by
  unfold marshalFilters at h
  cases hc : collect [some [member "grayscale" (formatBool f.Grayscale)],
      some [member "sepia" (formatBool f.Sepia)],
      omitempty "blur" fj f.Blur, omitempty "sharpen" fj f.Sharpen] with
  | none => rw [hc] at h; cases h
  | some out =>
    rw [hc] at h
    have hv : v = object out := (Option.some.inj h).symm
    obtain ⟨m1, h1, e1⟩ := collect_cons_some _ _ _ hc
    obtain ⟨m2, h2, e2⟩ := collect_cons_some _ _ _ h1
    obtain ⟨m3, h3, e3, p3⟩ := collect_omitempty _ _ _ _ _ h2
    obtain ⟨m4, h4, e4, p4⟩ := collect_omitempty _ _ _ _ _ h3
    have e5 : m4 = [] := (Option.some.inj h4).symm
    refine ⟨?_, p3, p4⟩
    rw [hv, ← object_members, e1, e2, e3, e4, e5]
    simp only [filterSlots, members_present_cons, List.append_nil]
    rfl

theorem marshalWatermark_fields (fj : Float64 → Option (List Char)) (w : WatermarkParams)
    (v : List Char) (h : marshalWatermark fj w = some v) :
    ∃ fs op, fj w.FontSize = some fs ∧ fj w.Opacity = some op ∧
      v = '{' :: bodyText (watermarkFields w fs op) := by
  unfold marshalWatermark at h
  cases hfs : fj w.FontSize with
  | none => simp [hfs] at h
  | some fs =>
    cases hop : fj w.Opacity with
    | none => simp [hfs, hop] at h
    | some op =>
      simp only [hfs, hop] at h
      refine ⟨fs, op, rfl, rfl, ?_⟩
      rw [← Option.some.inj h, ← object_members]
      rfl

theorem fields_of_object (V : String → List Char → Prop) (hV : ∀ n, Delim (V n))
    (fs₁ fs₂ : List (String × List Char)) (w₁ : WellFormed V fs₁) (w₂ : WellFormed V fs₂)
    (h : '{' :: bodyText fs₁ = '{' :: bodyText fs₂) : fs₁ = fs₂ := by
  have hb : bodyText fs₁ ++ [] = bodyText fs₂ ++ [] := by
    rw [List.append_nil, List.append_nil]; exact (List.cons.inj h).2
  exact (bodyText_inj V hV fs₁ fs₂ [] [] w₁ w₂ hb).1

theorem formatString_injective (s₁ s₂ : List Char) (h : formatString s₁ = formatString s₂) :
    s₁ = s₂ := by
  have hb : formatString s₁ ++ [] = formatString s₂ ++ [] := by
    rw [List.append_nil, List.append_nil]; exact h
  exact (formatString_inj s₁ s₂ [] [] hb).1

theorem marshalResize_injective (r₁ r₂ : ResizeParams)
    (h : marshalResize r₁ = marshalResize r₂) : r₁ = r₂ := by
  rw [marshalResize_fields, marshalResize_fields] at h
  have hf := fields_of_object InnerClass delim_innerClass _ _
    (wellFormed_resizeFields r₁) (wellFormed_resizeFields r₂) h
  obtain ⟨w₁, h₁⟩ := r₁
  obtain ⟨w₂, h₂⟩ := r₂
  simp only [resizeFields, List.cons.injEq, Prod.mk.injEq, true_and, and_true] at hf
  rw [formatInt_injective _ _ hf.1, formatInt_injective _ _ hf.2]

theorem marshalCrop_injective (c₁ c₂ : CropParams)
    (h : marshalCrop c₁ = marshalCrop c₂) : c₁ = c₂ := by
  rw [marshalCrop_fields, marshalCrop_fields] at h
  have hf := fields_of_object InnerClass delim_innerClass _ _
    (wellFormed_cropFields c₁) (wellFormed_cropFields c₂) h
  obtain ⟨w₁, h₁, x₁, y₁⟩ := c₁
  obtain ⟨w₂, h₂, x₂, y₂⟩ := c₂
  simp only [cropFields, List.cons.injEq, Prod.mk.injEq, true_and, and_true] at hf
  rw [formatInt_injective _ _ hf.1, formatInt_injective _ _ hf.2.1,
    formatInt_injective _ _ hf.2.2.1, formatInt_injective _ _ hf.2.2.2]

theorem bind_some_inj {α : Type} (g : α → List Char) (hg : ∀ a b, g a = g b → a = b)
    (o₁ o₂ : Option α)
    (h : o₁.bind (fun a => some (g a)) = o₂.bind (fun a => some (g a))) : o₁ = o₂ := by
  cases o₁ with
  | none =>
    cases o₂ with
    | none => rfl
    | some b => cases h
  | some a =>
    cases o₂ with
    | none => cases h
    | some b =>
      have : g a = g b := Option.some.inj h
      rw [hg a b this]

theorem bind_partial_inj {α : Type} (F : α → Option (List Char)) (E : α → α)
    (hF : ∀ a b v, F a = some v → F b = some v → E a = E b) (o₁ o₂ : Option α)
    (h : o₁.bind F = o₂.bind F) (p₁ : (o₁.bind F).isSome = o₁.isSome)
    (p₂ : (o₂.bind F).isSome = o₂.isSome) : o₁.map E = o₂.map E := by
  cases o₁ with
  | none =>
    cases o₂ with
    | none => rfl
    | some b =>
      exfalso
      rw [← h] at p₂
      cases p₂
  | some a =>
    cases o₂ with
    | none =>
      exfalso
      rw [h] at p₁
      cases p₁
    | some b =>
      cases hv : F a with
      | none =>
        exfalso
        have ha : (some a).bind F = none := hv
        rw [ha] at p₁
        cases p₁
      | some v =>
        have hb : F b = some v := by
          have hh : F a = F b := h
          rw [← hh, hv]
        show some (E a) = some (E b)
        rw [hF a b v hv hb]

theorem eraseFloat_eq (fj : Float64 → Option (List Char)) (o₁ o₂ : Option Float64)
    (h : o₁.bind fj = o₂.bind fj) (p₁ : (o₁.bind fj).isSome = o₁.isSome)
    (p₂ : (o₂.bind fj).isSome = o₂.isSome) : eraseFloat o₁ = eraseFloat o₂ :=
  bind_partial_inj fj (fun _ => ⟨0⟩) (fun _ _ _ _ _ => rfl) o₁ o₂ h p₁ p₂

theorem marshalFilters_inj (fj : Float64 → Option (List Char))
    (hfj : ∀ x t, fj x = some t → NoDelim t) (f₁ f₂ : FilterParams) (v : List Char)
    (h₁ : marshalFilters fj f₁ = some v) (h₂ : marshalFilters fj f₂ = some v) :
    f₁.withoutFloats = f₂.withoutFloats := by
  obtain ⟨e₁, b₁, s₁⟩ := marshalFilters_slots fj f₁ v h₁
  obtain ⟨e₂, b₂, s₂⟩ := marshalFilters_slots fj f₂ v h₂
  have hf := fields_of_object InnerClass delim_innerClass _ _
    (wellFormed_filterSlots fj hfj f₁) (wellFormed_filterSlots fj hfj f₂) (e₁ ▸ e₂)
  have hnd : ((filterSlots fj f₁).map Prod.fst).Nodup := by
    show (["grayscale", "sepia", "blur", "sharpen"] : List String).Nodup
    decide
  have hs := present_inj (filterSlots fj f₁) (filterSlots fj f₂) rfl hnd hf
  simp only [filterSlots, List.cons.injEq, Prod.mk.injEq, true_and, and_true,
    Option.some.injEq] at hs
  obtain ⟨hg, hsp, hb, hsh⟩ := hs
  unfold FilterParams.withoutFloats
  rw [formatBool_injective _ _ hg, formatBool_injective _ _ hsp,
    eraseFloat_eq fj _ _ hb b₁ b₂, eraseFloat_eq fj _ _ hsh s₁ s₂]

theorem marshalWatermark_inj (fj : Float64 → Option (List Char))
    (hfj : ∀ x t, fj x = some t → NoDelim t) (w₁ w₂ : WatermarkParams) (v : List Char)
    (h₁ : marshalWatermark fj w₁ = some v) (h₂ : marshalWatermark fj w₂ = some v) :
    w₁.withoutFloats = w₂.withoutFloats := by
  obtain ⟨fs₁, op₁, hfs₁, hop₁, e₁⟩ := marshalWatermark_fields fj w₁ v h₁
  obtain ⟨fs₂, op₂, hfs₂, hop₂, e₂⟩ := marshalWatermark_fields fj w₂ v h₂
  have hf := fields_of_object InnerClass delim_innerClass _ _
    (wellFormed_watermarkFields w₁ fs₁ op₁ (hfj _ _ hfs₁) (hfj _ _ hop₁))
    (wellFormed_watermarkFields w₂ fs₂ op₂ (hfj _ _ hfs₂) (hfj _ _ hop₂)) (e₁ ▸ e₂)
  simp only [watermarkFields, List.cons.injEq, Prod.mk.injEq, true_and, and_true] at hf
  obtain ⟨ht, -, hx, hy, -⟩ := hf
  unfold WatermarkParams.withoutFloats
  rw [formatString_injective _ _ ht, formatInt_injective _ _ hx, formatInt_injective _ _ hy]

theorem jsonMarshal_slots (fj : Float64 → Option (List Char)) (p : TransformParams)
    (js : List Char) (h : jsonMarshal fj p = some js) :
    js = '{' :: bodyText (present (paramSlots fj p)) ∧
      (p.Rotate.bind fj).isSome = p.Rotate.isSome ∧
      (p.Filters.bind (marshalFilters fj)).isSome = p.Filters.isSome ∧
      (p.Watermark.bind (marshalWatermark fj)).isSome = p.Watermark.isSome := by
  unfold jsonMarshal at h
  cases hc : collect [omitempty "resize" (fun r => some (marshalResize r)) p.Resize,
      omitempty "crop" (fun c => some (marshalCrop c)) p.Crop,
      omitempty "rotate" fj p.Rotate,
      omitempty "format" (fun s => some (formatString s)) p.Format,
      omitempty "filters" (marshalFilters fj) p.Filters,
      omitempty "flip" (fun b => some (formatBool b)) p.Flip,
      omitempty "mirror" (fun b => some (formatBool b)) p.Mirror,
      omitempty "watermark" (marshalWatermark fj) p.Watermark,
      omitempty "quality" (fun q => some (formatInt q)) p.Quality] with
  | none => rw [hc] at h; cases h
  | some out =>
    rw [hc] at h
    have hv : js = object out := (Option.some.inj h).symm
    obtain ⟨m1, h1, e1, -⟩ := collect_omitempty _ _ _ _ _ hc
    obtain ⟨m2, h2, e2, -⟩ := collect_omitempty _ _ _ _ _ h1
    obtain ⟨m3, h3, e3, p3⟩ := collect_omitempty _ _ _ _ _ h2
    obtain ⟨m4, h4, e4, -⟩ := collect_omitempty _ _ _ _ _ h3
    obtain ⟨m5, h5, e5, p5⟩ := collect_omitempty _ _ _ _ _ h4
    obtain ⟨m6, h6, e6, -⟩ := collect_omitempty _ _ _ _ _ h5
    obtain ⟨m7, h7, e7, -⟩ := collect_omitempty _ _ _ _ _ h6
    obtain ⟨m8, h8, e8, p8⟩ := collect_omitempty _ _ _ _ _ h7
    obtain ⟨m9, h9, e9, -⟩ := collect_omitempty _ _ _ _ _ h8
    have e10 : m9 = [] := (Option.some.inj h9).symm
    refine ⟨?_, p3, p5, p8⟩
    rw [hv, ← object_members, e1, e2, e3, e4, e5, e6, e7, e8, e9, e10]
    simp only [paramSlots, members_present_cons, List.append_nil]

theorem outerClass_token (n : String) (v : List Char) (h1 : n ≠ "format")
    (h2 : ¬(n = "resize" ∨ n = "crop" ∨ n = "filters" ∨ n = "watermark")) (hv : NoDelim v) :
    OuterClass n v := by
  unfold OuterClass
  rw [if_neg h1, if_neg h2]
  exact hv

theorem outerClass_object (n : String) (v : List Char) (h1 : n ≠ "format")
    (h2 : n = "resize" ∨ n = "crop" ∨ n = "filters" ∨ n = "watermark")
    (hv : ∃ fs, WellFormed InnerClass fs ∧ v = '{' :: bodyText fs) : OuterClass n v := by
  unfold OuterClass
  rw [if_neg h1, if_pos h2]
  exact hv

theorem outer_slot (n : String) (o : Option (List Char)) (hq : '"' ∉ n.toList)
    (ho : ∀ v, o = some v → OuterClass n v) :
    '"' ∉ (n, o).1.toList ∧ ∀ v, (n, o).2 = some v → OuterClass (n, o).1 v :=
  ⟨hq, ho⟩

theorem bind_some_value {α : Type} (g : α → List Char) (o : Option α) (v : List Char)
    (h : o.bind (fun a => some (g a)) = some v) : ∃ a, v = g a := by
  cases o with
  | none => cases h
  | some a => exact ⟨a, (Option.some.inj h).symm⟩

theorem bind_value {α : Type} (F : α → Option (List Char)) (o : Option α) (v : List Char)
    (h : o.bind F = some v) : ∃ a, F a = some v := by
  cases o with
  | none => cases h
  | some a => exact ⟨a, h⟩

theorem wellFormed_paramSlots (fj : Float64 → Option (List Char))
    (hfj : ∀ x t, fj x = some t → NoDelim t) (p : TransformParams) :
    WellFormed OuterClass (present (paramSlots fj p)) := by
  apply wellFormed_present
  intro s hs
  simp only [paramSlots, List.mem_cons, List.mem_singleton, List.not_mem_nil, or_false] at hs
  rcases hs with rfl | rfl | rfl | rfl | rfl | rfl | rfl | rfl | rfl
  · refine outer_slot "resize" _ (by decide) (fun v hv => ?_)
    obtain ⟨r, rfl⟩ := bind_some_value _ _ _ hv
    exact outerClass_object _ _ (by decide) (by decide)
      ⟨_, wellFormed_resizeFields r, marshalResize_fields r⟩
  · refine outer_slot "crop" _ (by decide) (fun v hv => ?_)
    obtain ⟨c, rfl⟩ := bind_some_value _ _ _ hv
    exact outerClass_object _ _ (by decide) (by decide)
      ⟨_, wellFormed_cropFields c, marshalCrop_fields c⟩
  · exact outer_slot "rotate" _ (by decide)
      (fun v hv => outerClass_token _ _ (by decide) (by decide) (bind_noDelim fj hfj _ v hv))
  · refine outer_slot "format" _ (by decide) (fun v hv => ?_)
    obtain ⟨s, rfl⟩ := bind_some_value _ _ _ hv
    unfold OuterClass
    rw [if_pos rfl]
    exact ⟨s, rfl⟩
  · refine outer_slot "filters" _ (by decide) (fun v hv => ?_)
    obtain ⟨f, hf⟩ := bind_value _ _ _ hv
    exact outerClass_object _ _ (by decide) (by decide)
      ⟨_, wellFormed_filterSlots fj hfj f, (marshalFilters_slots fj f v hf).1⟩
  · refine outer_slot "flip" _ (by decide) (fun v hv => ?_)
    obtain ⟨b, rfl⟩ := bind_some_value _ _ _ hv
    exact outerClass_token _ _ (by decide) (by decide) (formatBool_noDelim b)
  · refine outer_slot "mirror" _ (by decide) (fun v hv => ?_)
    obtain ⟨b, rfl⟩ := bind_some_value _ _ _ hv
    exact outerClass_token _ _ (by decide) (by decide) (formatBool_noDelim b)
  · refine outer_slot "watermark" _ (by decide) (fun v hv => ?_)
    obtain ⟨w, hw⟩ := bind_value _ _ _ hv
    obtain ⟨fs, op, hfs, hop, e⟩ := marshalWatermark_fields fj w v hw
    exact outerClass_object _ _ (by decide) (by decide)
      ⟨_, wellFormed_watermarkFields w fs op (hfj _ _ hfs) (hfj _ _ hop), e⟩
  · refine outer_slot "quality" _ (by decide) (fun v hv => ?_)
    obtain ⟨q, rfl⟩ := bind_some_value _ _ _ hv
    exact outerClass_token _ _ (by decide) (by decide) (formatInt_noDelim q)

/-- Two parameter values with the same serialization agree in which fields
are present and in every integer, boolean and string value. -/
theorem jsonMarshal_inj (fj : Float64 → Option (List Char))
    (hfj : ∀ x t, fj x = some t → NoDelim t) (p₁ p₂ : TransformParams) (js : List Char)
    (h₁ : jsonMarshal fj p₁ = some js) (h₂ : jsonMarshal fj p₂ = some js) :
    p₁.withoutFloats = p₂.withoutFloats := by
  obtain ⟨e₁, r₁, f₁, w₁⟩ := jsonMarshal_slots fj p₁ js h₁
  obtain ⟨e₂, r₂, f₂, w₂⟩ := jsonMarshal_slots fj p₂ js h₂
  have hf := fields_of_object OuterClass delim_outerClass _ _
    (wellFormed_paramSlots fj hfj p₁) (wellFormed_paramSlots fj hfj p₂) (e₁ ▸ e₂)
  have hnd : ((paramSlots fj p₁).map Prod.fst).Nodup := by
    show (["resize", "crop", "rotate", "format", "filters", "flip", "mirror", "watermark",
      "quality"] : List String).Nodup
    decide
  have hs := present_inj (paramSlots fj p₁) (paramSlots fj p₂) rfl hnd hf
  simp only [paramSlots, List.cons.injEq, Prod.mk.injEq, true_and, and_true] at hs
  obtain ⟨hres, hcrop, hrot, hfmt, hfil, hflip, hmir, hwm, hq⟩ := hs
  unfold TransformParams.withoutFloats
  rw [bind_some_inj marshalResize marshalResize_injective _ _ hres,
    bind_some_inj marshalCrop marshalCrop_injective _ _ hcrop,
    eraseFloat_eq fj _ _ hrot r₁ r₂,
    bind_some_inj formatString formatString_injective _ _ hfmt,
    bind_partial_inj (marshalFilters fj) FilterParams.withoutFloats
      (marshalFilters_inj fj hfj) _ _ hfil f₁ f₂,
    bind_some_inj formatBool formatBool_injective _ _ hflip,
    bind_some_inj formatBool formatBool_injective _ _ hmir,
    bind_partial_inj (marshalWatermark fj) WatermarkParams.withoutFloats
      (marshalWatermark_inj fj hfj) _ _ hwm w₁ w₂,
    bind_some_inj formatInt formatInt_injective _ _ hq]

theorem utf8DecodeChar_encode (c : Char) (rest : List Nat) :
    utf8DecodeChar (utf8EncodeChar c ++ rest) = some (c.toNat, rest) := by
  unfold utf8EncodeChar
  simp only
  split_ifs with h1 h2 h3
  · simp [utf8DecodeChar, h1]
  · have ha : ¬ (192 + c.toNat / 64 < 128) := by omega
    have hb : 192 + c.toNat / 64 < 224 := by omega
    simp only [List.cons_append, List.nil_append, utf8DecodeChar, ha, hb, if_true, if_false]
    have : (192 + c.toNat / 64 - 192) * 64 + (128 + c.toNat % 64 - 128) = c.toNat := by omega
    rw [this]
  · have ha : ¬ (224 + c.toNat / 4096 < 128) := by omega
    have hb : ¬ (224 + c.toNat / 4096 < 224) := by omega
    have hc : 224 + c.toNat / 4096 < 240 := by omega
    simp only [List.cons_append, List.nil_append, utf8DecodeChar, ha, hb, hc, if_true,
      if_false]
    have : (224 + c.toNat / 4096 - 224) * 4096 + (128 + c.toNat / 64 % 64 - 128) * 64
        + (128 + c.toNat % 64 - 128) = c.toNat := by omega
    rw [this]
  · have ha : ¬ (240 + c.toNat / 262144 < 128) := by omega
    have hb : ¬ (240 + c.toNat / 262144 < 224) := by omega
    have hc : ¬ (240 + c.toNat / 262144 < 240) := by omega
    simp only [List.cons_append, List.nil_append, utf8DecodeChar, ha, hb, hc, if_false]
    have : (240 + c.toNat / 262144 - 240) * 262144 + (128 + c.toNat / 4096 % 64 - 128) * 4096
        + (128 + c.toNat / 64 % 64 - 128) * 64 + (128 + c.toNat % 64 - 128) = c.toNat := by
      omega
    rw [this]

/-- Two texts with the same bytes are the same text. -/
theorem utf8Bytes_injective (s₁ : List Char) :
    ∀ s₂ : List Char, utf8Bytes s₁ = utf8Bytes s₂ → s₁ = s₂ := by
  induction s₁ with
  | nil =>
    intro s₂ h
    cases s₂ with
    | nil => rfl
    | cons d s₂ =>
      have h1 := congrArg utf8DecodeChar h
      have hd : utf8Bytes (d :: s₂) = utf8EncodeChar d ++ utf8Bytes s₂ := by
        simp [utf8Bytes]
      rw [hd, utf8DecodeChar_encode] at h1
      cases h1
  | cons c s₁ ih =>
    intro s₂ h
    have hc : utf8Bytes (c :: s₁) = utf8EncodeChar c ++ utf8Bytes s₁ := by
      simp [utf8Bytes]
    cases s₂ with
    | nil =>
      have h1 := congrArg utf8DecodeChar h
      rw [hc, utf8DecodeChar_encode] at h1
      cases h1
    | cons d s₂ =>
      have hd : utf8Bytes (d :: s₂) = utf8EncodeChar d ++ utf8Bytes s₂ := by
        simp [utf8Bytes]
      have h1 := congrArg utf8DecodeChar h
      rw [hc, hd, utf8DecodeChar_encode, utf8DecodeChar_encode] at h1
      have hp := Option.some.inj h1
      have hn : c.toNat = d.toNat := congrArg Prod.fst hp
      have hcd : c = d := by rw [← Char.ofNat_toNat c, ← Char.ofNat_toNat d, hn]
      rw [hcd, ih s₂ (congrArg Prod.snd hp)]

theorem leBytes_lt (n : Nat) : ∀ x, ∀ b ∈ MD5.leBytes n x, b < 256 := by
  induction n with
  | zero => intro x b hb; cases hb
  | succ n ih =>
    intro x b hb
    simp only [MD5.leBytes] at hb
    rcases List.mem_cons.mp hb with rfl | hb
    · omega
    · exact ih _ b hb

theorem md5Sum_lt (msg : List Nat) : ∀ b ∈ MD5.Sum msg, b < 256 := by
  intro b hb
  simp only [MD5.Sum, List.mem_append] at hb
  rcases hb with ((hb | hb) | hb) | hb <;> exact leBytes_lt _ _ b hb

/-- Two byte strings with the same hexadecimal text are the same. -/
theorem hexEncodeToString_injective (bs₁ : List Nat) :
    ∀ bs₂ : List Nat, (∀ b ∈ bs₁, b < 256) → (∀ b ∈ bs₂, b < 256) →
      hexEncodeToString bs₁ = hexEncodeToString bs₂ → bs₁ = bs₂ := by
  induction bs₁ with
  | nil =>
    intro bs₂ _ _ h
    cases bs₂ with
    | nil => rfl
    | cons b bs₂ => simp [hexEncodeToString] at h
  | cons a bs₁ ih =>
    intro bs₂ h₁ h₂ h
    cases bs₂ with
    | nil => simp [hexEncodeToString] at h
    | cons b bs₂ =>
      have ha := h₁ a (List.mem_cons_self _ _)
      have hb := h₂ b (List.mem_cons_self _ _)
      have hh : hexDigit (a / 16) :: hexDigit (a % 16) :: hexEncodeToString bs₁
          = hexDigit (b / 16) :: hexDigit (b % 16) :: hexEncodeToString bs₂ := by
        simpa [hexEncodeToString] using h
      obtain ⟨hq, hrest⟩ := List.cons.inj hh
      obtain ⟨hr, htl⟩ := List.cons.inj hrest
      have hq2 := congrArg hexVal hq
      have hr2 := congrArg hexVal hr
      rw [hexVal_hexDigit _ (by omega), hexVal_hexDigit _ (by omega)] at hq2 hr2
      have hab : a = b := by omega
      rw [hab, ih bs₂ (fun x hx => h₁ x (List.mem_cons_of_mem _ hx))
        (fun x hx => h₂ x (List.mem_cons_of_mem _ hx)) htl]

theorem decimalFloatJSON_noDelim (x : Float64) (t : List Char)
    (h : decimalFloatJSON x = some t) : NoDelim t := by
  rw [← Option.some.inj h]
  intro c hc
  exact (decimal_char c (toDigits_chars _ c hc)).2

/-- C22: the serialization that `TransformImage` hashes tells apart any two
parameter values that differ in which fields are present or in the value of
an integer, boolean or string field (resize, crop, flip, mirror, grayscale,
sepia, format, quality, watermark text and coordinates). For every float
encoder that writes no comma and no closing brace, two such values that both
serialize give different byte strings; so when their cache keys are equal,
two different byte strings have the same MD5 sum. -/
theorem C22_serialization_injective (fj : Float64 → Option (List Char))
    (hfj : ∀ x t, fj x = some t → NoDelim t) (p₁ p₂ : TransformParams)
    (js₁ js₂ : List Char) (h₁ : jsonMarshal fj p₁ = some js₁)
    (h₂ : jsonMarshal fj p₂ = some js₂)
    (hne : p₁.withoutFloats ≠ p₂.withoutFloats) :
    utf8Bytes js₁ ≠ utf8Bytes js₂ ∧
    (transformationHash js₁ = transformationHash js₂ →
      MD5.Sum (utf8Bytes js₁) = MD5.Sum (utf8Bytes js₂)) := by
  constructor
  · intro hb
    have hjs : js₁ = js₂ := utf8Bytes_injective js₁ js₂ hb
    rw [← hjs] at h₂
    exact hne (jsonMarshal_inj fj hfj p₁ p₂ js₁ h₁ h₂)
  · intro hh
    exact hexEncodeToString_injective _ _ (md5Sum_lt _) (md5Sum_lt _) hh

/-- C22 at a rotation with the flip flag set and the same rotation with the flag cleared. -/
theorem C22_serialization_injective_witness :
    utf8Bytes "\x7b\"rotate\":90,\"flip\":true\x7d".toList
      ≠ utf8Bytes "\x7b\"rotate\":90,\"flip\":false\x7d".toList :=
  (C22_serialization_injective decimalFloatJSON decimalFloatJSON_noDelim
    (turnedParams true) (turnedParams false)
    "\x7b\"rotate\":90,\"flip\":true\x7d".toList
    "\x7b\"rotate\":90,\"flip\":false\x7d".toList
    (by decide) (by decide) (by decide)).1

end Chayachitr
